import Mathlib

/-!
The `dirt` filesystem event aggregation (dirt.bpf.c, dirt.h).

A shallow embedding of the kernel-side aggregation engine of `dirt`:
the path filter `is_path_allowed`, the event handler `handle_fs_event`
with its path reconstruction, and the rename hook.

Conventions of the embedding.

* A `char` is a `Nat`; the NUL terminator is `0`, `'/'` is `47`.
* A fixed-size `char` array is a `List Nat`; reading index `j` is `getD j 0`.
* A `struct dentry *` is the list of directory entries from the entry pointed
  to up to the last ancestor; `[]` is the NULL pointer and the last entry of
  the list is its own `d_parent` (as the root of a filesystem is).
* Kernel helpers whose result the program cannot predict (clock, current
  pid, a failing map update, a full ring buffer, LRU eviction) are inputs of
  one invocation, collected in `Helpers`.
* `uint32_t` arithmetic is reduced modulo `2 ^ 32`.  The five `uint64_t`
  statistics start at zero and grow by at most one per event, so they are
  kept as plain naturals.
-/

namespace Dirt

/-! ## Constants of dirt.h -/

def FS_ACCESS : Nat := 1
def FS_MODIFY : Nat := 2
def FS_ATTRIB : Nat := 4
def FS_CLOSE_WRITE : Nat := 8
def FS_CLOSE_NOWRITE : Nat := 16
def FS_OPEN : Nat := 32
def FS_MOVED_FROM : Nat := 64
def FS_MOVED_TO : Nat := 128
def FS_CREATE : Nat := 256
def FS_DELETE : Nat := 512
def FS_DELETE_SELF : Nat := 1024
def FS_MOVE_SELF : Nat := 2048
def FS_OPEN_EXEC : Nat := 4096
def FS_UNMOUNT : Nat := 8192
def FS_Q_OVERFLOW : Nat := 16384

def MONITOR_NONE : Nat := 1
def MONITOR_FILE : Nat := 2

def DCACHE_ENTRY_TYPE : Nat := 7340032
def DCACHE_DIRECTORY_TYPE : Nat := 2097152
def DCACHE_AUTODIR_TYPE : Nat := 3145728

/-- Octal 00170000. -/
def S_IFMT : Nat := 61440
/-- Octal 0120000. -/
def S_IFLNK : Nat := 40960
/-- Octal 0100000. -/
def S_IFREG : Nat := 32768

def S_ISLNK (m : Nat) : Bool := (m &&& S_IFMT) == S_IFLNK
def S_ISREG (m : Nat) : Bool := (m &&& S_IFMT) == S_IFREG

def RECORD_TYPE_FILE : Nat := 1
def DNAME_INLINE_LEN : Nat := 32
def FILENAME_LEN_MAX : Nat := 32
def FILEPATH_LEN_MAX : Nat := 96
def FILEPATH_NODE_MAX : Nat := 16
def FS_EVENT_MAX : Nat := 15
def PREFIXES_MAX : Nat := 8
def PREFIX_MAX_LEN : Nat := 16

/-- The value of `sizeof(struct RECORD_FS)`: 16 bytes of `struct RECORD`,
4 + 60 bytes of counters, 12 bytes of `ino`, `imode`, `inlink`, 4 bytes of
padding, 40 bytes of sizes and times, 96 bytes of path and 32 of name. -/
def sizeof_RECORD_FS : Nat := 264

def KEY_PID_INO (p i : Nat) : Nat := ((p <<< 32) % 2 ^ 64) ||| i

/-- The enumeration `enum INDEX_FS_EVENT`. -/
inductive INDEX_FS_EVENT where
  | I_CREATE
  | I_OPEN
  | I_OPEN_EXEC
  | I_ACCESS
  | I_ATTRIB
  | I_MODIFY
  | I_CLOSE_WRITE
  | I_CLOSE_NOWRITE
  | I_MOVED_FROM
  | I_MOVED_TO
  | I_DELETE
  | I_DELETE_SELF
  | I_MOVE_SELF
  | I_UNMOUNT
  | I_Q_OVERFLOW
deriving DecidableEq, Repr

open INDEX_FS_EVENT

/-- The integer value of an enumerator, used as array index. -/
def INDEX_FS_EVENT.toNat : INDEX_FS_EVENT → Nat
  | I_CREATE => 0
  | I_OPEN => 1
  | I_OPEN_EXEC => 2
  | I_ACCESS => 3
  | I_ATTRIB => 4
  | I_MODIFY => 5
  | I_CLOSE_WRITE => 6
  | I_CLOSE_NOWRITE => 7
  | I_MOVED_FROM => 8
  | I_MOVED_TO => 9
  | I_DELETE => 10
  | I_DELETE_SELF => 11
  | I_MOVE_SELF => 12
  | I_UNMOUNT => 13
  | I_Q_OVERFLOW => 14

/-- The column `fsevt[index].value` of the table `fsevt`. -/
def fsevt_value : INDEX_FS_EVENT → Nat
  | I_CREATE => FS_CREATE
  | I_OPEN => FS_OPEN
  | I_OPEN_EXEC => FS_OPEN_EXEC
  | I_ACCESS => FS_ACCESS
  | I_ATTRIB => FS_ATTRIB
  | I_MODIFY => FS_MODIFY
  | I_CLOSE_WRITE => FS_CLOSE_WRITE
  | I_CLOSE_NOWRITE => FS_CLOSE_NOWRITE
  | I_MOVED_FROM => FS_MOVED_FROM
  | I_MOVED_TO => FS_MOVED_TO
  | I_DELETE => FS_DELETE
  | I_DELETE_SELF => FS_DELETE_SELF
  | I_MOVE_SELF => FS_MOVE_SELF
  | I_UNMOUNT => FS_UNMOUNT
  | I_Q_OVERFLOW => FS_Q_OVERFLOW

/-! ## Data model -/

/-- The structure `struct allowed_prefix` of dirt.h; the array `prefix` is the
field `prefix_`. -/
structure allowed_prefix where
  prefix_ : List Nat
  enabled : Bool
deriving DecidableEq, Repr

/-- The fields of the kernel's `struct inode` that the handler reads. -/
structure inode where
  i_ino : Nat
  i_mode : Nat
  i_size : Nat
  i_nlink : Nat
  i_atime_sec : Nat
  i_atime_nsec : Nat
  i_mtime_sec : Nat
  i_mtime_nsec : Nat
  i_ctime_sec : Nat
  i_ctime_nsec : Nat
deriving DecidableEq, Repr

/-- One kernel `struct dentry` without its parent link: the bytes of
`d_name.name` up to the NUL, the inode (absent for a negative entry) and the
flags. -/
structure dentry where
  d_name : List Nat
  d_inode : Option inode
  d_flags : Nat
deriving DecidableEq, Repr

structure RECORD where
  type : Nat
  ts : Nat
deriving DecidableEq, Repr

/-- The record `struct RECORD_FS`.  The union of `filename` with the pair
`filename_from`, `filename_to` is the one array `filename`: its first 16 bytes
are `filename_from` and its last 16 bytes are `filename_to`. -/
structure RECORD_FS where
  rc : RECORD
  events : Nat
  event : List Nat
  ino : Nat
  imode : Nat
  inlink : Nat
  isize : Nat
  atime_nsec : Nat
  mtime_nsec : Nat
  ctime_nsec : Nat
  isize_first : Nat
  filepath : List Nat
  filename : List Nat
deriving DecidableEq, Repr

def RECORD_FS.filename_from (r : RECORD_FS) : List Nat := r.filename.take (FILENAME_LEN_MAX / 2)
def RECORD_FS.filename_to (r : RECORD_FS) : List Nat := r.filename.drop (FILENAME_LEN_MAX / 2)

structure STATS where
  fs_records : Nat
  fs_records_deleted : Nat
  fs_records_dropped : Nat
  fs_records_rb_max : Nat
  fs_events : Nat
deriving DecidableEq, Repr

structure FS_EVENT_INFO where
  index : INDEX_FS_EVENT
  dentry : List Dirt.dentry
  dentry_old : List Dirt.dentry
deriving DecidableEq, Repr

/-- The read-only globals of dirt.bpf.c, the allow-list map (written by user
space only) and the byte size of the ring buffer. -/
structure Config where
  agg_events_max : Nat
  pid_self : Nat
  monitor : Nat
  allowed_prefixes : List allowed_prefix
  ringbuf_size : Nat

/-- What the kernel helpers answer during one invocation of the handler. -/
structure Helpers where
  ktime_get_ns : Nat
  current_pid_tgid : Nat
  map_update_fails : Bool
  ringbuf_output_fails : Bool
  lru_evicted : List Nat
deriving DecidableEq, Repr

/-- The mutable maps and variables of dirt.bpf.c: the LRU hash `hash_records`,
the scratch slot `heap_record_fs`, the statistics, the records that the ring
buffer `ringbuf_records` has taken (oldest first) and the static
`debug_count`. -/
structure State where
  hash_records : Nat → Option RECORD_FS
  heap_record_fs : RECORD_FS
  stats : STATS
  ringbuf_records : List RECORD_FS
  debug_count : Nat

/-! ## Memory and kernel helpers -/

/-- The bytes of the C string stored in `s`: everything before the first NUL. -/
def cstr (s : List Nat) : List Nat := s.takeWhile (fun c => c != 0)

/-- Overwrite the bytes of `mem` from position `off` on with `bytes`. -/
def mem_write (mem : List Nat) (off : Nat) (bytes : List Nat) : List Nat :=
  mem.take off ++ bytes ++ mem.drop (off + bytes.length)

/-- The helper `bpf_probe_read_kernel_str(dst, size, unsafe_ptr)`: the bytes it
writes at `dst` and its return value.  A string is copied up to `size - 1`
bytes and NUL-terminated, the result is the length with the NUL; a NULL source
faults, which zeroes the `size` bytes and returns `-EFAULT`. -/
def bpf_probe_read_kernel_str (size : Nat) (unsafe_ptr : Option (List Nat)) : List Nat × Int :=
  match unsafe_ptr with
  | none => (List.replicate size 0, -14)
  | some s =>
    let body := (cstr s).take (size - 1)
    (body ++ [0], (body.length : Int) + 1)

/-- The helper `bpf_ringbuf_output`: the ring buffer afterwards and the return
value, which is non-zero when the ring buffer has no room. -/
def bpf_ringbuf_output (rb : List RECORD_FS) (r : RECORD_FS) (no_room : Bool) : List RECORD_FS × Int :=
  if no_room then (rb, -11) else (rb ++ [r], 0)

/-- The helper `bpf_map_update_elem` on the LRU hash with `BPF_ANY`: the key is
bound to a copy of `r`; the least recently used entries named by `evicted`
make room. -/
def lru_update (m : Nat → Option RECORD_FS) (key : Nat) (r : RECORD_FS) (evicted : List Nat) :
    Nat → Option RECORD_FS :=
  fun k => if k = key then some r else if k ∈ evicted then none else m k

/-- The helper `bpf_map_delete_elem`: the map afterwards and the return value,
which is `-ENOENT` when the key is not bound. -/
def map_delete (m : Nat → Option RECORD_FS) (key : Nat) : (Nat → Option RECORD_FS) × Int :=
  match m key with
  | none => (m, -2)
  | some _ => (fun k => if k = key then none else m k, 0)

/-- `BPF_CORE_READ(dentry, d_name.name)`: NULL when read through a NULL pointer. -/
def read_d_name (d : List dentry) : Option (List Nat) := d.head?.map (fun e => e.d_name)

/-- `BPF_CORE_READ(dentry, d_inode)`. -/
def read_d_inode (d : List dentry) : Option inode := d.head?.bind (fun e => e.d_inode)

/-- `BPF_CORE_READ(dentry, d_inode, i_ino)`: zero when a pointer on the way is NULL. -/
def read_d_ino (d : List dentry) : Nat := ((read_d_inode d).map (fun i => i.i_ino)).getD 0

/-- `BPF_CORE_READ(dentry, d_parent)`: the last entry of a chain is its own parent. -/
def read_d_parent : List dentry → List dentry
  | [] => []
  | [e] => [e]
  | _ :: rest => rest

/-- `BPF_CORE_READ(dentry, d_flags)`. -/
def read_d_flags (d : List dentry) : Nat := (d.head?.map (fun e => e.d_flags)).getD 0

/-! ## The path filter (dirt.bpf.c, lines 71-95) -/

/-- The inner loop of `is_path_allowed`, from index `j` with `fuel` rounds left:
the value of `matched` when the loop is left. -/
def prefix_matched (pre filepath : List Nat) : Nat → Nat → Bool
  | 0, _ => true
  | fuel + 1, j =>
    let c := pre.getD j 0
    if c = 0 then true
    else
      let fc := filepath.getD j 0
      if fc ≠ c then false
      else prefix_matched pre filepath fuel (j + 1)

/-- The outer loop of `is_path_allowed`, from index `i` with `fuel` rounds left. -/
def is_path_allowed_from (tbl : List allowed_prefix) (filepath : List Nat) : Nat → Nat → Bool
  | 0, _ => false
  | fuel + 1, i =>
    match tbl.get? i with
    | none => is_path_allowed_from tbl filepath fuel (i + 1)
    | some p =>
      if !p.enabled then is_path_allowed_from tbl filepath fuel (i + 1)
      else if prefix_matched p.prefix_ filepath PREFIX_MAX_LEN 0 then true
      else is_path_allowed_from tbl filepath fuel (i + 1)

def is_path_allowed (tbl : List allowed_prefix) (filepath : List Nat) : Bool :=
  is_path_allowed_from tbl filepath PREFIXES_MAX 0

/-! ## Path reconstruction (dirt.bpf.c, lines 173-197) -/

/-- The walk of lines 173-180 from round `cnt` with `fuel` rounds left: the
value of `cnt` and the array `pathnode` when the loop is left.  Without a
`break` the loop ends with `cnt = FILEPATH_NODE_MAX`. -/
def path_walk : Nat → Nat → List dentry → List (Option (List Nat)) → Nat × List (Option (List Nat))
  | 0, cnt, _, pathnode => (cnt, pathnode)
  | fuel + 1, cnt, dentry, pathnode =>
    let dname := read_d_name dentry
    let dparent := read_d_parent dentry
    let pathnode := pathnode.set cnt dname
    if read_d_ino dentry = read_d_ino dparent then (cnt, pathnode)
    else path_walk fuel (cnt + 1) dparent pathnode

/-- One round of the loop of lines 185-197, for the index `cnt`.  The memory
`mem` is the record from `filepath` on, that is `filepath` followed by
`filename`, and `offset` is the write position in `filepath`. -/
def path_append (pathnode : List (Option (List Nat))) (num_nodes cnt : Nat)
    (acc : List Nat × Nat) : List Nat × Nat :=
  let mem := acc.1
  let offset := acc.2
  match pathnode.getD cnt none with
  | none => (mem, offset)
  | some name =>
    if offset < FILEPATH_LEN_MAX - DNAME_INLINE_LEN then
      let rd := bpf_probe_read_kernel_str (FILEPATH_LEN_MAX - DNAME_INLINE_LEN) (some name)
      let mem := mem_write mem offset rd.1
      let len := (rd.2 % 2 ^ 32).toNat
      if len ≠ 0 ∧ offset < (FILEPATH_LEN_MAX + 2 ^ 64 - len) % 2 ^ 64 then
        let offset := (offset + (len - 1)) % 2 ^ 32
        if cnt ≠ num_nodes ∧ offset < FILEPATH_LEN_MAX then
          (mem.set offset 47, (offset + 1) % 2 ^ 32)
        else (mem, offset)
      else (mem, offset)
    else (mem, offset)

/-- The loop of lines 185-197, `for (cnt = ...; cnt > 0; cnt--)`, entered with
the given value of `cnt`. -/
def path_build (pathnode : List (Option (List Nat))) (num_nodes : Nat) :
    Nat → List Nat × Nat → List Nat × Nat
  | 0, acc => acc
  | cnt + 1, acc => path_build pathnode num_nodes cnt (path_append pathnode num_nodes (cnt + 1) acc)

/-- Lines 173-197: the memory of the record from `filepath` on after the path of
`dentry` has been reconstructed, where `filename` holds the bytes of the name
array before. -/
def resolve_path (dentry : List dentry) (filename : List Nat) : List Nat :=
  let w := path_walk FILEPATH_NODE_MAX 0 dentry (List.replicate FILEPATH_NODE_MAX none)
  let cnt := w.1
  let pathnode := w.2
  let num_nodes := if cnt < FILEPATH_NODE_MAX then cnt else 0
  let mem := List.replicate FILEPATH_LEN_MAX 0 ++ filename
  (path_build pathnode num_nodes num_nodes (mem, 0)).1

/-! ## The event handler (dirt.bpf.c, lines 99-267) -/

/-- Lines 126-150: the rejects.  The result is `none` when the handler returns
before it looks at the store, and the store key with the inode otherwise. -/
def fs_event_target (cfg : Config) (h : Helpers) (event : FS_EVENT_INFO) : Option (Nat × inode) :=
  if event.index = I_ACCESS ∨ event.index = I_ATTRIB then none
  else
    let pid := (h.current_pid_tgid >>> 32) % 2 ^ 32
    if cfg.pid_self = pid then none
    else
      let dentry := event.dentry
      let dentry_old := event.dentry_old
      let inode := read_d_inode (if dentry_old ≠ [] then dentry_old else dentry)
      let filename := mem_write (List.replicate FILENAME_LEN_MAX 0) 0
        (bpf_probe_read_kernel_str FILENAME_LEN_MAX (read_d_name dentry)).1
      match inode with
      | none => none
      | some inode =>
        if filename.getD 0 0 = 0 then none
        else
          let ino := inode.i_ino % 2 ^ 32
          let imode := inode.i_mode
          if !(S_ISREG imode || S_ISLNK imode) then none
          else some (KEY_PID_INO pid ino, inode)

/-- Lines 155-159: the aggregate found in the store, touched by this event. -/
def record_found (r : RECORD_FS) (ts_event : Nat) (event : FS_EVENT_INFO) : RECORD_FS :=
  let r :=
    if fsevt_value event.index = FS_MOVED_TO then
      let name := mem_write r.filename (FILENAME_LEN_MAX / 2 - 1)
        (List.replicate (FILENAME_LEN_MAX / 2 + 1) 0)
      let rd := bpf_probe_read_kernel_str (FILENAME_LEN_MAX / 2) (read_d_name event.dentry)
      { r with filename := mem_write name (FILENAME_LEN_MAX / 2) rd.1 }
    else r
  { r with rc := { r.rc with ts := ts_event } }

/-- Lines 166-202: a new aggregate, built in the scratch slot `r`. -/
def record_new (r : RECORD_FS) (ts_event : Nat) (inode : inode) (event : FS_EVENT_INFO) :
    RECORD_FS :=
  let filename := mem_write (List.replicate FILENAME_LEN_MAX 0) 0
    (bpf_probe_read_kernel_str FILENAME_LEN_MAX (read_d_name event.dentry)).1
  let mem := resolve_path event.dentry filename
  { r with
    rc := { r.rc with ts := ts_event }
    ino := inode.i_ino % 2 ^ 32
    isize_first := inode.i_size
    filepath := mem.take FILEPATH_LEN_MAX
    filename := mem.drop FILEPATH_LEN_MAX
    events := 0
    event := List.replicate FS_EVENT_MAX 0
    inlink := 0 }

/-- Lines 222-231: the live fields and the counters. -/
def record_update (r : RECORD_FS) (inode : inode) (event : FS_EVENT_INFO) : RECORD_FS :=
  let inlink := inode.i_nlink
  let inlink :=
    if event.index = I_CREATE ∧ event.dentry_old ≠ [] then (inlink + 1) % 2 ^ 32 else inlink
  { r with
    imode := inode.i_mode
    isize := inode.i_size
    inlink := inlink
    atime_nsec := (inode.i_atime_sec * 1000000000 + inode.i_atime_nsec) % 2 ^ 64
    mtime_nsec := (inode.i_mtime_sec * 1000000000 + inode.i_mtime_nsec) % 2 ^ 64
    ctime_nsec := (inode.i_ctime_sec * 1000000000 + inode.i_ctime_nsec) % 2 ^ 64
    events := (r.events + 1) % 2 ^ 32
    event := r.event.set event.index.toNat ((r.event.getD event.index.toNat 0 + 1) % 2 ^ 32) }

/-- Lines 237-243: the value of `agg_end`. -/
def agg_end (cfg : Config) (index : INDEX_FS_EVENT) (imode : Nat) (r : RECORD_FS) : Bool :=
  let agg_end : Bool :=
    if index = I_CLOSE_WRITE ∨ index = I_CLOSE_NOWRITE ∨ index = I_DELETE ∨ index = I_MOVED_TO ∨
        (index = I_CREATE ∧ (S_ISLNK imode = true ∨ r.inlink > 1)) then true
    else false
  if !agg_end && cfg.agg_events_max != 0 then
    if r.events ≥ cfg.agg_events_max then true else agg_end
  else agg_end

/-- A write through the pointer `r`: it points into `hash_records` when the key
was found and to the scratch slot otherwise. -/
def write_r (st : State) (key : Nat) (found : Bool) (r : RECORD_FS) : State :=
  if found then { st with hash_records := fun k => if k = key then some r else st.hash_records k }
  else { st with heap_record_fs := r }

/-- Lines 259-265: the capacity statistic. -/
def stats_rb_max (cfg : Config) (s : STATS) : STATS :=
  let rsz := sizeof_RECORD_FS
  let rsz := rsz + (8 - rsz % 8)
  if s.fs_records = 1 then { s with fs_records_rb_max := cfg.ringbuf_size / rsz } else s

/-- Lines 245-266, entered after the update of the store has succeeded.  The
store then holds a copy of `r`, and `r` still points to the scratch slot
(`found = false`) or to the element that the update has replaced
(`found = true`), so the write of `rc.type` reaches the scratch slot or no
element of the store. -/
def handle_fs_event_close (cfg : Config) (st : State) (h : Helpers) (key : Nat) (found : Bool)
    (r : RECORD_FS) (closing : Bool) : State :=
  if closing then
    let r := { r with rc := { r.rc with type := RECORD_TYPE_FILE } }
    let st := if found then st else { st with heap_record_fs := r }
    let out := bpf_ringbuf_output st.ringbuf_records r h.ringbuf_output_fails
    let st := { st with ringbuf_records := out.1 }
    let st :=
      if out.2 ≠ 0 then
        { st with stats := { st.stats with fs_records_dropped := st.stats.fs_records_dropped + 1 } }
      else st
    let del := map_delete st.hash_records key
    let st := { st with hash_records := del.1 }
    if del.2 ≠ 0 then st
    else
      let st :=
        { st with stats := { st.stats with fs_records_deleted := st.stats.fs_records_deleted + 1 } }
      { st with stats := stats_rb_max cfg st.stats }
  else { st with stats := stats_rb_max cfg st.stats }

/-- Lines 151-206: the record `r` points to when the filter is evaluated, the
aggregate of the store touched by the event or a new one built in the scratch
slot. -/
def record_for (st : State) (h : Helpers) (key : Nat) (inode : inode) (event : FS_EVENT_INFO) :
    RECORD_FS :=
  match st.hash_records key with
  | some r => record_found r h.ktime_get_ns event
  | none => record_new st.heap_record_fs h.ktime_get_ns inode event

/-- The function `handle_fs_event`. -/
def handle_fs_event (cfg : Config) (st : State) (h : Helpers) (event : FS_EVENT_INFO) : State :=
  match fs_event_target cfg h event with
  | none => st
  | some (key, inode) =>
    let found := (st.hash_records key).isSome
    let r := record_for st h key inode event
    let st := write_r st key found r
    let st :=
      if found then st
      else { st with stats := { st.stats with fs_records := st.stats.fs_records + 1 } }
    if !is_path_allowed cfg.allowed_prefixes r.filepath then
      if st.debug_count < 5 then { st with debug_count := st.debug_count + 1 } else st
    else
      let st := { st with stats := { st.stats with fs_events := st.stats.fs_events + 1 } }
      let r := record_update r inode event
      let st := write_r st key found r
      if h.map_update_fails then st
      else
        let st := { st with hash_records := lru_update st.hash_records key r h.lru_evicted }
        handle_fs_event_close cfg st h key found r (agg_end cfg event.index inode.i_mode r)

/-- The aggregate as the handler persists it: the record of `record_for` with
the live fields and counters of lines 222-231. -/
def record_merged (st : State) (h : Helpers) (key : Nat) (inode : inode) (event : FS_EVENT_INFO) :
    RECORD_FS :=
  record_update (record_for st h key inode event) inode event

/-- The record as the handler hands it to the ring buffer (line 246). -/
def record_closed (r : RECORD_FS) : RECORD_FS :=
  { r with rc := { r.rc with type := RECORD_TYPE_FILE } }

/-- The program `security_inode_rename` (lines 368-380); `h1` and `h2` are the
helper answers during the first and the second call of the handler. -/
def security_inode_rename (cfg : Config) (st : State) (h1 h2 : Helpers)
    (old_dentry new_dentry : List dentry) : State :=
  if cfg.monitor &&& MONITOR_FILE = 0 then st
  else if read_d_flags old_dentry &&& DCACHE_ENTRY_TYPE = DCACHE_DIRECTORY_TYPE ∨
      read_d_flags old_dentry &&& DCACHE_ENTRY_TYPE = DCACHE_AUTODIR_TYPE then st
  else
    let event_from : FS_EVENT_INFO := ⟨I_MOVED_FROM, old_dentry, []⟩
    let st := handle_fs_event cfg st h1 event_from
    let event_to : FS_EVENT_INFO := ⟨I_MOVED_TO, new_dentry, old_dentry⟩
    handle_fs_event cfg st h2 event_to

/-- The state when the programs are loaded: every map is zeroed. -/
def RECORD_FS.zero : RECORD_FS :=
  { rc := ⟨0, 0⟩, events := 0, event := List.replicate FS_EVENT_MAX 0, ino := 0, imode := 0,
    inlink := 0, isize := 0, atime_nsec := 0, mtime_nsec := 0, ctime_nsec := 0, isize_first := 0,
    filepath := List.replicate FILEPATH_LEN_MAX 0, filename := List.replicate FILENAME_LEN_MAX 0 }

def State.init : State :=
  { hash_records := fun _ => none, heap_record_fs := RECORD_FS.zero, stats := ⟨0, 0, 0, 0, 0⟩,
    ringbuf_records := [], debug_count := 0 }

/-- The handler run on a sequence of events, each with the helper answers of
its invocation. -/
def run (cfg : Config) (st : State) (evs : List (Helpers × FS_EVENT_INFO)) : State :=
  evs.foldl (fun s e => handle_fs_event cfg s e.1 e.2) st

/-! ## Predicates and concrete inputs used by the theorems -/

/-- The counters of a record agree: there are `FS_EVENT_MAX` of them, their sum
is the total modulo `2 ^ 32`, and the sum is at most `n`. -/
def counters_ok (n : Nat) (r : RECORD_FS) : Prop :=
  r.event.length = FS_EVENT_MAX ∧ r.event.sum % 2 ^ 32 = r.events ∧ r.event.sum ≤ n

/-- An inode with the given number, mode, link count and size; the times are zero. -/
def ex_inode (ino mode nlink size : Nat) : inode := ⟨ino, mode, size, nlink, 0, 0, 0, 0, 0, 0⟩

/-- The entry of the regular file `/data/x.txt` (inode 100, mode 0100644, one
link, size 0), its directory `data` and the root `/`. -/
def ex_chain : List dentry :=
  [⟨[120, 46, 116, 120, 116], some (ex_inode 100 33188 1 0), 0⟩,
   ⟨[100, 97, 116, 97], some (ex_inode 10 16877 2 0), 2097152⟩,
   ⟨[47], some (ex_inode 2 16877 2 0), 2097152⟩]

/-- The allow-list with the one enabled entry `/`. -/
def ex_allow_root : List allowed_prefix := [⟨47 :: List.replicate 15 0, true⟩]

/-- No cap, own pid 999, file monitoring on, every absolute path allowed. -/
def ex_cfg : Config := ⟨0, 999, MONITOR_FILE, ex_allow_root, 4194304⟩

/-- The helpers of an invocation by pid 7 at time 1000 where nothing fails. -/
def ex_h : Helpers := ⟨1000, 30064771072, false, false, []⟩

def ex_create : FS_EVENT_INFO := ⟨I_CREATE, ex_chain, []⟩
def ex_modify : FS_EVENT_INFO := ⟨I_MODIFY, ex_chain, []⟩

/-- The store key of pid 7 and inode 100. -/
def ex_key : Nat := 30064771172

/-- The event passes the rejects with the store key `key`, its record passes
the filter and the update of the store succeeds. -/
def accepted_on (cfg : Config) (st : State) (h : Helpers) (ev : FS_EVENT_INFO) (key : Nat) : Bool :=
  match fs_event_target cfg h ev with
  | none => false
  | some (k, ino) =>
    k == key && is_path_allowed cfg.allowed_prefixes (record_for st h k ino ev).filepath &&
      !h.map_update_fails

/-- No event of the sequence, run from `st`, is accepted on `key`. -/
def none_accepted_on (cfg : Config) (key : Nat) : State → List (Helpers × FS_EVENT_INFO) → Bool
  | _, [] => true
  | st, e :: l =>
    !accepted_on cfg st e.1 e.2 key && none_accepted_on cfg key (handle_fs_event cfg st e.1 e.2) l

/-- The event passes the rejects with the store key `key`. -/
def targets_key (cfg : Config) (key : Nat) (e : Helpers × FS_EVENT_INFO) : Bool :=
  match fs_event_target cfg e.1 e.2 with
  | none => false
  | some (k, _) => k == key

/-- The number of events of the sequence that pass the rejects with the store
key `key`. -/
def events_on (cfg : Config) (key : Nat) (evs : List (Helpers × FS_EVENT_INFO)) : Nat :=
  evs.countP (targets_key cfg key)

/-- The entry of the regular file `/data/y` (inode 101) with its ancestors. -/
def ex_chain_y : List dentry :=
  [⟨[121], some (ex_inode 101 33188 1 0), 0⟩,
   ⟨[100, 97, 116, 97], some (ex_inode 10 16877 2 0), 2097152⟩,
   ⟨[47], some (ex_inode 2 16877 2 0), 2097152⟩]

def ex_close_write : FS_EVENT_INFO := ⟨I_CLOSE_WRITE, ex_chain, []⟩
def ex_modify_y : FS_EVENT_INFO := ⟨I_MODIFY, ex_chain_y, []⟩

/-- The helpers of an invocation by pid 7 that finds the ring buffer full. -/
def ex_h_full : Helpers := ⟨1000, 30064771072, false, true, []⟩

/-- As `ex_cfg`, with the cap of one event per aggregate. -/
def ex_cfg_one : Config := ⟨1, 999, MONITOR_FILE, ex_allow_root, 4194304⟩

/-- The state after a CLOSE_WRITE on `/data/x.txt` in the initial state. -/
def ex_st_closed : State := handle_fs_event ex_cfg State.init ex_h ex_close_write

/-- The state after a further MODIFY on `/data/y`. -/
def ex_st_later : State := run ex_cfg ex_st_closed [(ex_h, ex_modify_y)]

/-- The state after a CLOSE_WRITE on `/data/x.txt` that found the ring buffer
full. -/
def ex_st_dropped : State := handle_fs_event ex_cfg State.init ex_h_full ex_close_write

/-- The negative entry `/data/y.txt`, the target of a rename, with its
ancestors. -/
def ex_chain_new : List dentry :=
  [⟨[121, 46, 116, 120, 116], none, 0⟩,
   ⟨[100, 97, 116, 97], some (ex_inode 10 16877 2 0), 2097152⟩,
   ⟨[47], some (ex_inode 2 16877 2 0), 2097152⟩]

/-- The entry of the regular file `x` below a directory with a name of 100
bytes `b`, below a directory with a name of 40 bytes `a`, below the root. -/
def ex_long_chain : List dentry :=
  [⟨[120], some (ex_inode 100 33188 1 0), 0⟩,
   ⟨List.replicate 100 98, some (ex_inode 12 16877 2 0), 2097152⟩,
   ⟨List.replicate 40 97, some (ex_inode 11 16877 2 0), 2097152⟩,
   ⟨[47], some (ex_inode 2 16877 2 0), 2097152⟩]

def ex_create_long : FS_EVENT_INFO := ⟨I_CREATE, ex_long_chain, []⟩

/-! ## Further programs, the consumer's rendering and further inputs -/

/-- Lines 260-261: the divisor `rsz` computed from the record size `n`. -/
def record_size_aligned (n : Nat) : Nat := n + (8 - n % 8)

/-- The program `security_inode_link` (lines 281-287). -/
def security_inode_link (cfg : Config) (st : State) (h : Helpers)
    (old_dentry new_dentry : List dentry) : State :=
  if cfg.monitor &&& MONITOR_FILE = 0 then st
  else
    let event : FS_EVENT_INFO := ⟨I_CREATE, new_dentry, old_dentry⟩
    handle_fs_event cfg st h event

/-- The event passes the rejects and its key is not bound: the handler builds a
new aggregate in the scratch slot (lines 160-206). -/
def creates_record (cfg : Config) (st : State) (h : Helpers) (ev : FS_EVENT_INFO) : Bool :=
  match fs_event_target cfg h ev with
  | none => false
  | some (key, _) => (st.hash_records key).isNone

/-- The event passes the rejects and its record passes the filter (line 209). -/
def passes_filter (cfg : Config) (st : State) (h : Helpers) (ev : FS_EVENT_INFO) : Bool :=
  match fs_event_target cfg h ev with
  | none => false
  | some (key, ino) => is_path_allowed cfg.allowed_prefixes (record_for st h key ino ev).filepath

/-- The event passes the rejects and the filter, the update of the store
succeeds and `agg_end` is set: the handler submits the aggregate and deletes
it (lines 245-257). -/
def closes_record (cfg : Config) (st : State) (h : Helpers) (ev : FS_EVENT_INFO) : Bool :=
  match fs_event_target cfg h ev with
  | none => false
  | some (key, ino) =>
    is_path_allowed cfg.allowed_prefixes (record_for st h key ino ev).filepath &&
      !h.map_update_fails && agg_end cfg ev.index ino.i_mode (record_merged st h key ino ev)

/-- The mode string of the consumer's `handle_event` (dirt.c, line 271). -/
def mode_str (rf : RECORD_FS) : String :=
  if S_ISLNK rf.imode then "symlink" else if rf.inlink > 1 then "hardlink" else "regular"

/-- The value `file_size_change` of the consumer's `handle_event` (dirt.c, line
288): the difference of two `uint64_t` read as a `long long`. -/
def file_size_change (rf : RECORD_FS) : Int :=
  let d : Nat := (rf.isize + 2 ^ 64 - rf.isize_first % 2 ^ 64) % 2 ^ 64
  if d < 2 ^ 63 then (d : Int) else (d : Int) - 2 ^ 64

/-- The entry of the regular file `x` below seventeen nested directories `a`,
`b`, ... with the inodes 20, 21, ..., the last of which ends the chain. -/
def ex_deep_chain : List dentry :=
  ⟨[120], some (ex_inode 100 33188 1 0), 0⟩ ::
    (List.range 17).map (fun i => ⟨[97 + i], some (ex_inode (20 + i) 16877 2 0), 2097152⟩)

def ex_create_deep : FS_EVENT_INFO := ⟨I_CREATE, ex_deep_chain, []⟩

/-- The allow-list with the one enabled entry `/data`. -/
def ex_allow_data : List allowed_prefix := [⟨[47, 100, 97, 116, 97] ++ List.replicate 11 0, true⟩]

/-- As `ex_cfg`, with `/data` as the only allowed start of a path. -/
def ex_cfg_data : Config := ⟨0, 999, MONITOR_FILE, ex_allow_data, 4194304⟩

/-- The entry of the regular file `/tmp/a` (inode 200) with its ancestors. -/
def ex_chain_tmp : List dentry :=
  [⟨[97], some (ex_inode 200 33188 1 0), 0⟩,
   ⟨[116, 109, 112], some (ex_inode 30 16877 2 0), 2097152⟩,
   ⟨[47], some (ex_inode 2 16877 2 0), 2097152⟩]

def ex_create_tmp : FS_EVENT_INFO := ⟨I_CREATE, ex_chain_tmp, []⟩

/-- The store key of pid 7 and inode 200. -/
def ex_key_tmp : Nat := 30064771272

/-- The entry of `/data/x.txt` when the file has grown to 100 bytes. -/
def ex_chain_100 : List dentry :=
  [⟨[120, 46, 116, 120, 116], some (ex_inode 100 33188 1 100), 0⟩,
   ⟨[100, 97, 116, 97], some (ex_inode 10 16877 2 0), 2097152⟩,
   ⟨[47], some (ex_inode 2 16877 2 0), 2097152⟩]

def ex_close_write_100 : FS_EVENT_INFO := ⟨I_CLOSE_WRITE, ex_chain_100, []⟩

/-- The helpers of the later invocation by pid 7 at time 2000. -/
def ex_h_later : Helpers := ⟨2000, 30064771072, false, false, []⟩

/-- The negative entry `/data/l`, the new name of a hard link to `/data/x.txt`. -/
def ex_chain_link : List dentry :=
  [⟨[108], none, 0⟩,
   ⟨[100, 97, 116, 97], some (ex_inode 10 16877 2 0), 2097152⟩,
   ⟨[47], some (ex_inode 2 16877 2 0), 2097152⟩]

/-- The entry of a regular file `/data/x.txt` whose link count is `2 ^ 32 - 1`. -/
def ex_chain_max_links : List dentry :=
  [⟨[120, 46, 116, 120, 116], some (ex_inode 100 33188 4294967295 0), 0⟩,
   ⟨[100, 97, 116, 97], some (ex_inode 10 16877 2 0), 2097152⟩,
   ⟨[47], some (ex_inode 2 16877 2 0), 2097152⟩]

/-! ## Inputs for the cap and for wide inode numbers -/

/-- The entry of the regular file `/data/z` whose inode number is
`2 ^ 32 + 100`, with its ancestors. -/
def ex_chain_wide : List dentry :=
  [⟨[122], some (ex_inode 4294967396 33188 1 0), 0⟩,
   ⟨[100, 97, 116, 97], some (ex_inode 10 16877 2 0), 2097152⟩,
   ⟨[47], some (ex_inode 2 16877 2 0), 2097152⟩]

def ex_modify_wide : FS_EVENT_INFO := ⟨I_MODIFY, ex_chain_wide, []⟩

/-- As `ex_cfg`, with the cap of two events per aggregate. -/
def ex_cfg_two : Config := ⟨2, 999, MONITOR_FILE, ex_allow_root, 4194304⟩

/-- The helpers of an invocation by pid 7 whose update of the store fails. -/
def ex_h_update_fails : Helpers := ⟨1500, 30064771072, true, false, []⟩

/-! ## Records up to the type field -/

/-- The record with its `rc.type` replaced by `t`. -/
def retyped (r : RECORD_FS) (t : Nat) : RECORD_FS := { r with rc := { r.rc with type := t } }

/-- The record with its `rc.type` cleared: two records agree in every field
but `rc.type` when their `untyped` forms are equal. -/
def untyped (r : RECORD_FS) : RECORD_FS := retyped r 0

/-! ## The consumer (dirt.c): the name rendered by `handle_event` -/

/-- The `n` bytes that `strncpy(dst, src, n)` writes to `dst`: the C string at
`src` cut to `n` bytes, padded with NUL. -/
def strncpy (src : List Nat) (n : Nat) : List Nat :=
  let body := (cstr src).take n
  body ++ List.replicate (n - body.length) 0

def MAP_ALLOWED_PATHS_MAX : Nat := 1024

/-- The allow-list map when the programs are loaded: `PREFIXES_MAX` zeroed
entries. -/
def allowed_prefixes_init : List allowed_prefix :=
  List.replicate PREFIXES_MAX ⟨List.replicate PREFIX_MAX_LEN 0, false⟩

/-- The call `fgets(line, size, fp)` on the unread bytes `fp` of the file: the
bytes stored in `line` before the NUL and the bytes left unread, or `none` at
the end of the file.  At most `size - 1` bytes are read, up to and with the
first newline. -/
def fgets (size : Nat) (fp : List Nat) : Option (List Nat × List Nat) :=
  match fp with
  | [] => none
  | _ :: _ =>
    let n := (fp.takeWhile (fun c => c != 10)).length
    let n := if n < fp.length then n + 1 else n
    let n := min n (size - 1)
    some (fp.take n, fp.drop n)

/-- The call `bpf_map__update_elem` on the array map `allowed_prefixes`: a key
below `max_entries` is overwritten, any other key is refused. -/
def update_allowed_prefixes (table : List allowed_prefix) (key : Nat) (value : allowed_prefix) :
    Option (List allowed_prefix) :=
  if key < table.length then some (table.set key value) else none

/-- Lines 889-892: the entry built from a line. -/
def allowed_path_of (line : List Nat) : allowed_prefix :=
  let prefix_ := List.replicate PREFIX_MAX_LEN 0
  let prefix_ := mem_write prefix_ 0 (strncpy line (PREFIX_MAX_LEN - 1))
  ⟨prefix_.set (PREFIX_MAX_LEN - 1) 0, true⟩

/-- The loop of lines 880-911; every turn reads at least one byte, so `fuel`
beyond the number of unread bytes is never used up. -/
def load_allowed_paths_loop : Nat → List Nat → List allowed_prefix → Nat → Nat →
    Int × List allowed_prefix
  | 0, _, table, _, _ => (0, table)
  | fuel + 1, fp, table, key, count =>
    match fgets FILEPATH_LEN_MAX fp with
    | none => (0, table)
    | some (chunk, fp) =>
      if ¬ count < MAP_ALLOWED_PATHS_MAX then (0, table)
      else
        let line := (cstr chunk).takeWhile (fun c => c != 10)
        if line.length = 0 ∨ line.getD 0 0 = 35 then
          load_allowed_paths_loop fuel fp table key count
        else
          match update_allowed_prefixes table key (allowed_path_of line) with
          | none => (-1, table)
          | some table =>
            load_allowed_paths_loop fuel fp table ((key + 1) % 2 ^ 32) (count + 1)

/-- The function `load_allowed_paths` (lines 866-919): the return value and the
allow-list map afterwards; `file` is the content of the file, `none` when it
cannot be opened. -/
def load_allowed_paths (table : List allowed_prefix) (file : Option (List Nat)) :
    Int × List allowed_prefix :=
  match file with
  | none => (-1, table)
  | some fp => load_allowed_paths_loop (fp.length + 1) fp table 0 0

/-- The file whose lines are `lines`, each ended by a newline. -/
def file_of_lines (lines : List (List Nat)) : List Nat :=
  (lines.map (fun l => l ++ [10])).flatten

/-- The lines that are neither empty nor comments. -/
def kept_lines (lines : List (List Nat)) : List (List Nat) :=
  lines.filter (fun l => !(l.length = 0 ∨ l.getD 0 0 = 35))

/-- A line as `fgets` can read it in one piece: no NUL, no newline inside, and
it fits the buffer together with its newline. -/
def line_ok (l : List Nat) : Prop :=
  0 ∉ l ∧ 10 ∉ l ∧ l.length + 1 < FILEPATH_LEN_MAX

instance (l : List Nat) : Decidable (line_ok l) := by
  unfold line_ok; infer_instance

/-- The lines `# paths`, the empty line, `/data` and `/home/u`. -/
def ex_lines : List (List Nat) :=
  [[35, 32, 112, 97, 116, 104, 115], [], [47, 100, 97, 116, 97], [47, 104, 111, 109, 101, 47, 117]]

/-- One line of twenty bytes, `/aaaaaaaaaaaaaaaaaaa`. -/
def ex_lines_long : List (List Nat) := [47 :: List.replicate 19 97]

/-- The table after the entries of `lines` have been written at the keys
`key`, `key + 1`, ... -/
def table_with (table : List allowed_prefix) (key : Nat) (lines : List (List Nat)) :
    List allowed_prefix :=
  match lines with
  | [] => table
  | l :: ls => table_with (table.set key (allowed_path_of l)) (key + 1) ls

/-- The entry that holds the leading `PREFIX_MAX_LEN - 1` bytes of a line,
padded with NUL, enabled. -/
def entry_of (l : List Nat) : allowed_prefix :=
  ⟨l.take (PREFIX_MAX_LEN - 1) ++
    List.replicate (PREFIX_MAX_LEN - (l.take (PREFIX_MAX_LEN - 1)).length) 0, true⟩

/-- The entry that holds a whole line, padded with NUL, enabled. -/
def entry_whole (l : List Nat) : allowed_prefix :=
  ⟨l ++ List.replicate (PREFIX_MAX_LEN - l.length) 0, true⟩

/-- The unterminated last line `/var`. -/
def ex_last : List Nat := [47, 118, 97, 114]

/-! ## The consumer (dirt.c): `mkjson_prettify` -/

def JSON_OUT_LEN_MAX : Nat := 8192

/-- The locals of `mkjson_prettify`; `r` is the output written so far, from
`start_r` to the pointer `r`. -/
structure PRETTIFY where
  indent : Int
  array : Bool
  quoted : Bool
  escaped : Bool
  r : List Nat
deriving DecidableEq, Repr

/-- The run of `n` blanks written by a loop `for (i = 0; i < n; i++)`. -/
def blanks (n : Int) : List Nat := List.replicate n.toNat 32

/-- The byte `*(r - 1)`; `before` is the byte in front of the output buffer,
read when nothing has been written yet. -/
def PRETTIFY.last (st : PRETTIFY) (before : Nat) : Nat := st.r.getLast?.getD before

/-- Lines 693-735: what one turn of the loop does with a character `x` that is
neither escaped nor inside a quoted string. -/
def mkjson_prettify_unquoted (before : Nat) (st : PRETTIFY) (x : Nat) : PRETTIFY :=
  if x = 123 then
    let st := { st with indent := st.indent + 2, array := false }
    { st with r := st.r ++ [x, 10] ++ blanks st.indent }
  else if x = 91 then
    let st :=
      if st.array = true then
        let st := { st with r := st.r ++ [10], indent := st.indent + 2 }
        { st with r := st.r ++ blanks st.indent }
      else st
    { st with array := true, r := st.r ++ [x] }
  else if x = 93 then
    let st :=
      if st.array = false ∧ st.last before ≠ 125 then
        let st := { st with r := st.r ++ [10], indent := st.indent - 2 }
        { st with r := st.r ++ blanks st.indent }
      else st
    { st with array := false, r := st.r ++ [x] }
  else if x = 125 then
    let st := { st with indent := st.indent - 2, array := false }
    { st with r := st.r ++ [10] ++ blanks st.indent ++ [x] }
  else if x = 44 ∧ st.array = false then
    { st with r := st.r ++ [x, 10] ++ blanks (st.indent - 1) }
  else if x = 58 ∧ st.array = false then { st with r := st.r ++ [x, 32] }
  else { st with r := st.r ++ [x] }

/-- One turn of the loop of `mkjson_prettify` past the length check (lines
682-735), on the input character `x`. -/
def mkjson_prettify_step (before : Nat) (st : PRETTIFY) (x : Nat) : PRETTIFY :=
  if x = 92 ∨ st.escaped = true then { st with escaped := !st.escaped, r := st.r ++ [x] }
  else
    let quoted := if x = 34 then !st.quoted else st.quoted
    let st := { st with quoted := quoted }
    if quoted then { st with r := st.r ++ [x] }
    else mkjson_prettify_unquoted before st x

/-- The loop of `mkjson_prettify` (lines 677-736) on the input `s`, writing to
an output array of `JSON_OUT_LEN_MAX` bytes (`json_msg_prettified`, line 222):
the C string left in the array, and whether the truncation branch was taken.
The room is checked at the top of a turn only; the result is `none` when a
turn has filled the array, so that one of its writes or the NUL that ends the
output (line 737) falls outside the array. -/
def mkjson_prettify_loop (before : Nat) : List Nat → PRETTIFY → Option (List Nat × Bool)
  | [], st => some (st.r, false)
  | x :: s, st =>
    if x = 0 then some (st.r, false)
    else if st.r.length ≥ JSON_OUT_LEN_MAX - 5 then
      some (st.r.take (st.r.length - 5) ++ [46, 46, 46, 125], true)
    else
      let st := mkjson_prettify_step before st x
      if st.r.length ≥ JSON_OUT_LEN_MAX then none
      else mkjson_prettify_loop before s st

/-- The function `mkjson_prettify` (lines 670-739). -/
def mkjson_prettify (before : Nat) (s : List Nat) : Option (List Nat × Bool) :=
  mkjson_prettify_loop before s ⟨0, false, false, false, []⟩

/-- The string without its blanks and newlines. -/
def strip_blanks (l : List Nat) : List Nat := l.filter (fun c => c != 32 && c != 10)

/-- The text `{"a":[1,2],"b":"x, y"}`. -/
def ex_json : List Nat :=
  [123, 34, 97, 34, 58, 91, 49, 44, 50, 93, 44, 34, 98, 34, 58, 34, 120, 44, 32, 121, 34, 125]

/-- The text of 88 times `{`, 178 times `a` and one more `{`. -/
def ex_json_deep : List Nat := List.replicate 88 123 ++ List.replicate 178 97 ++ [123]

/-- The locals of `mkjson_prettify` after the turns for all of `ex_json_deep`
but its last character. -/
def ex_prettify_deep : PRETTIFY :=
  (List.replicate 88 123 ++ List.replicate 178 97).foldl (mkjson_prettify_step 0)
    ⟨0, false, false, false, []⟩

/-! ## The hash function of dirt.h: `crc64` -/

/-- The table `crc64_tab` of dirt.h (lines 362-414), its 256 constants in
their order. -/
def crc64_tab : List Nat :=
  [0x0000000000000000, 0x7ad870c830358979, 0xf5b0e190606b12f2, 0x8f689158505e9b8b,
   0xc038e5739841b68f, 0xbae095bba8743ff6, 0x358804e3f82aa47d, 0x4f50742bc81f2d04,
   0xab28ecb46814fe75, 0xd1f09c7c5821770c, 0x5e980d24087fec87, 0x24407dec384a65fe,
   0x6b1009c7f05548fa, 0x11c8790fc060c183, 0x9ea0e857903e5a08, 0xe478989fa00bd371,
   0x7d08ff3b88be6f81, 0x07d08ff3b88be6f8, 0x88b81eabe8d57d73, 0xf2606e63d8e0f40a,
   0xbd301a4810ffd90e, 0xc7e86a8020ca5077, 0x4880fbd87094cbfc, 0x32588b1040a14285,
   0xd620138fe0aa91f4, 0xacf86347d09f188d, 0x2390f21f80c18306, 0x594882d7b0f40a7f,
   0x1618f6fc78eb277b, 0x6cc0863448deae02, 0xe3a8176c18803589, 0x997067a428b5bcf0,
   0xfa11fe77117cdf02, 0x80c98ebf2149567b, 0x0fa11fe771117cdf0, 0x75796f2f41224489,
   0x3a291b04893d698d, 0x40f16bccb908e0f4, 0xcf99fa94e9567b7f, 0xb5418a5cd963f206,
   0x513912c379682177, 0x2be1620b495da80e, 0xa489f35319033385, 0xde51839b2936bafc,
   0x9101f7b0e12997f8, 0xebd98778d11c1e81, 0x64b116208142850a, 0x1e6966e8b1770c73,
   0x8719014c99c2b083, 0xfdc17184a9f739fa, 0x72a9e0dcf9a9a271, 0x08719014c99c2b08,
   0x4721e43f0183060c, 0x3df994f731b68f75, 0xb29105af61e814fe, 0xc849756751dd9d87,
   0x2c31edf8f1d64ef6, 0x56e99d30c1e3c78f, 0xd9810c6891bd5c04, 0xa3597ca0a188d57d,
   0xec09088b6997f879, 0x96d1784359a27100, 0x19b9e91b09fcea8b, 0x636199d339c963f2,
   0xdf7adabd7a6e2d6f, 0xa5a2aa754a5ba416, 0x2aca3b2d1a053f9d, 0x50124be52a30b6e4,
   0x1f423fcee22f9be0, 0x659a4f06d21a1299, 0xeaf2de5e82448912, 0x902aae96b271006b,
   0x74523609127ad31a, 0x0e8a46c1224f5a63, 0x81e2d7997211c1e8, 0xfb3aa75142244891,
   0xb46ad37a8a3b6595, 0xceb2a3b2ba0eecec, 0x41da32eaea507767, 0x3b024222da65fe1e,
   0xa2722586f2d042ee, 0xd8aa554ec2e5cb97, 0x57c2c41692bb501c, 0x2d1ab4dea28ed965,
   0x624ac0f56a91f461, 0x1892b03d5aa47d18, 0x97fa21650afae693, 0xed2251ad3acf6fea,
   0x095ac9329ac4bc9b, 0x7382b9faaaf135e2, 0xfcea28a2faafae69, 0x8632586aca9a2710,
   0xc9622c4102850a14, 0xb3ba5c8932b0836d, 0x3cd2cdd162ee18e6, 0x460abd1952db919f,
   0x256b24ca6b12f26d, 0x5fb354025b277b14, 0xd0dbc55a0b79e09f, 0xaa03b5923b4c69e6,
   0xe553c1b9f35344e2, 0x9f8bb171c366cd9b, 0x10e3202993385610, 0x6a3b50e1a30ddf69,
   0x8e43c87e03060c18, 0xf49bb8b633338561, 0x7bf329ee636d1eea, 0x012b592653589793,
   0x4e7b2d0d9b47ba97, 0x34a35dc5ab7233ee, 0xbbcbcc9dfb2ca865, 0xc113bc55cb19211c,
   0x5863dbf1e3ac9dec, 0x22bbab39d3991495, 0xadd33a6183c78f1e, 0xd70b4aa9b3f20667,
   0x985b3e827bed2b63, 0xe2834e4a4bd8a21a, 0x6debdf121b863991, 0x1733afda2bb3b0e8,
   0xf34b37458bb86399, 0x8993478dbb8deae0, 0x06fbd6d5ebd3716b, 0x7c23a61ddbe6f812,
   0x3373d23613f9d516, 0x49aba2fe23cc5c6f, 0xc6c333a67392c7e4, 0xbc1b436e43a74e9d,
   0x95ac9329ac4bc9b5, 0xef74e3e19c7e40cc, 0x601c72b9cc20db47, 0x1ac40271fc15523e,
   0x5594765a340a7f3a, 0x2f4c0692043ff643, 0xa02497ca54616dc8, 0xdafce7026454e4b1,
   0x3e847f9dc45f37c0, 0x445c0f55f46abeb9, 0xcb349e0da4342532, 0xb1eceec59401ac4b,
   0xfebc9aee5c1e814f, 0x8464ea266c2b0836, 0x0b0c7b7e3c7593bd, 0x71d40bb60c401ac4,
   0xe8a46c1224f5a634, 0x927c1cda14c02f4d, 0x1d148d82449eb4c6, 0x67ccfd4a74ab3dbf,
   0x289c8961bcb410bb, 0x5244f9a98c8199c2, 0xdd2c68f1dcdf0249, 0xa7f41839ecea8b30,
   0x438c80a64ce15841, 0x3954f06e7cd4d138, 0xb63c61362c8a4ab3, 0xcce411fe1cbfc3ca,
   0x83b465d5d4a0eece, 0xf96c151de49567b7, 0x76048445b4cbfc3c, 0x0cdcf48d84fe7545,
   0x6fbd6d5ebd3716b7, 0x15651d968d029fce, 0x9a0d8ccedd5c0445, 0xe0d5fc06ed698d3c,
   0xaf85882d2576a038, 0xd55df8e515432941, 0x5a3569bd451db2ca, 0x20ed197575283bb3,
   0xc49581ead523e8c2, 0xbe4df122e51661bb, 0x3125607ab548fa30, 0x4bfd10b2857d7349,
   0x04ad64994d625e4d, 0x7e7514517d57d734, 0xf11d85092d094cbf, 0x8bc5f5c11d3cc5c6,
   0x12b5926535897936, 0x686de2ad05bcf04f, 0xe70573f555e26bc4, 0x9ddd033d65d7e2bd,
   0xd28d7716adc8cfb9, 0xa85507de9dfd46c0, 0x273d9686cda3dd4b, 0x5de5e64efd965432,
   0xb99d7ed15d9d8743, 0xc3450e196da80e3a, 0x4c2d9f413df695b1, 0x36f5ef890dc31cc8,
   0x79a59ba2c5dc31cc, 0x037deb6af5e9b8b5, 0x8c157a32a5b7233e, 0xf6cd0afa9582aa47,
   0x4ad64994d625e4da, 0x300e395ce6106da3, 0xbf66a804b64ef628, 0xc5bed8cc867b7f51,
   0x8aeeace74e645255, 0xf036dc2f7e51db2c, 0x7f5e4d772e0f40a7, 0x05863dbf1e3ac9de,
   0xe1fea520be311aaf, 0x9b26d5e88e0493d6, 0x144e44b0de5a085d, 0x6e963478ee6f8124,
   0x21c640532670ac20, 0x5b1e309b16452559, 0xd476a1c3461bbed2, 0xaeaed10b762e37ab,
   0x37deb6af5e9b8b5b, 0x4d06c6676eae0222, 0xc26e573f3ef099a9, 0xb8b627f70ec510d0,
   0xf7e653dcc6da3dd4, 0x8d3e2314f6efb4ad, 0x0256b24ca6b12f26, 0x788ec2849684a65f,
   0x9cf65a1b368f752e, 0xe62e2ad306bafc57, 0x6946bb8b56e467dc, 0x139ecb4366d1eea5,
   0x5ccebf68aecec3a1, 0x2616cfa09efb4ad8, 0xa97e5ef8cea5d153, 0xd3a62e30fe90582a,
   0xb0c7b7e3c7593bd8, 0xca1fc72bf76cb2a1, 0x45775673a732292a, 0x3faf26bb9707a053,
   0x70ff52905f188d57, 0x0a2722586f2d042e, 0x854fb3003f739fa5, 0xff97c3c80f4616dc,
   0x1bef5b57af4dc5ad, 0x61372b9f9f784cd4, 0xee5fbac7cf26d75f, 0x9487ca0fff135e26,
   0xdbd7be24370c7322, 0xa10fceec0739fa5b, 0x2e675fb4576761d0, 0x54bf2f7c6752e8a9,
   0xcdcf48d84fe75459, 0xb71738107fd2dd20, 0x387fa9482f8c46ab, 0x42a7d9801fb9cfd2,
   0x0df7adabd7a6e2d6, 0x772fdd63e7936baf, 0xf8474c3bb7cdf024, 0x829f3cf387f8795d,
   0x66e7a46c27f3aa2c, 0x1c3fd4a417c62355, 0x935745fc4798b8de, 0xe98f353477ad31a7,
   0xa6df411fbfb21ca3, 0xdc0731d78f8795da, 0x536fa08fdfd90e51, 0x29b7d047efec8728]

/-- The function `crc64` of dirt.h (lines 416-424) on the `l` bytes `s`.  The
values stay below `2 ^ 64`, as the start value and the constants are. -/
def crc64 (crc : Nat) (s : List Nat) : Nat :=
  s.foldl (fun crc byte =>
    let i := ((crc % 256) ^^^ byte) % 256
    crc64_tab.getD i 0 ^^^ (crc >>> 8)) crc

/-- The Jones polynomial, reflected. -/
def crc64_poly : Nat := 0x95ac9329ac4bc9b5

/-- Specification: one step "shift right by one, xor the polynomial if the bit
shifted out was 1". -/
def crc64_bit_step (c : Nat) : Nat :=
  if c % 2 = 1 then (c >>> 1) ^^^ crc64_poly else c >>> 1

/-- Specification: `n` steps. -/
def crc64_bit_steps : Nat → Nat → Nat
  | 0, c => c
  | n + 1, c => crc64_bit_steps n (crc64_bit_step c)

/-- Specification: the table entry for the byte `i`. -/
def crc64_tab_spec (i : Nat) : Nat := crc64_bit_steps 8 i

/-- Specification: the bit-by-bit CRC, a byte xored in and eight steps taken. -/
def crc64_bitwise (crc : Nat) (s : List Nat) : Nat :=
  s.foldl (fun crc byte => crc64_bit_steps 8 (crc ^^^ byte)) crc

/-! ## The path of a chain of directories -/

def ex_modify_tmp : FS_EVENT_INFO := ⟨I_MODIFY, ex_chain_tmp, []⟩

/-! ## The path filter: specification -/

theorem cstr_nil : cstr [] = [] := rfl

theorem cstr_cons_zero (l : List Nat) : cstr (0 :: l) = [] := by
  simp [cstr]

theorem cstr_cons_pos (c : Nat) (l : List Nat) (hc : c ≠ 0) : cstr (c :: l) = c :: cstr l := by
  simp [cstr, hc]

theorem cstr_prefix_self (l : List Nat) : cstr l <+: l := by
  unfold cstr
  exact List.takeWhile_prefix _

/-- A string without NUL is a leading part of a buffer exactly when it is a
leading part of the C string held in the buffer. -/
theorem cstr_prefix_iff (x y : List Nat) : cstr x <+: y ↔ cstr x <+: cstr y := by
  induction x generalizing y with
  | nil => simp [cstr_nil]
  | cons c x ih =>
    by_cases hc : c = 0
    · subst hc; simp [cstr_cons_zero]
    · rw [cstr_cons_pos c x hc]
      cases y with
      | nil => simp [cstr_nil]
      | cons d y =>
        by_cases hd : d = 0
        · subst hd
          rw [cstr_cons_zero]
          simp [List.cons_prefix_cons, hc]
        · rw [cstr_cons_pos d y hd]
          simp only [List.cons_prefix_cons]
          rw [ih y]

theorem prefix_matched_iff (pre fp : List Nat) (fuel j : Nat) :
    prefix_matched pre fp fuel j = true ↔ cstr ((pre.drop j).take fuel) <+: fp.drop j := by
  induction fuel generalizing j with
  | zero => simp [prefix_matched, cstr_nil]
  | succ fuel ih =>
    unfold prefix_matched
    simp only []
    rcases hp : pre.drop j with _ | ⟨c, rest⟩
    · have hj : pre.length ≤ j := List.drop_eq_nil_iff.mp hp
      have : pre.getD j 0 = 0 := by
        rw [List.getD_eq_getElem?_getD, List.getElem?_eq_none hj]; rfl
      rw [this]
      simp [cstr_nil]
    · have hj : j < pre.length := by
        by_contra hlt
        have := List.drop_eq_nil_iff.mpr (not_lt.mp hlt)
        rw [this] at hp; cases hp
      have hc : pre.getD j 0 = c := by
        rw [List.getD_eq_getElem?_getD, List.getElem?_eq_getElem hj]
        have := List.drop_eq_getElem_cons hj
        rw [this] at hp
        simp only [Option.getD_some]
        exact (List.cons.inj hp).1
      have hrest : pre.drop (j + 1) = rest := by
        have := List.drop_eq_getElem_cons hj
        rw [this] at hp
        exact (List.cons.inj hp).2
      rw [hc]
      by_cases hc0 : c = 0
      · subst hc0; simp [cstr_cons_zero]
      · simp only [hc0, if_false, List.take_succ_cons]
        rw [cstr_cons_pos c _ hc0]
        rcases hf : fp.drop j with _ | ⟨d, frest⟩
        · have hj2 : fp.length ≤ j := List.drop_eq_nil_iff.mp hf
          have : fp.getD j 0 = 0 := by
            rw [List.getD_eq_getElem?_getD, List.getElem?_eq_none hj2]; rfl
          rw [this]
          simp [Ne.symm hc0]
        · have hj2 : j < fp.length := by
            by_contra hlt
            have := List.drop_eq_nil_iff.mpr (not_lt.mp hlt)
            rw [this] at hf; cases hf
          have hd : fp.getD j 0 = d := by
            rw [List.getD_eq_getElem?_getD, List.getElem?_eq_getElem hj2]
            have := List.drop_eq_getElem_cons hj2
            rw [this] at hf
            simp only [Option.getD_some]
            exact (List.cons.inj hf).1
          have hfrest : fp.drop (j + 1) = frest := by
            have := List.drop_eq_getElem_cons hj2
            rw [this] at hf
            exact (List.cons.inj hf).2
          rw [hd]
          by_cases hdc : d = c
          · subst hdc
            simp only [ne_eq, not_true_eq_false, if_false, List.cons_prefix_cons, true_and]
            rw [ih (j + 1), hrest, hfrest]
          · simp only [ne_eq, hdc, not_false_eq_true, if_true, List.cons_prefix_cons]
            constructor
            · intro h; cases h
            · intro h; exact absurd h.1.symm hdc

theorem is_path_allowed_from_iff (tbl : List allowed_prefix) (fp : List Nat) (fuel i : Nat) :
    is_path_allowed_from tbl fp fuel i = true ↔
      ∃ k, i ≤ k ∧ k < i + fuel ∧ ∃ p, tbl.get? k = some p ∧ p.enabled = true ∧
        prefix_matched p.prefix_ fp PREFIX_MAX_LEN 0 = true := by
  induction fuel generalizing i with
  | zero =>
    simp only [is_path_allowed_from, Bool.false_eq_true, false_iff]
    rintro ⟨k, h1, h2, -⟩
    omega
  | succ fuel ih =>
    unfold is_path_allowed_from
    have step : (∃ k, i ≤ k ∧ k < i + (fuel + 1) ∧ ∃ p, tbl.get? k = some p ∧ p.enabled = true ∧
        prefix_matched p.prefix_ fp PREFIX_MAX_LEN 0 = true) ↔
        ((∃ p, tbl.get? i = some p ∧ p.enabled = true ∧
          prefix_matched p.prefix_ fp PREFIX_MAX_LEN 0 = true) ∨
        ∃ k, i + 1 ≤ k ∧ k < i + 1 + fuel ∧ ∃ p, tbl.get? k = some p ∧ p.enabled = true ∧
          prefix_matched p.prefix_ fp PREFIX_MAX_LEN 0 = true) := by
      constructor
      · rintro ⟨k, h1, h2, hp⟩
        by_cases hk : k = i
        · subst hk; exact Or.inl hp
        · exact Or.inr ⟨k, by omega, by omega, hp⟩
      · rintro (hp | ⟨k, h1, h2, hp⟩)
        · exact ⟨i, le_refl _, by omega, hp⟩
        · exact ⟨k, by omega, by omega, hp⟩
    rw [step, ← ih (i + 1)]
    cases hg : tbl.get? i with
    | none => simp
    | some p =>
      cases he : p.enabled with
      | false => simp [he]
      | true =>
        cases hm : prefix_matched p.prefix_ fp PREFIX_MAX_LEN 0 with
        | false => simp [he, hm]
        | true => simp [he, hm]

/-- The filter says yes exactly when an enabled entry among the first
`PREFIXES_MAX` holds a string that starts the path. -/
theorem is_path_allowed_spec (tbl : List allowed_prefix) (fp : List Nat) :
    is_path_allowed tbl fp = true ↔
      ∃ i, i < PREFIXES_MAX ∧ ∃ p, tbl.get? i = some p ∧ p.enabled = true ∧
        cstr (p.prefix_.take PREFIX_MAX_LEN) <+: cstr fp := by
  unfold is_path_allowed
  rw [is_path_allowed_from_iff]
  constructor
  · rintro ⟨k, -, h2, p, hp, he, hm⟩
    refine ⟨k, by omega, p, hp, he, ?_⟩
    rw [prefix_matched_iff] at hm
    simpa using (cstr_prefix_iff _ _).mp hm
  · rintro ⟨k, h2, p, hp, he, hm⟩
    refine ⟨k, Nat.zero_le _, by omega, p, hp, he, ?_⟩
    rw [prefix_matched_iff]
    simpa using (cstr_prefix_iff _ _).mpr hm

/-! ## One invocation of the handler, branch by branch -/

section step
variable (cfg : Config) (st : State) (h : Helpers) (ev : FS_EVENT_INFO) (key : Nat) (ino : inode)

theorem close_hash_records (found : Bool) (r : RECORD_FS) (closing : Bool)
    (hx : (st.hash_records key).isSome = true) :
    (handle_fs_event_close cfg st h key found r closing).hash_records =
      fun k => if closing = true ∧ k = key then none else st.hash_records k := by
  funext k
  obtain ⟨x, hx⟩ := Option.isSome_iff_exists.mp hx
  cases closing <;> cases found <;> cases hr : h.ringbuf_output_fails <;>
    simp [handle_fs_event_close, bpf_ringbuf_output, map_delete, hx, hr]

theorem close_ringbuf_records (found : Bool) (r : RECORD_FS) (closing : Bool) :
    (handle_fs_event_close cfg st h key found r closing).ringbuf_records =
      if closing = true then
        (bpf_ringbuf_output st.ringbuf_records (record_closed r) h.ringbuf_output_fails).1
      else st.ringbuf_records := by
  cases closing <;> cases found <;> cases hr : h.ringbuf_output_fails <;>
    cases hm : st.hash_records key <;>
    simp [handle_fs_event_close, bpf_ringbuf_output, map_delete, hr, hm, record_closed]

theorem handle_fs_event_rejected (ht : fs_event_target cfg h ev = none) :
    handle_fs_event cfg st h ev = st := by
  unfold handle_fs_event
  rw [ht]

theorem hash_records_filtered (ht : fs_event_target cfg h ev = some (key, ino))
    (hp : is_path_allowed cfg.allowed_prefixes (record_for st h key ino ev).filepath = false) :
    (handle_fs_event cfg st h ev).hash_records =
      fun k => if k = key ∧ (st.hash_records key).isSome = true
        then some (record_for st h key ino ev) else st.hash_records k := by
  unfold handle_fs_event
  rw [ht]
  simp only [hp, Bool.not_false, if_true]
  funext k
  cases hf : (st.hash_records key).isSome <;> by_cases hk : k = key <;>
    simp [write_r, hk] <;> split_ifs <;> simp [hk]

theorem ringbuf_records_filtered (ht : fs_event_target cfg h ev = some (key, ino))
    (hp : is_path_allowed cfg.allowed_prefixes (record_for st h key ino ev).filepath = false) :
    (handle_fs_event cfg st h ev).ringbuf_records = st.ringbuf_records := by
  unfold handle_fs_event
  rw [ht]
  simp only [hp, Bool.not_false, if_true]
  cases hf : (st.hash_records key).isSome <;> simp [write_r] <;> split_ifs <;> rfl

theorem hash_records_update_failed (ht : fs_event_target cfg h ev = some (key, ino))
    (hp : is_path_allowed cfg.allowed_prefixes (record_for st h key ino ev).filepath = true)
    (hu : h.map_update_fails = true) :
    (handle_fs_event cfg st h ev).hash_records =
      fun k => if k = key ∧ (st.hash_records key).isSome = true
        then some (record_merged st h key ino ev) else st.hash_records k := by
  unfold handle_fs_event
  rw [ht]
  simp only [hp, hu, Bool.not_true, if_true]
  funext k
  cases hf : (st.hash_records key).isSome <;> by_cases hk : k = key <;>
    simp [write_r, hk, record_merged]

theorem ringbuf_records_update_failed (ht : fs_event_target cfg h ev = some (key, ino))
    (hp : is_path_allowed cfg.allowed_prefixes (record_for st h key ino ev).filepath = true)
    (hu : h.map_update_fails = true) :
    (handle_fs_event cfg st h ev).ringbuf_records = st.ringbuf_records := by
  unfold handle_fs_event
  rw [ht]
  simp only [hp, hu, Bool.not_true, if_true]
  cases hf : (st.hash_records key).isSome <;> simp [write_r]

@[simp]
theorem write_r_hash_records (found : Bool) (r : RECORD_FS) :
    (write_r st key found r).hash_records =
      fun k => if found = true ∧ k = key then some r else st.hash_records k := by
  cases found <;> simp [write_r]

@[simp]
theorem write_r_ringbuf_records (found : Bool) (r : RECORD_FS) :
    (write_r st key found r).ringbuf_records = st.ringbuf_records := by
  cases found <;> simp [write_r]

@[simp]
theorem write_r_stats (found : Bool) (r : RECORD_FS) :
    (write_r st key found r).stats = st.stats := by
  cases found <;> simp [write_r]

@[simp]
theorem write_r_debug_count (found : Bool) (r : RECORD_FS) :
    (write_r st key found r).debug_count = st.debug_count := by
  cases found <;> simp [write_r]

theorem hash_records_accepted (ht : fs_event_target cfg h ev = some (key, ino))
    (hp : is_path_allowed cfg.allowed_prefixes (record_for st h key ino ev).filepath = true)
    (hu : h.map_update_fails = false) :
    (handle_fs_event cfg st h ev).hash_records =
      fun k => if k = key then
          (if agg_end cfg ev.index ino.i_mode (record_merged st h key ino ev) = true then none
           else some (record_merged st h key ino ev))
        else if k ∈ h.lru_evicted then none else st.hash_records k := by
  unfold handle_fs_event
  rw [ht]
  simp only [hp, hu, Bool.not_true, Bool.false_eq_true, if_false]
  rw [close_hash_records]
  · funext k
    by_cases hk : k = key
    · subst hk
      cases hc : agg_end cfg ev.index ino.i_mode (record_merged st h k ino ev) <;>
        simp [record_merged, lru_update] at hc ⊢ <;> simp [hc]
    · cases hf : (st.hash_records key).isSome <;> simp [hk, lru_update]
  · simp [lru_update]

theorem ringbuf_records_accepted (ht : fs_event_target cfg h ev = some (key, ino))
    (hp : is_path_allowed cfg.allowed_prefixes (record_for st h key ino ev).filepath = true)
    (hu : h.map_update_fails = false) :
    (handle_fs_event cfg st h ev).ringbuf_records =
      if agg_end cfg ev.index ino.i_mode (record_merged st h key ino ev) = true then
        (bpf_ringbuf_output st.ringbuf_records (record_closed (record_merged st h key ino ev))
          h.ringbuf_output_fails).1
      else st.ringbuf_records := by
  unfold handle_fs_event
  rw [ht]
  simp only [hp, hu, Bool.not_true, Bool.false_eq_true, if_false]
  rw [close_ringbuf_records]
  cases hf : (st.hash_records key).isSome <;> simp [record_merged]

end step
/-- C3: when at least one of the `PREFIXES_MAX` entries of the allow-list is
enabled, `is_path_allowed` returns true if and only if some index below
`PREFIXES_MAX` holds an enabled entry whose string (the bytes of its first
`PREFIX_MAX_LEN` bytes up to the first NUL) equals the leading bytes of the
path, byte for byte; a path that ends earlier is not permitted.  The function
is a pure function of the table and the path. -/
theorem is_path_allowed_iff_enabled_entry (tbl : List allowed_prefix) (fp : List Nat)
    (_hen : ∃ i, i < PREFIXES_MAX ∧ ∃ p, tbl.get? i = some p ∧ p.enabled = true) :
    is_path_allowed tbl fp = true ↔
      ∃ i, i < PREFIXES_MAX ∧ ∃ p, tbl.get? i = some p ∧ p.enabled = true ∧
        cstr (p.prefix_.take PREFIX_MAX_LEN) <+: cstr fp :=
  is_path_allowed_spec tbl fp

theorem is_path_allowed_iff_enabled_entry_witness :
    (∃ i, i < PREFIXES_MAX ∧ ∃ p, [( ⟨[47, 100, 97, 116, 97, 0], true⟩ : allowed_prefix)].get? i = some p ∧
        p.enabled = true) ∧
    (is_path_allowed [⟨[47, 100, 97, 116, 97, 0], true⟩] [47, 100, 97, 116, 97, 47, 0] = true ↔
      ∃ i, i < PREFIXES_MAX ∧ ∃ p, [( ⟨[47, 100, 97, 116, 97, 0], true⟩ : allowed_prefix)].get? i = some p ∧
        p.enabled = true ∧
        cstr (p.prefix_.take PREFIX_MAX_LEN) <+: cstr [47, 100, 97, 116, 97, 47, 0]) :=
  ⟨⟨0, by decide, _, rfl, rfl⟩,
    is_path_allowed_iff_enabled_entry _ _ ⟨0, by decide, _, rfl, rfl⟩⟩

/-- C4 (the code departs from it): with the allow-list as it is when no path
file is given, eight zeroed entries, none enabled, `is_path_allowed` returns
false for the path `/data/x.txt`; no file is monitored. -/
theorem is_path_allowed_empty_table_rejects :
    is_path_allowed (List.replicate PREFIXES_MAX ⟨List.replicate PREFIX_MAX_LEN 0, false⟩)
      [47, 100, 97, 116, 97, 47, 120, 46, 116, 120, 116, 0] = false := by
  decide

/-! ## Where the records of the store and of the ring buffer come from -/

theorem run_nil (cfg : Config) (st : State) : run cfg st [] = st := rfl

theorem run_cons (cfg : Config) (st : State) (e : Helpers × FS_EVENT_INFO)
    (l : List (Helpers × FS_EVENT_INFO)) :
    run cfg st (e :: l) = run cfg (handle_fs_event cfg st e.1 e.2) l := rfl

theorem run_append (cfg : Config) (st : State) (l1 l2 : List (Helpers × FS_EVENT_INFO)) :
    run cfg st (l1 ++ l2) = run cfg (run cfg st l1) l2 := by
  unfold run
  rw [List.foldl_append]

theorem run_concat (cfg : Config) (st : State) (l : List (Helpers × FS_EVENT_INFO))
    (e : Helpers × FS_EVENT_INFO) :
    run cfg st (l ++ [e]) = handle_fs_event cfg (run cfg st l) e.1 e.2 := by
  rw [run_append]; rfl

theorem record_for_found (st : State) (h : Helpers) (key : Nat) (ino : inode) (ev : FS_EVENT_INFO)
    (r : RECORD_FS) (hr : st.hash_records key = some r) :
    record_for st h key ino ev = record_found r h.ktime_get_ns ev := by
  unfold record_for; rw [hr]

theorem record_for_new (st : State) (h : Helpers) (key : Nat) (ino : inode) (ev : FS_EVENT_INFO)
    (hr : st.hash_records key = none) :
    record_for st h key ino ev = record_new st.heap_record_fs h.ktime_get_ns ino ev := by
  unfold record_for; rw [hr]

/-- A record bound in the store after one invocation was bound before, or is
the touched aggregate of the event's key, or is the merged aggregate of an
event that passed the filter. -/
theorem hash_records_origin (cfg : Config) (st : State) (h : Helpers) (ev : FS_EVENT_INFO)
    (k : Nat) (r : RECORD_FS) (hr : (handle_fs_event cfg st h ev).hash_records k = some r) :
    st.hash_records k = some r ∨
      ∃ ino, fs_event_target cfg h ev = some (k, ino) ∧
        ((∃ r0, st.hash_records k = some r0 ∧ r = record_found r0 h.ktime_get_ns ev) ∨
         (is_path_allowed cfg.allowed_prefixes (record_for st h k ino ev).filepath = true ∧
           r = record_merged st h k ino ev)) := by
  cases ht : fs_event_target cfg h ev with
  | none => rw [handle_fs_event_rejected cfg st h ev ht] at hr; exact Or.inl hr
  | some t =>
    obtain ⟨key, ino⟩ := t
    cases hp : is_path_allowed cfg.allowed_prefixes (record_for st h key ino ev).filepath with
    | false =>
      rw [hash_records_filtered cfg st h ev key ino ht hp] at hr
      simp only at hr
      split_ifs at hr with hc
      · obtain ⟨hk, hs⟩ := hc
        subst hk
        obtain ⟨r0, hr0⟩ := Option.isSome_iff_exists.mp hs
        refine Or.inr ⟨ino, rfl, Or.inl ⟨r0, hr0, ?_⟩⟩
        rw [record_for_found st h k ino ev r0 hr0] at hr
        exact (Option.some.inj hr).symm
      · exact Or.inl hr
    | true =>
      cases hu : h.map_update_fails with
      | true =>
        rw [hash_records_update_failed cfg st h ev key ino ht hp hu] at hr
        simp only at hr
        split_ifs at hr with hc
        · obtain ⟨hk, -⟩ := hc
          subst hk
          exact Or.inr ⟨ino, rfl, Or.inr ⟨hp, (Option.some.inj hr).symm⟩⟩
        · exact Or.inl hr
      | false =>
        rw [hash_records_accepted cfg st h ev key ino ht hp hu] at hr
        simp only at hr
        split_ifs at hr with hk hc he
        · subst hk
          exact Or.inr ⟨ino, rfl, Or.inr ⟨hp, (Option.some.inj hr).symm⟩⟩
        · exact Or.inl hr

/-- A record of the ring buffer after one invocation was there before, or is
the closed merged aggregate of an event that passed the filter. -/
theorem ringbuf_records_origin (cfg : Config) (st : State) (h : Helpers) (ev : FS_EVENT_INFO)
    (r : RECORD_FS) (hr : r ∈ (handle_fs_event cfg st h ev).ringbuf_records) :
    r ∈ st.ringbuf_records ∨
      ∃ key ino, fs_event_target cfg h ev = some (key, ino) ∧
        is_path_allowed cfg.allowed_prefixes (record_for st h key ino ev).filepath = true ∧
        r = record_closed (record_merged st h key ino ev) := by
  cases ht : fs_event_target cfg h ev with
  | none => rw [handle_fs_event_rejected cfg st h ev ht] at hr; exact Or.inl hr
  | some t =>
    obtain ⟨key, ino⟩ := t
    cases hp : is_path_allowed cfg.allowed_prefixes (record_for st h key ino ev).filepath with
    | false =>
      rw [ringbuf_records_filtered cfg st h ev key ino ht hp] at hr
      exact Or.inl hr
    | true =>
      cases hu : h.map_update_fails with
      | true =>
        rw [ringbuf_records_update_failed cfg st h ev key ino ht hp hu] at hr
        exact Or.inl hr
      | false =>
        rw [ringbuf_records_accepted cfg st h ev key ino ht hp hu] at hr
        split_ifs at hr with hc
        · unfold bpf_ringbuf_output at hr
          split_ifs at hr with hf
          · exact Or.inl hr
          · simp only [List.mem_append, List.mem_singleton] at hr
            rcases hr with hr | hr
            · exact Or.inl hr
            · exact Or.inr ⟨key, ino, rfl, hp, hr⟩
        · exact Or.inl hr

/-! ## The counters of an aggregate -/

theorem list_sum_set (l : List Nat) (i v : Nat) (hi : i < l.length) :
    (l.set i v).sum + l.getD i 0 = l.sum + v := by
  induction l generalizing i with
  | nil => simp at hi
  | cons a l ih =>
    cases i with
    | zero => simp; omega
    | succ i =>
      have := ih i (by simpa using hi)
      simp only [List.set_cons_succ, List.sum_cons, List.getD_cons_succ]
      omega

theorem toNat_lt (i : INDEX_FS_EVENT) : i.toNat < FS_EVENT_MAX := by
  cases i <;> decide

theorem counters_ok_mono {n m : Nat} {r : RECORD_FS} (hnm : n ≤ m) (hr : counters_ok n r) :
    counters_ok m r :=
  ⟨hr.1, hr.2.1, le_trans hr.2.2 hnm⟩

theorem record_found_events (r : RECORD_FS) (ts : Nat) (ev : FS_EVENT_INFO) :
    (record_found r ts ev).events = r.events ∧ (record_found r ts ev).event = r.event ∧
      (record_found r ts ev).filepath = r.filepath := by
  unfold record_found
  split_ifs <;> simp

theorem counters_ok_found {n : Nat} {r : RECORD_FS} (ts : Nat) (ev : FS_EVENT_INFO)
    (hr : counters_ok n r) : counters_ok n (record_found r ts ev) := by
  obtain ⟨h1, h2, h3⟩ := record_found_events r ts ev
  unfold counters_ok
  rw [h1, h2]
  exact hr

theorem counters_ok_new (n : Nat) (r : RECORD_FS) (ts : Nat) (ino : inode) (ev : FS_EVENT_INFO) :
    counters_ok n (record_new r ts ino ev) := by
  unfold counters_ok record_new
  simp [FS_EVENT_MAX]

theorem counters_ok_update {n : Nat} {r : RECORD_FS} (ino : inode) (ev : FS_EVENT_INFO)
    (hr : counters_ok n r) : counters_ok (n + 1) (record_update r ino ev) := by
  obtain ⟨hlen, hsum, hle⟩ := hr
  have hi : ev.index.toNat < r.event.length := by rw [hlen]; exact toNat_lt _
  have hs := list_sum_set r.event ev.index.toNat
    ((r.event.getD ev.index.toNat 0 + 1) % 2 ^ 32) hi
  have hmod := Nat.mod_add_div (r.event.getD ev.index.toNat 0 + 1) (2 ^ 32)
  have hlt := Nat.mod_lt (r.event.getD ev.index.toNat 0 + 1) (show 2 ^ 32 > 0 by norm_num)
  refine ⟨?_, ?_, ?_⟩
  · simp [record_update, hlen]
  · show (r.event.set ev.index.toNat ((r.event.getD ev.index.toNat 0 + 1) % 2 ^ 32)).sum % 2 ^ 32 =
      (r.events + 1) % 2 ^ 32
    rw [← hsum]
    omega
  · show (r.event.set ev.index.toNat ((r.event.getD ev.index.toNat 0 + 1) % 2 ^ 32)).sum ≤ n + 1
    omega

theorem counters_ok_closed {n : Nat} {r : RECORD_FS} (hr : counters_ok n r) :
    counters_ok n (record_closed r) := hr

theorem counters_ok_record_for {n : Nat} (st : State) (h : Helpers) (k : Nat) (ino : inode)
    (ev : FS_EVENT_INFO) (hst : ∀ r, st.hash_records k = some r → counters_ok n r) :
    counters_ok n (record_for st h k ino ev) := by
  cases hk : st.hash_records k with
  | none => rw [record_for_new st h k ino ev hk]; exact counters_ok_new _ _ _ _ _
  | some r => rw [record_for_found st h k ino ev r hk]; exact counters_ok_found _ _ (hst r hk)

theorem counters_ok_step (cfg : Config) (st : State) (h : Helpers) (ev : FS_EVENT_INFO) (n : Nat)
    (hh : ∀ k r, st.hash_records k = some r → counters_ok n r)
    (hb : ∀ r ∈ st.ringbuf_records, counters_ok n r) :
    (∀ k r, (handle_fs_event cfg st h ev).hash_records k = some r → counters_ok (n + 1) r) ∧
      ∀ r ∈ (handle_fs_event cfg st h ev).ringbuf_records, counters_ok (n + 1) r := by
  constructor
  · intro k r hr
    rcases hash_records_origin cfg st h ev k r hr with h0 | ⟨ino, -, ⟨r0, hr0, rfl⟩ | ⟨-, rfl⟩⟩
    · exact counters_ok_mono (Nat.le_succ n) (hh k r h0)
    · exact counters_ok_mono (Nat.le_succ n) (counters_ok_found _ _ (hh k r0 hr0))
    · exact counters_ok_update _ _ (counters_ok_record_for st h k ino ev (hh k))
  · intro r hr
    rcases ringbuf_records_origin cfg st h ev r hr with h0 | ⟨key, ino, -, -, rfl⟩
    · exact counters_ok_mono (Nat.le_succ n) (hb r h0)
    · exact counters_ok_closed (counters_ok_update _ _ (counters_ok_record_for st h key ino ev (hh key)))

theorem counters_ok_run (cfg : Config) (evs : List (Helpers × FS_EVENT_INFO)) :
    (∀ k r, (run cfg State.init evs).hash_records k = some r → counters_ok evs.length r) ∧
      ∀ r ∈ (run cfg State.init evs).ringbuf_records, counters_ok evs.length r := by
  induction evs using List.reverseRecOn with
  | nil =>
    constructor
    · intro k r hr; simp [run_nil, State.init] at hr
    · intro r hr; simp [run_nil, State.init] at hr
  | append_singleton l e ih =>
    rw [run_concat, List.length_append, List.length_singleton]
    exact counters_ok_step cfg _ e.1 e.2 l.length ih.1 ih.2

/-- C1 (amended): for every sequence of events processed from the initial
state, every aggregate held in `hash_records` or taken by the ring buffer has
per-kind counters whose sum is congruent to `events` modulo `2 ^ 32`; the sum
equals `events` as long as fewer than `2 ^ 32` events have been processed. -/
theorem counters_sum_eq_events_mod (cfg : Config) (evs : List (Helpers × FS_EVENT_INFO))
    (r : RECORD_FS)
    (hr : r ∈ (run cfg State.init evs).ringbuf_records ∨
      ∃ k, (run cfg State.init evs).hash_records k = some r) :
    r.event.sum % 2 ^ 32 = r.events ∧ (evs.length < 2 ^ 32 → r.event.sum = r.events) := by
  have hok : counters_ok evs.length r := by
    rcases hr with hr | ⟨k, hk⟩
    · exact (counters_ok_run cfg evs).2 r hr
    · exact (counters_ok_run cfg evs).1 k r hk
  refine ⟨hok.2.1, fun hlen => ?_⟩
  have h1 := hok.2.1
  have h2 := hok.2.2
  rw [← h1]
  exact (Nat.mod_eq_of_lt (lt_of_le_of_lt h2 hlen)).symm

theorem counters_sum_eq_events_mod_witness :
    (run ex_cfg State.init [(ex_h, ex_create)]).hash_records ex_key =
        some (record_merged State.init ex_h ex_key (ex_inode 100 33188 1 0) ex_create) ∧
      (record_merged State.init ex_h ex_key (ex_inode 100 33188 1 0) ex_create).event.sum % 2 ^ 32 =
        (record_merged State.init ex_h ex_key (ex_inode 100 33188 1 0) ex_create).events ∧
      ([(ex_h, ex_create)].length < 2 ^ 32 →
        (record_merged State.init ex_h ex_key (ex_inode 100 33188 1 0) ex_create).event.sum =
          (record_merged State.init ex_h ex_key (ex_inode 100 33188 1 0) ex_create).events) :=
  ⟨by decide, counters_sum_eq_events_mod ex_cfg [(ex_h, ex_create)] _ (Or.inr ⟨ex_key, by decide⟩)⟩

theorem agg_end_modify_no_cap (cfg : Config) (imode : Nat) (r : RECORD_FS)
    (hcap : cfg.agg_events_max = 0) : agg_end cfg I_MODIFY imode r = false := by
  simp [agg_end, hcap]

/-- With the cap disabled, `n` MODIFY events on a tracked key add `n` to the
total and to the MODIFY counter, both modulo `2 ^ 32`. -/
theorem modify_replicate (cfg : Config) (h : Helpers) (ev : FS_EVENT_INFO) (key : Nat)
    (ino : inode) (st : State) (base : List Nat) (x e0 : Nat) (fp : List Nat)
    (hcap : cfg.agg_events_max = 0) (hidx : ev.index = I_MODIFY)
    (ht : fs_event_target cfg h ev = some (key, ino)) (hu : h.map_update_fails = false)
    (hbase : 5 < base.length) (hfp : is_path_allowed cfg.allowed_prefixes fp = true)
    (hst : ∃ r, st.hash_records key = some r ∧ r.events = e0 % 2 ^ 32 ∧
      r.event = base.set 5 (x % 2 ^ 32) ∧ r.filepath = fp) (n : Nat) :
    ∃ r, (run cfg st (List.replicate n (h, ev))).hash_records key = some r ∧
      r.events = (e0 + n) % 2 ^ 32 ∧ r.event = base.set 5 ((x + n) % 2 ^ 32) ∧ r.filepath = fp := by
  induction n with
  | zero => simpa using hst
  | succ n ih =>
    obtain ⟨r, hr, hev, hevent, hpath⟩ := ih
    rw [List.replicate_succ', run_concat]
    have hfor : record_for (run cfg st (List.replicate n (h, ev))) h key ino ev =
        record_found r h.ktime_get_ns ev := record_for_found _ h key ino ev r hr
    obtain ⟨f1, f2, f3⟩ := record_found_events r h.ktime_get_ns ev
    have hp : is_path_allowed cfg.allowed_prefixes
        (record_for (run cfg st (List.replicate n (h, ev))) h key ino ev).filepath = true := by
      rw [hfor, f3, hpath]; exact hfp
    rw [hash_records_accepted cfg _ h ev key ino ht hp hu]
    refine ⟨record_merged (run cfg st (List.replicate n (h, ev))) h key ino ev, ?_, ?_, ?_, ?_⟩
    · simp only [if_true]
      rw [hidx, agg_end_modify_no_cap cfg _ _ hcap]
      simp
    · unfold record_merged
      rw [hfor]
      show ((record_found r h.ktime_get_ns ev).events + 1) % 2 ^ 32 = _
      rw [f1, hev]
      omega
    · unfold record_merged
      rw [hfor]
      show (record_found r h.ktime_get_ns ev).event.set ev.index.toNat
        (((record_found r h.ktime_get_ns ev).event.getD ev.index.toNat 0 + 1) % 2 ^ 32) = _
      rw [f2, hevent, hidx]
      show (base.set 5 ((x + n) % 2 ^ 32)).set 5 (((base.set 5 ((x + n) % 2 ^ 32)).getD 5 0 + 1) % 2 ^ 32) = _
      rw [List.set_set, List.getD_eq_getElem?_getD, List.getElem?_set_self hbase]
      simp only [Option.getD_some]
      congr 1
      omega
    · unfold record_merged
      rw [hfor]
      show (record_found r h.ktime_get_ns ev).filepath = fp
      rw [f3, hpath]

theorem run_cons_pair (cfg : Config) (st : State) (h : Helpers) (ev : FS_EVENT_INFO)
    (l : List (Helpers × FS_EVENT_INFO)) :
    run cfg st ((h, ev) :: l) = run cfg (handle_fs_event cfg st h ev) l := rfl

/-- C1 (as stated, refuted): after a CREATE and `2 ^ 32 - 1` MODIFY events on
the file `/data/x.txt` with the cap disabled, the aggregate held in the store
has `events = 0` while its per-kind counters sum to `2 ^ 32`. -/
theorem counters_sum_ne_events_after_wrap :
    ∃ r, (run ex_cfg State.init
        ((ex_h, ex_create) :: List.replicate 4294967295 (ex_h, ex_modify))).hash_records ex_key =
          some r ∧ r.event.sum ≠ r.events := by
  rw [run_cons_pair]
  have hst : ∃ r, (handle_fs_event ex_cfg State.init ex_h ex_create).hash_records ex_key = some r ∧
      r.events = 1 % 2 ^ 32 ∧
      r.event = [1, 0, 0, 0, 0, 0, 0, 0, 0, 0, 0, 0, 0, 0, 0].set 5 (0 % 2 ^ 32) ∧
      r.filepath = [47, 100, 97, 116, 97, 47] ++ List.replicate 90 0 :=
    ⟨record_merged State.init ex_h ex_key (ex_inode 100 33188 1 0) ex_create,
      by decide, by decide, by decide, by decide⟩
  have ht : fs_event_target ex_cfg ex_h ex_modify = some (ex_key, ex_inode 100 33188 1 0) := by
    decide
  have hfp : is_path_allowed ex_cfg.allowed_prefixes
      ([47, 100, 97, 116, 97, 47] ++ List.replicate 90 0) = true := by
    decide
  have hcap : ex_cfg.agg_events_max = 0 := rfl
  have hidx : ex_modify.index = I_MODIFY := rfl
  have hu : ex_h.map_update_fails = false := rfl
  have hbase : 5 < [1, 0, 0, 0, 0, 0, 0, 0, 0, 0, 0, 0, 0, 0, (0 : Nat)].length := by decide
  obtain ⟨r, hr, hev, hevent, -⟩ :=
    modify_replicate ex_cfg ex_h ex_modify ex_key (ex_inode 100 33188 1 0)
      (handle_fs_event ex_cfg State.init ex_h ex_create)
      [1, 0, 0, 0, 0, 0, 0, 0, 0, 0, 0, 0, 0, 0, 0] 0 1
      ([47, 100, 97, 116, 97, 47] ++ List.replicate 90 0)
      hcap hidx ht hu hbase hfp hst 4294967295
  refine ⟨r, hr, ?_⟩
  rw [hev, hevent]
  decide

/-! ## Closure -/

theorem agg_end_iff (cfg : Config) (index : INDEX_FS_EVENT) (imode : Nat) (r : RECORD_FS) :
    agg_end cfg index imode r = true ↔
      (index = I_CLOSE_WRITE ∨ index = I_CLOSE_NOWRITE ∨ index = I_DELETE ∨ index = I_MOVED_TO) ∨
      (index = I_CREATE ∧ (S_ISLNK imode = true ∨ r.inlink > 1)) ∨
      (cfg.agg_events_max ≠ 0 ∧ r.events ≥ cfg.agg_events_max) := by
  unfold agg_end
  by_cases hk : index = I_CLOSE_WRITE ∨ index = I_CLOSE_NOWRITE ∨ index = I_DELETE ∨
      index = I_MOVED_TO ∨ (index = I_CREATE ∧ (S_ISLNK imode = true ∨ r.inlink > 1))
  · simp only [hk, if_true, Bool.not_true, Bool.false_and, Bool.false_eq_true, if_false, true_iff]
    tauto
  · simp only [hk, if_false, Bool.not_false, Bool.true_and, bne_iff_ne, ne_eq, ite_not]
    by_cases hc : cfg.agg_events_max = 0
    · rw [if_pos hc]
      simp only [Bool.false_eq_true, false_iff]
      tauto
    · rw [if_neg hc]
      by_cases he : r.events ≥ cfg.agg_events_max
      · rw [if_pos he]
        simp only [true_iff]
        exact Or.inr (Or.inr ⟨hc, he⟩)
      · rw [if_neg he]
        simp only [Bool.false_eq_true, false_iff]
        tauto

/-- C2: for an event that passes the rejects and the filter and is persisted,
the handler closes the aggregate (the key is unbound afterwards and the merged
record has been handed to `bpf_ringbuf_output`) if and only if the kind is
CLOSE_WRITE, CLOSE_NOWRITE, DELETE or MOVED_TO, or the kind is CREATE and the
inode is a symbolic link or the recorded link count exceeds one, or
`agg_events_max` is non-zero and the aggregate's `events` has reached it.
Otherwise the merged aggregate stays bound and the ring buffer is untouched. -/
theorem aggregate_closed_iff (cfg : Config) (st : State) (h : Helpers) (ev : FS_EVENT_INFO)
    (key : Nat) (ino : inode) (ht : fs_event_target cfg h ev = some (key, ino))
    (hp : is_path_allowed cfg.allowed_prefixes (record_for st h key ino ev).filepath = true)
    (hu : h.map_update_fails = false) :
    (((handle_fs_event cfg st h ev).hash_records key = none ∧
        (handle_fs_event cfg st h ev).ringbuf_records =
          (bpf_ringbuf_output st.ringbuf_records (record_closed (record_merged st h key ino ev))
            h.ringbuf_output_fails).1) ↔
      ((ev.index = I_CLOSE_WRITE ∨ ev.index = I_CLOSE_NOWRITE ∨ ev.index = I_DELETE ∨
          ev.index = I_MOVED_TO) ∨
        (ev.index = I_CREATE ∧
          (S_ISLNK ino.i_mode = true ∨ (record_merged st h key ino ev).inlink > 1)) ∨
        (cfg.agg_events_max ≠ 0 ∧
          (record_merged st h key ino ev).events ≥ cfg.agg_events_max))) ∧
    ((handle_fs_event cfg st h ev).hash_records key = none ∨
      ((handle_fs_event cfg st h ev).hash_records key = some (record_merged st h key ino ev) ∧
        (handle_fs_event cfg st h ev).ringbuf_records = st.ringbuf_records)) := by
  rw [← agg_end_iff, hash_records_accepted cfg st h ev key ino ht hp hu,
    ringbuf_records_accepted cfg st h ev key ino ht hp hu]
  cases hc : agg_end cfg ev.index ino.i_mode (record_merged st h key ino ev) <;> simp

theorem aggregate_closed_iff_witness :
    (fs_event_target ex_cfg ex_h ex_create = some (ex_key, ex_inode 100 33188 1 0) ∧
      is_path_allowed ex_cfg.allowed_prefixes
        (record_for State.init ex_h ex_key (ex_inode 100 33188 1 0) ex_create).filepath = true ∧
      ex_h.map_update_fails = false) ∧
    ((((handle_fs_event ex_cfg State.init ex_h ex_create).hash_records ex_key = none ∧
        (handle_fs_event ex_cfg State.init ex_h ex_create).ringbuf_records =
          (bpf_ringbuf_output State.init.ringbuf_records
            (record_closed (record_merged State.init ex_h ex_key (ex_inode 100 33188 1 0) ex_create))
            ex_h.ringbuf_output_fails).1) ↔
      ((ex_create.index = I_CLOSE_WRITE ∨ ex_create.index = I_CLOSE_NOWRITE ∨
          ex_create.index = I_DELETE ∨ ex_create.index = I_MOVED_TO) ∨
        (ex_create.index = I_CREATE ∧
          (S_ISLNK (ex_inode 100 33188 1 0).i_mode = true ∨
            (record_merged State.init ex_h ex_key (ex_inode 100 33188 1 0) ex_create).inlink > 1)) ∨
        (ex_cfg.agg_events_max ≠ 0 ∧
          (record_merged State.init ex_h ex_key (ex_inode 100 33188 1 0) ex_create).events ≥
            ex_cfg.agg_events_max))) ∧
    ((handle_fs_event ex_cfg State.init ex_h ex_create).hash_records ex_key = none ∨
      ((handle_fs_event ex_cfg State.init ex_h ex_create).hash_records ex_key =
          some (record_merged State.init ex_h ex_key (ex_inode 100 33188 1 0) ex_create) ∧
        (handle_fs_event ex_cfg State.init ex_h ex_create).ringbuf_records =
          State.init.ringbuf_records))) :=
  ⟨⟨by decide, by decide, rfl⟩,
    aggregate_closed_iff ex_cfg State.init ex_h ex_create ex_key (ex_inode 100 33188 1 0)
      (by decide) (by decide) rfl⟩

/-! ## The filter and the records that leave the handler -/

theorem record_update_filepath (r : RECORD_FS) (ino : inode) (ev : FS_EVENT_INFO) :
    (record_update r ino ev).filepath = r.filepath := rfl

theorem record_closed_filepath (r : RECORD_FS) : (record_closed r).filepath = r.filepath := rfl

theorem allowed_step (cfg : Config) (st : State) (h : Helpers) (ev : FS_EVENT_INFO)
    (hh : ∀ k r, st.hash_records k = some r →
      is_path_allowed cfg.allowed_prefixes r.filepath = true)
    (hb : ∀ r ∈ st.ringbuf_records, is_path_allowed cfg.allowed_prefixes r.filepath = true) :
    (∀ k r, (handle_fs_event cfg st h ev).hash_records k = some r →
        is_path_allowed cfg.allowed_prefixes r.filepath = true) ∧
      ∀ r ∈ (handle_fs_event cfg st h ev).ringbuf_records,
        is_path_allowed cfg.allowed_prefixes r.filepath = true := by
  constructor
  · intro k r hr
    rcases hash_records_origin cfg st h ev k r hr with h0 | ⟨ino, -, ⟨r0, hr0, rfl⟩ | ⟨hp, rfl⟩⟩
    · exact hh k r h0
    · rw [(record_found_events r0 h.ktime_get_ns ev).2.2]; exact hh k r0 hr0
    · exact hp
  · intro r hr
    rcases ringbuf_records_origin cfg st h ev r hr with h0 | ⟨key, ino, -, hp, rfl⟩
    · exact hb r h0
    · exact hp

theorem allowed_run (cfg : Config) (st : State) (evs : List (Helpers × FS_EVENT_INFO))
    (hh : ∀ k r, st.hash_records k = some r →
      is_path_allowed cfg.allowed_prefixes r.filepath = true)
    (hb : ∀ r ∈ st.ringbuf_records, is_path_allowed cfg.allowed_prefixes r.filepath = true) :
    (∀ k r, (run cfg st evs).hash_records k = some r →
        is_path_allowed cfg.allowed_prefixes r.filepath = true) ∧
      ∀ r ∈ (run cfg st evs).ringbuf_records,
        is_path_allowed cfg.allowed_prefixes r.filepath = true := by
  induction evs using List.reverseRecOn with
  | nil => exact ⟨hh, hb⟩
  | append_singleton l e ih =>
    rw [run_concat]
    exact allowed_step cfg _ e.1 e.2 ih.1 ih.2

/-- C5: for every sequence of events and a fixed allow-list, starting from the
initial state, every record that the ring buffer has taken and every record
held in `hash_records` has a `filepath` that `is_path_allowed` accepts: a
record with a rejected path is never submitted or stored, whatever the kinds
of the later events on its key. -/
theorem rejected_path_never_stored_or_submitted (cfg : Config)
    (evs : List (Helpers × FS_EVENT_INFO)) (r : RECORD_FS)
    (hr : r ∈ (run cfg State.init evs).ringbuf_records ∨
      ∃ k, (run cfg State.init evs).hash_records k = some r) :
    is_path_allowed cfg.allowed_prefixes r.filepath = true := by
  have hinv := allowed_run cfg State.init evs
    (by intro k r hk; simp [State.init] at hk) (by intro r hk; simp [State.init] at hk)
  rcases hr with hr | ⟨k, hk⟩
  · exact hinv.2 r hr
  · exact hinv.1 k r hk

theorem rejected_path_never_stored_or_submitted_witness :
    (run ex_cfg State.init [(ex_h, ex_create)]).hash_records ex_key =
        some (record_merged State.init ex_h ex_key (ex_inode 100 33188 1 0) ex_create) ∧
      is_path_allowed ex_cfg.allowed_prefixes
        (record_merged State.init ex_h ex_key (ex_inode 100 33188 1 0) ex_create).filepath = true :=
  ⟨by decide,
    rejected_path_never_stored_or_submitted ex_cfg [(ex_h, ex_create)] _
      (Or.inr ⟨ex_key, by decide⟩)⟩

/-! ## After a close -/

section frame
variable (cfg : Config) (st : State) (h : Helpers) (ev : FS_EVENT_INFO) (key : Nat)

/-- An event that is not accepted on `key` does not bind `key`. -/
theorem hash_records_none_of_not_accepted (hnone : st.hash_records key = none)
    (hacc : accepted_on cfg st h ev key = false) :
    (handle_fs_event cfg st h ev).hash_records key = none := by
  cases ht : fs_event_target cfg h ev with
  | none => rw [handle_fs_event_rejected cfg st h ev ht]; exact hnone
  | some t =>
    obtain ⟨k, ino⟩ := t
    cases hp : is_path_allowed cfg.allowed_prefixes (record_for st h k ino ev).filepath with
    | false =>
      rw [hash_records_filtered cfg st h ev k ino ht hp]
      by_cases hk : key = k
      · subst hk; simp [hnone]
      · simp [hk, hnone]
    | true =>
      cases hu : h.map_update_fails with
      | true =>
        rw [hash_records_update_failed cfg st h ev k ino ht hp hu]
        by_cases hk : key = k
        · subst hk; simp [hnone]
        · simp [hk, hnone]
      | false =>
        rw [hash_records_accepted cfg st h ev k ino ht hp hu]
        have hk : key ≠ k := by
          intro hk
          subst hk
          simp [accepted_on, ht, hp, hu] at hacc
        simp [hk, hnone]

theorem hash_records_none_of_none_accepted (mid : List (Helpers × FS_EVENT_INFO)) :
    ∀ st : State, st.hash_records key = none → none_accepted_on cfg key st mid = true →
      (run cfg st mid).hash_records key = none := by
  induction mid with
  | nil => intro st hnone _; exact hnone
  | cons e l ih =>
    intro st hnone hmid
    simp only [none_accepted_on, Bool.and_eq_true, Bool.not_eq_true'] at hmid
    rw [run_cons]
    exact ih _ (hash_records_none_of_not_accepted cfg st e.1 e.2 key hnone hmid.1) hmid.2

theorem getD_replicate_zero (n i : Nat) : (List.replicate n 0).getD i 0 = 0 := by
  rw [List.getD_eq_getElem?_getD, List.getElem?_replicate]
  split_ifs <;> rfl

/-- The aggregate that an event builds for a key that is not bound counts this
event only. -/
theorem record_merged_fresh (ino : inode) (hnone : st.hash_records key = none) :
    (record_merged st h key ino ev).events = 1 ∧
      (record_merged st h key ino ev).event = (List.replicate FS_EVENT_MAX 0).set ev.index.toNat 1 := by
  unfold record_merged
  rw [record_for_new st h key ino ev hnone]
  constructor
  · show (0 + 1) % 2 ^ 32 = 1
    norm_num
  · show (List.replicate FS_EVENT_MAX 0).set ev.index.toNat
      (((List.replicate FS_EVENT_MAX 0).getD ev.index.toNat 0 + 1) % 2 ^ 32) = _
    rw [getD_replicate_zero]
    norm_num

end frame

/-- C6: when the handler closes an aggregate the key is unbound afterwards;
after any events that are not accepted on this key, the next accepted event
with the same key builds a fresh aggregate: its `events` is 1 and its
per-kind counters are all zero but the one of this event's kind, which is 1.
That aggregate is what the store then holds, or what is handed to the ring
buffer when the event closes it at once. -/
theorem closed_key_restarts_fresh (cfg : Config) (st : State) (h1 : Helpers) (ev1 : FS_EVENT_INFO)
    (key : Nat) (ino1 : inode) (ht1 : fs_event_target cfg h1 ev1 = some (key, ino1))
    (hp1 : is_path_allowed cfg.allowed_prefixes (record_for st h1 key ino1 ev1).filepath = true)
    (hu1 : h1.map_update_fails = false)
    (hclose : agg_end cfg ev1.index ino1.i_mode (record_merged st h1 key ino1 ev1) = true)
    (mid : List (Helpers × FS_EVENT_INFO))
    (hmid : none_accepted_on cfg key (handle_fs_event cfg st h1 ev1) mid = true)
    (h2 : Helpers) (ev2 : FS_EVENT_INFO) (ino2 : inode)
    (ht2 : fs_event_target cfg h2 ev2 = some (key, ino2))
    (hp2 : is_path_allowed cfg.allowed_prefixes
      (record_for (run cfg (handle_fs_event cfg st h1 ev1) mid) h2 key ino2 ev2).filepath = true)
    (hu2 : h2.map_update_fails = false) :
    (handle_fs_event cfg st h1 ev1).hash_records key = none ∧
    (record_merged (run cfg (handle_fs_event cfg st h1 ev1) mid) h2 key ino2 ev2).events = 1 ∧
    (record_merged (run cfg (handle_fs_event cfg st h1 ev1) mid) h2 key ino2 ev2).event =
      (List.replicate FS_EVENT_MAX 0).set ev2.index.toNat 1 ∧
    (((handle_fs_event cfg (run cfg (handle_fs_event cfg st h1 ev1) mid) h2 ev2).hash_records key =
          some (record_merged (run cfg (handle_fs_event cfg st h1 ev1) mid) h2 key ino2 ev2) ∧
        (handle_fs_event cfg (run cfg (handle_fs_event cfg st h1 ev1) mid) h2 ev2).ringbuf_records =
          (run cfg (handle_fs_event cfg st h1 ev1) mid).ringbuf_records) ∨
      ((handle_fs_event cfg (run cfg (handle_fs_event cfg st h1 ev1) mid) h2 ev2).hash_records key =
          none ∧
        (handle_fs_event cfg (run cfg (handle_fs_event cfg st h1 ev1) mid) h2 ev2).ringbuf_records =
          (bpf_ringbuf_output (run cfg (handle_fs_event cfg st h1 ev1) mid).ringbuf_records
            (record_closed
              (record_merged (run cfg (handle_fs_event cfg st h1 ev1) mid) h2 key ino2 ev2))
            h2.ringbuf_output_fails).1)) := by
  have h1none : (handle_fs_event cfg st h1 ev1).hash_records key = none := by
    rw [hash_records_accepted cfg st h1 ev1 key ino1 ht1 hp1 hu1]
    simp [hclose]
  have h2none := hash_records_none_of_none_accepted cfg key mid _ h1none hmid
  obtain ⟨f1, f2⟩ := record_merged_fresh (run cfg (handle_fs_event cfg st h1 ev1) mid) h2 ev2 key
    ino2 h2none
  refine ⟨h1none, f1, f2, ?_⟩
  rw [hash_records_accepted cfg _ h2 ev2 key ino2 ht2 hp2 hu2,
    ringbuf_records_accepted cfg _ h2 ev2 key ino2 ht2 hp2 hu2]
  cases hc : agg_end cfg ev2.index ino2.i_mode
    (record_merged (run cfg (handle_fs_event cfg st h1 ev1) mid) h2 key ino2 ev2) <;> simp

theorem closed_key_restarts_fresh_witness :
    (fs_event_target ex_cfg ex_h ex_close_write = some (ex_key, ex_inode 100 33188 1 0) ∧
      is_path_allowed ex_cfg.allowed_prefixes
        (record_for State.init ex_h ex_key (ex_inode 100 33188 1 0) ex_close_write).filepath = true ∧
      ex_h.map_update_fails = false ∧
      agg_end ex_cfg ex_close_write.index (ex_inode 100 33188 1 0).i_mode
        (record_merged State.init ex_h ex_key (ex_inode 100 33188 1 0) ex_close_write) = true ∧
      none_accepted_on ex_cfg ex_key ex_st_closed [(ex_h, ex_modify_y)] = true ∧
      fs_event_target ex_cfg ex_h ex_create = some (ex_key, ex_inode 100 33188 1 0) ∧
      is_path_allowed ex_cfg.allowed_prefixes
        (record_for ex_st_later ex_h ex_key (ex_inode 100 33188 1 0) ex_create).filepath = true) ∧
    (ex_st_closed.hash_records ex_key = none ∧
      (record_merged ex_st_later ex_h ex_key (ex_inode 100 33188 1 0) ex_create).events = 1 ∧
      (record_merged ex_st_later ex_h ex_key (ex_inode 100 33188 1 0) ex_create).event =
        (List.replicate FS_EVENT_MAX 0).set ex_create.index.toNat 1 ∧
      (((handle_fs_event ex_cfg ex_st_later ex_h ex_create).hash_records ex_key =
            some (record_merged ex_st_later ex_h ex_key (ex_inode 100 33188 1 0) ex_create) ∧
          (handle_fs_event ex_cfg ex_st_later ex_h ex_create).ringbuf_records =
            ex_st_later.ringbuf_records) ∨
        ((handle_fs_event ex_cfg ex_st_later ex_h ex_create).hash_records ex_key = none ∧
          (handle_fs_event ex_cfg ex_st_later ex_h ex_create).ringbuf_records =
            (bpf_ringbuf_output ex_st_later.ringbuf_records
              (record_closed
                (record_merged ex_st_later ex_h ex_key (ex_inode 100 33188 1 0) ex_create))
              ex_h.ringbuf_output_fails).1))) :=
  ⟨⟨by decide, by decide, rfl, by decide, by decide, by decide, by decide⟩,
    closed_key_restarts_fresh ex_cfg State.init ex_h ex_close_write ex_key
      (ex_inode 100 33188 1 0) (by decide) (by decide) rfl (by decide)
      [(ex_h, ex_modify_y)] (by decide) ex_h ex_create (ex_inode 100 33188 1 0)
      (by decide) (by decide) rfl⟩

/-! ## A full ring buffer -/

theorem stats_rb_max_dropped (cfg : Config) (s : STATS) :
    (stats_rb_max cfg s).fs_records_dropped = s.fs_records_dropped := by
  unfold stats_rb_max
  split_ifs <;> rfl

theorem close_stats_dropped (cfg : Config) (st : State) (h : Helpers) (key : Nat) (found : Bool)
    (r : RECORD_FS) (closing : Bool) :
    (handle_fs_event_close cfg st h key found r closing).stats.fs_records_dropped =
      st.stats.fs_records_dropped +
        if closing = true ∧ h.ringbuf_output_fails = true then 1 else 0 := by
  cases closing <;> cases found <;> cases hr : h.ringbuf_output_fails <;>
    cases hm : st.hash_records key <;>
    simp [handle_fs_event_close, bpf_ringbuf_output, map_delete, hr, hm, stats_rb_max_dropped]

theorem stats_dropped_accepted (cfg : Config) (st : State) (h : Helpers) (ev : FS_EVENT_INFO)
    (key : Nat) (ino : inode) (ht : fs_event_target cfg h ev = some (key, ino))
    (hp : is_path_allowed cfg.allowed_prefixes (record_for st h key ino ev).filepath = true)
    (hu : h.map_update_fails = false) :
    (handle_fs_event cfg st h ev).stats.fs_records_dropped =
      st.stats.fs_records_dropped +
        if agg_end cfg ev.index ino.i_mode (record_merged st h key ino ev) = true ∧
          h.ringbuf_output_fails = true then 1 else 0 := by
  unfold handle_fs_event
  rw [ht]
  simp only [hp, hu, Bool.not_true, Bool.false_eq_true, if_false]
  rw [close_stats_dropped]
  cases hf : (st.hash_records key).isSome <;> simp [record_merged]

theorem record_update_events_le (r : RECORD_FS) (ino : inode) (ev : FS_EVENT_INFO) :
    (record_update r ino ev).events ≤ r.events + 1 := by
  show (r.events + 1) % 2 ^ 32 ≤ r.events + 1
  exact Nat.mod_le _ _

theorem record_for_events_le (st : State) (h : Helpers) (key : Nat) (ino : inode)
    (ev : FS_EVENT_INFO) (b : Nat) (hb : ∀ r, st.hash_records key = some r → r.events ≤ b) :
    (record_for st h key ino ev).events ≤ b := by
  cases hk : st.hash_records key with
  | none =>
    rw [record_for_new st h key ino ev hk]
    show 0 ≤ b
    exact Nat.zero_le _
  | some r =>
    rw [record_for_found st h key ino ev r hk, (record_found_events r h.ktime_get_ns ev).1]
    exact hb r hk

theorem targets_key_of_target (cfg : Config) (h : Helpers) (ev : FS_EVENT_INFO) (key : Nat)
    (ino : inode) (ht : fs_event_target cfg h ev = some (key, ino)) :
    targets_key cfg key (h, ev) = true := by
  simp [targets_key, ht]

theorem events_bound_step (cfg : Config) (st : State) (h : Helpers) (ev : FS_EVENT_INFO)
    (key b : Nat) (hb : ∀ r, st.hash_records key = some r → r.events ≤ b) :
    ∀ r, (handle_fs_event cfg st h ev).hash_records key = some r →
      r.events ≤ b + if targets_key cfg key (h, ev) = true then 1 else 0 := by
  intro r hr
  rcases hash_records_origin cfg st h ev key r hr with h0 | ⟨ino, ht, ⟨r0, hr0, rfl⟩ | ⟨-, rfl⟩⟩
  · exact le_trans (hb r h0) (Nat.le_add_right _ _)
  · rw [(record_found_events r0 h.ktime_get_ns ev).1]
    exact le_trans (hb r0 hr0) (Nat.le_add_right _ _)
  · rw [targets_key_of_target cfg h ev key ino ht, if_pos rfl]
    exact le_trans (record_update_events_le _ _ _)
      (Nat.add_le_add_right (record_for_events_le st h key ino ev b hb) 1)

theorem events_bound_run (cfg : Config) (st : State) (key b : Nat)
    (hb : ∀ r, st.hash_records key = some r → r.events ≤ b)
    (evs : List (Helpers × FS_EVENT_INFO)) :
    ∀ r, (run cfg st evs).hash_records key = some r → r.events ≤ b + events_on cfg key evs := by
  induction evs using List.reverseRecOn with
  | nil => intro r hr; exact le_trans (hb r hr) (Nat.le_add_right _ _)
  | append_singleton l e ih =>
    intro r hr
    rw [run_concat] at hr
    have := events_bound_step cfg (run cfg st l) e.1 e.2 key (b + events_on cfg key l) ih r hr
    unfold events_on at this ⊢
    rw [List.countP_append, List.countP_singleton]
    rw [Nat.add_assoc] at this
    exact this

/-! ## The cap of one event -/

theorem agg_end_cap_one (cfg : Config) (index : INDEX_FS_EVENT) (imode : Nat) (r : RECORD_FS)
    (hcap : cfg.agg_events_max = 1) (hev : r.events = 1) : agg_end cfg index imode r = true := by
  rw [agg_end_iff]
  exact Or.inr (Or.inr ⟨by rw [hcap]; decide, by rw [hcap, hev]⟩)

theorem store_empty_step_cap_one (cfg : Config) (st : State) (h : Helpers) (ev : FS_EVENT_INFO)
    (hcap : cfg.agg_events_max = 1) (hst : ∀ k, st.hash_records k = none) :
    ∀ k, (handle_fs_event cfg st h ev).hash_records k = none := by
  intro k
  cases ht : fs_event_target cfg h ev with
  | none => rw [handle_fs_event_rejected cfg st h ev ht]; exact hst k
  | some t =>
    obtain ⟨key, ino⟩ := t
    cases hp : is_path_allowed cfg.allowed_prefixes (record_for st h key ino ev).filepath with
    | false =>
      rw [hash_records_filtered cfg st h ev key ino ht hp]
      simp [hst]
    | true =>
      cases hu : h.map_update_fails with
      | true =>
        rw [hash_records_update_failed cfg st h ev key ino ht hp hu]
        simp [hst]
      | false =>
        rw [hash_records_accepted cfg st h ev key ino ht hp hu]
        have hc := agg_end_cap_one cfg ev.index ino.i_mode (record_merged st h key ino ev) hcap
          (record_merged_fresh st h ev key ino (hst key)).1
        simp [hc, hst]

theorem store_empty_run_cap_one (cfg : Config) (hcap : cfg.agg_events_max = 1)
    (evs : List (Helpers × FS_EVENT_INFO)) :
    ∀ k, (run cfg State.init evs).hash_records k = none := by
  induction evs using List.reverseRecOn with
  | nil => intro k; rfl
  | append_singleton l e ih =>
    rw [run_concat]
    exact store_empty_step_cap_one cfg _ e.1 e.2 hcap ih

theorem ringbuf_events_one_step_cap_one (cfg : Config) (st : State) (h : Helpers)
    (ev : FS_EVENT_INFO) (hst : ∀ k, st.hash_records k = none)
    (hb : ∀ r ∈ st.ringbuf_records, r.events = 1) :
    ∀ r ∈ (handle_fs_event cfg st h ev).ringbuf_records, r.events = 1 := by
  intro r hr
  rcases ringbuf_records_origin cfg st h ev r hr with h0 | ⟨key, ino, -, -, rfl⟩
  · exact hb r h0
  · exact (record_merged_fresh st h ev key ino (hst key)).1

theorem ringbuf_events_one_run_cap_one (cfg : Config) (hcap : cfg.agg_events_max = 1)
    (evs : List (Helpers × FS_EVENT_INFO)) :
    ∀ r ∈ (run cfg State.init evs).ringbuf_records, r.events = 1 := by
  induction evs using List.reverseRecOn with
  | nil => intro r hr; simp [run_nil, State.init] at hr
  | append_singleton l e ih =>
    rw [run_concat]
    exact ringbuf_events_one_step_cap_one cfg _ e.1 e.2 (store_empty_run_cap_one cfg hcap l) ih

/-- C8 (as stated, refuted): with `agg_events_max = 1`, a CREATE of
`/data/x.txt` passes the rejects and the filter and is counted in `fs_events`,
but the update of the store fails: no record is submitted to the ring buffer
(and none is stored). -/
theorem cap_one_failed_update_submits_nothing :
    ex_cfg_one.agg_events_max = 1 ∧
    fs_event_target ex_cfg_one ex_h_update_fails ex_create =
      some (ex_key, ex_inode 100 33188 1 0) ∧
    is_path_allowed ex_cfg_one.allowed_prefixes
      (record_for State.init ex_h_update_fails ex_key (ex_inode 100 33188 1 0)
        ex_create).filepath = true ∧
    ex_h_update_fails.ringbuf_output_fails = false ∧
    (handle_fs_event ex_cfg_one State.init ex_h_update_fails ex_create).stats.fs_events = 1 ∧
    (handle_fs_event ex_cfg_one State.init ex_h_update_fails ex_create).ringbuf_records = [] ∧
    (handle_fs_event ex_cfg_one State.init ex_h_update_fails ex_create).hash_records ex_key =
      none := by
  decide

/-- C8 (amended): with `agg_events_max = 1`, after any sequence of events from
the initial state the store is empty, and every accepted event (it passes the
rejects and the filter) whose update of the store succeeds hands its own
record, with `events = 1`, to `bpf_ringbuf_output` (the record is appended to
the ring buffer when there is room); an accepted event whose update of the
store fails submits nothing; either way the store is empty again afterwards
and every record of the ring buffer has `events = 1`: no two events are
merged. -/
theorem cap_one_emits_every_event (cfg : Config) (hcap : cfg.agg_events_max = 1)
    (evs : List (Helpers × FS_EVENT_INFO)) (h : Helpers) (ev : FS_EVENT_INFO) (key : Nat)
    (ino : inode) (ht : fs_event_target cfg h ev = some (key, ino))
    (hp : is_path_allowed cfg.allowed_prefixes
      (record_for (run cfg State.init evs) h key ino ev).filepath = true) :
    (∀ k, (run cfg State.init evs).hash_records k = none) ∧
    (record_closed (record_merged (run cfg State.init evs) h key ino ev)).events = 1 ∧
    (record_closed (record_merged (run cfg State.init evs) h key ino ev)).event =
      (List.replicate FS_EVENT_MAX 0).set ev.index.toNat 1 ∧
    (h.map_update_fails = false →
      (handle_fs_event cfg (run cfg State.init evs) h ev).ringbuf_records =
        (bpf_ringbuf_output (run cfg State.init evs).ringbuf_records
          (record_closed (record_merged (run cfg State.init evs) h key ino ev))
          h.ringbuf_output_fails).1 ∧
      (h.ringbuf_output_fails = false →
        (handle_fs_event cfg (run cfg State.init evs) h ev).ringbuf_records =
          (run cfg State.init evs).ringbuf_records ++
            [record_closed (record_merged (run cfg State.init evs) h key ino ev)])) ∧
    (h.map_update_fails = true →
      (handle_fs_event cfg (run cfg State.init evs) h ev).ringbuf_records =
        (run cfg State.init evs).ringbuf_records) ∧
    (∀ k, (handle_fs_event cfg (run cfg State.init evs) h ev).hash_records k = none) ∧
    ∀ r ∈ (handle_fs_event cfg (run cfg State.init evs) h ev).ringbuf_records, r.events = 1 := by
  have hempty := store_empty_run_cap_one cfg hcap evs
  obtain ⟨f1, f2⟩ := record_merged_fresh (run cfg State.init evs) h ev key ino (hempty key)
  have hc := agg_end_cap_one cfg ev.index ino.i_mode
    (record_merged (run cfg State.init evs) h key ino ev) hcap f1
  refine ⟨hempty, f1, f2, ?_, ?_, store_empty_step_cap_one cfg _ h ev hcap hempty,
    ringbuf_events_one_step_cap_one cfg _ h ev hempty (ringbuf_events_one_run_cap_one cfg hcap evs)⟩
  · intro hu
    have hring := ringbuf_records_accepted cfg (run cfg State.init evs) h ev key ino ht hp hu
    rw [if_pos hc] at hring
    refine ⟨hring, ?_⟩
    intro hf
    rw [hring, hf]
    rfl
  · intro hu
    exact ringbuf_records_update_failed cfg (run cfg State.init evs) h ev key ino ht hp hu

theorem cap_one_emits_every_event_witness :
    (ex_cfg_one.agg_events_max = 1 ∧
      fs_event_target ex_cfg_one ex_h ex_modify = some (ex_key, ex_inode 100 33188 1 0) ∧
      is_path_allowed ex_cfg_one.allowed_prefixes
        (record_for (run ex_cfg_one State.init [(ex_h, ex_create)]) ex_h ex_key
          (ex_inode 100 33188 1 0) ex_modify).filepath = true ∧
      ex_h.map_update_fails = false) ∧
    (record_closed (record_merged (run ex_cfg_one State.init [(ex_h, ex_create)]) ex_h ex_key
      (ex_inode 100 33188 1 0) ex_modify)).events = 1 ∧
    (handle_fs_event ex_cfg_one (run ex_cfg_one State.init [(ex_h, ex_create)]) ex_h
        ex_modify).ringbuf_records =
      (run ex_cfg_one State.init [(ex_h, ex_create)]).ringbuf_records ++
        [record_closed (record_merged (run ex_cfg_one State.init [(ex_h, ex_create)]) ex_h ex_key
          (ex_inode 100 33188 1 0) ex_modify)] ∧
    (handle_fs_event ex_cfg_one (run ex_cfg_one State.init [(ex_h, ex_create)]) ex_h
        ex_modify).hash_records ex_key = none :=
  ⟨⟨rfl, by decide, by decide, rfl⟩,
    (cap_one_emits_every_event ex_cfg_one rfl [(ex_h, ex_create)] ex_h ex_modify ex_key
      (ex_inode 100 33188 1 0) (by decide) (by decide)).2.1,
    ((cap_one_emits_every_event ex_cfg_one rfl [(ex_h, ex_create)] ex_h ex_modify ex_key
      (ex_inode 100 33188 1 0) (by decide) (by decide)).2.2.2.1 rfl).2 rfl,
    (cap_one_emits_every_event ex_cfg_one rfl [(ex_h, ex_create)] ex_h ex_modify ex_key
      (ex_inode 100 33188 1 0) (by decide) (by decide)).2.2.2.2.2.1 ex_key⟩

/-! ## Path reconstruction on long names -/

/-- C10 (the code departs from it): for the file `x` below the directories
`a` (40 times) and `b` (100 times), the CREATE event stores an aggregate whose
`filepath` has its 96 bytes without any NUL, and whose `filename` no longer
holds the leaf name `x` but nine bytes `b` of the second directory: the copy
of that name, up to 64 bytes from offset 42, runs over the end of `filepath`
into `filename`. -/
theorem path_reconstruction_overruns_filepath :
    ∃ r, (handle_fs_event ex_cfg State.init ex_h ex_create_long).hash_records ex_key = some r ∧
      r.filepath.length = FILEPATH_LEN_MAX ∧ 0 ∉ r.filepath ∧
      r.filename = List.replicate 9 98 ++ List.replicate 23 0 ∧
      (bpf_probe_read_kernel_str FILENAME_LEN_MAX (read_d_name ex_create_long.dentry)).1 =
        [120, 0] :=
  ⟨record_merged State.init ex_h ex_key (ex_inode 100 33188 1 0) ex_create_long,
    by decide, by decide, by decide, by decide, by decide⟩

/-! ## Rename -/

/-- C9 (as stated, refuted): with `agg_events_max = 1` the rename of
`/data/x.txt` to `/data/y.txt` in the initial state puts two records into the
ring buffer, one for MOVED_FROM and one for MOVED_TO. -/
theorem rename_emits_two_records_with_cap_one :
    (security_inode_rename ex_cfg_one State.init ex_h ex_h ex_chain
      ex_chain_new).ringbuf_records.length = 2 := by
  decide

theorem mem_write_take_of_le (mem bytes : List Nat) (off : Nat) (hoff : off ≤ mem.length) :
    (mem_write mem off bytes).take off = mem.take off := by
  unfold mem_write
  rw [List.append_assoc, List.take_append_of_le_length (by simp [hoff])]
  simp [hoff]

theorem mem_write_drop (mem bytes : List Nat) (off : Nat) (hoff : off ≤ mem.length) :
    (mem_write mem off bytes).drop off = bytes ++ mem.drop (off + bytes.length) := by
  unfold mem_write
  rw [List.append_assoc, List.drop_append_of_le_length (by simp [hoff])]
  simp [hoff]

theorem cstr_all_ne_zero (s : List Nat) : ∀ c ∈ cstr s, c ≠ 0 := by
  intro c hc
  have := List.mem_takeWhile_imp hc
  simpa using this

theorem cstr_append_zero (body rest : List Nat) (hb : ∀ c ∈ body, c ≠ 0) :
    cstr (body ++ 0 :: rest) = body := by
  induction body with
  | nil => simp [cstr]
  | cons c body ih =>
    have hc : c ≠ 0 := hb c (List.mem_cons_self _ _)
    rw [List.cons_append, cstr_cons_pos c _ hc, ih (fun d hd => hb d (List.mem_cons_of_mem _ hd))]

/-- The name array after lines 156-157, for an array of 32 bytes. -/
theorem record_found_moved_to_filename (r : RECORD_FS) (ts : Nat) (ev : FS_EVENT_INFO)
    (name : List Nat) (hidx : ev.index = I_MOVED_TO) (hname : read_d_name ev.dentry = some name)
    (hlen : r.filename.length = FILENAME_LEN_MAX) :
    (record_found r ts ev).filename_from = r.filename.take 15 ++ [0] ∧
      cstr (record_found r ts ev).filename_to = (cstr name).take 15 := by
  have hv : fsevt_value ev.index = FS_MOVED_TO := by rw [hidx]; rfl
  have hf : (record_found r ts ev).filename =
      mem_write (mem_write r.filename 15 (List.replicate 17 0)) 16
        ((cstr name).take 15 ++ [0]) := by
    unfold record_found
    rw [if_pos hv, hname]
    rfl
  have hlen32 : r.filename.length = 32 := hlen
  have hl1 : (mem_write r.filename 15 (List.replicate 17 0)).length = 32 := by
    unfold mem_write
    simp [hlen32]
  constructor
  · unfold RECORD_FS.filename_from
    rw [hf]
    show (mem_write (mem_write r.filename 15 (List.replicate 17 0)) 16 _).take 16 = _
    rw [mem_write_take_of_le _ _ 16 (by rw [hl1]; norm_num)]
    unfold mem_write
    rw [List.append_assoc, List.take_append_eq_append_take]
    simp [hlen32, List.take_replicate]
  · unfold RECORD_FS.filename_to
    rw [hf]
    show cstr ((mem_write (mem_write r.filename 15 (List.replicate 17 0)) 16 _).drop 16) = _
    rw [mem_write_drop _ _ 16 (by rw [hl1]; norm_num), List.append_assoc, List.singleton_append]
    exact cstr_append_zero _ _ (fun c hc => cstr_all_ne_zero name c (List.mem_of_mem_take hc))

/-- C9 (amended): when the MOVED_FROM event does not reach the cap
(`agg_events_max` is zero or above the aggregate's `events` after that event),
both store updates succeed and the ring buffer has room at the MOVED_TO, the
rename hook (same pid, same inode, allowed path) appends exactly one record to
the ring buffer and leaves the key unbound.  The `filename_from` of that record
is the first 15 bytes of the aggregate's `filename` followed by a NUL, and its
`filename_to` holds the new name cut to 15 bytes; its `events` counts both
events. -/
theorem rename_emits_one_record (cfg : Config) (st : State) (h1 h2 : Helpers)
    (old_dentry new_dentry : List dentry) (key : Nat) (ino : inode) (new_name : List Nat)
    (hmon : cfg.monitor &&& MONITOR_FILE ≠ 0)
    (hdir : ¬(read_d_flags old_dentry &&& DCACHE_ENTRY_TYPE = DCACHE_DIRECTORY_TYPE ∨
      read_d_flags old_dentry &&& DCACHE_ENTRY_TYPE = DCACHE_AUTODIR_TYPE))
    (ht1 : fs_event_target cfg h1 ⟨I_MOVED_FROM, old_dentry, []⟩ = some (key, ino))
    (ht2 : fs_event_target cfg h2 ⟨I_MOVED_TO, new_dentry, old_dentry⟩ = some (key, ino))
    (hname : read_d_name new_dentry = some new_name)
    (hp : is_path_allowed cfg.allowed_prefixes
      (record_for st h1 key ino ⟨I_MOVED_FROM, old_dentry, []⟩).filepath = true)
    (hlen : (record_for st h1 key ino ⟨I_MOVED_FROM, old_dentry, []⟩).filename.length =
      FILENAME_LEN_MAX)
    (hu1 : h1.map_update_fails = false) (hu2 : h2.map_update_fails = false)
    (hcap : cfg.agg_events_max = 0 ∨
      (record_merged st h1 key ino ⟨I_MOVED_FROM, old_dentry, []⟩).events < cfg.agg_events_max)
    (hroom : h2.ringbuf_output_fails = false) :
    ∃ r, (security_inode_rename cfg st h1 h2 old_dentry new_dentry).ringbuf_records =
        st.ringbuf_records ++ [r] ∧
      (security_inode_rename cfg st h1 h2 old_dentry new_dentry).hash_records key = none ∧
      r.filename_from =
        (record_for st h1 key ino ⟨I_MOVED_FROM, old_dentry, []⟩).filename.take 15 ++ [0] ∧
      cstr r.filename_to = (cstr new_name).take 15 ∧
      r.events =
        ((record_merged st h1 key ino ⟨I_MOVED_FROM, old_dentry, []⟩).events + 1) % 2 ^ 32 := by
  have hsec : security_inode_rename cfg st h1 h2 old_dentry new_dentry =
      handle_fs_event cfg (handle_fs_event cfg st h1 ⟨I_MOVED_FROM, old_dentry, []⟩) h2
        ⟨I_MOVED_TO, new_dentry, old_dentry⟩ := by
    unfold security_inode_rename
    rw [if_neg hmon, if_neg hdir]
  have hopen : agg_end cfg I_MOVED_FROM ino.i_mode
      (record_merged st h1 key ino ⟨I_MOVED_FROM, old_dentry, []⟩) = false := by
    rw [← Bool.not_eq_true, agg_end_iff]
    rintro (hk | hk | ⟨hne, hge⟩)
    · rcases hk with hk | hk | hk | hk <;> cases hk
    · cases hk.1
    · rcases hcap with hcap | hcap
      · exact hne hcap
      · exact absurd hge (not_le.mpr hcap)
  have hst1 : (handle_fs_event cfg st h1 ⟨I_MOVED_FROM, old_dentry, []⟩).hash_records key =
      some (record_merged st h1 key ino ⟨I_MOVED_FROM, old_dentry, []⟩) := by
    rw [hash_records_accepted cfg st h1 _ key ino ht1 hp hu1]
    simp [hopen]
  have hrb1 : (handle_fs_event cfg st h1 ⟨I_MOVED_FROM, old_dentry, []⟩).ringbuf_records =
      st.ringbuf_records := by
    rw [ringbuf_records_accepted cfg st h1 _ key ino ht1 hp hu1]
    simp [hopen]
  have hfor := record_for_found (handle_fs_event cfg st h1 ⟨I_MOVED_FROM, old_dentry, []⟩) h2 key
    ino ⟨I_MOVED_TO, new_dentry, old_dentry⟩ _ hst1
  obtain ⟨f1, f2, f3⟩ := record_found_events
    (record_merged st h1 key ino ⟨I_MOVED_FROM, old_dentry, []⟩) h2.ktime_get_ns
    ⟨I_MOVED_TO, new_dentry, old_dentry⟩
  have hp2 : is_path_allowed cfg.allowed_prefixes
      (record_for (handle_fs_event cfg st h1 ⟨I_MOVED_FROM, old_dentry, []⟩) h2 key ino
        ⟨I_MOVED_TO, new_dentry, old_dentry⟩).filepath = true := by
    rw [hfor, f3]
    exact hp
  have hclose : agg_end cfg I_MOVED_TO ino.i_mode
      (record_merged (handle_fs_event cfg st h1 ⟨I_MOVED_FROM, old_dentry, []⟩) h2 key ino
        ⟨I_MOVED_TO, new_dentry, old_dentry⟩) = true := by
    rw [agg_end_iff]
    exact Or.inl (Or.inr (Or.inr (Or.inr rfl)))
  obtain ⟨g1, g2⟩ := record_found_moved_to_filename
    (record_merged st h1 key ino ⟨I_MOVED_FROM, old_dentry, []⟩) h2.ktime_get_ns
    ⟨I_MOVED_TO, new_dentry, old_dentry⟩ new_name rfl hname hlen
  refine ⟨record_closed (record_merged (handle_fs_event cfg st h1 ⟨I_MOVED_FROM, old_dentry, []⟩)
    h2 key ino ⟨I_MOVED_TO, new_dentry, old_dentry⟩), ?_, ?_, ?_, ?_, ?_⟩
  · rw [hsec, ringbuf_records_accepted cfg _ h2 _ key ino ht2 hp2 hu2, if_pos hclose, hrb1, hroom]
    rfl
  · rw [hsec, hash_records_accepted cfg _ h2 _ key ino ht2 hp2 hu2]
    simp [hclose]
  · unfold record_merged at g1 ⊢
    rw [hfor]
    exact g1
  · unfold record_merged at g2 ⊢
    rw [hfor]
    exact g2
  · have e1 : (record_closed (record_merged
        (handle_fs_event cfg st h1 ⟨I_MOVED_FROM, old_dentry, []⟩) h2 key ino
        ⟨I_MOVED_TO, new_dentry, old_dentry⟩)).events =
        ((record_for (handle_fs_event cfg st h1 ⟨I_MOVED_FROM, old_dentry, []⟩) h2 key ino
          ⟨I_MOVED_TO, new_dentry, old_dentry⟩).events + 1) % 2 ^ 32 := rfl
    rw [e1, hfor, f1]

theorem rename_emits_one_record_witness :
    (ex_cfg.monitor &&& MONITOR_FILE ≠ 0 ∧
      ¬(read_d_flags ex_chain &&& DCACHE_ENTRY_TYPE = DCACHE_DIRECTORY_TYPE ∨
        read_d_flags ex_chain &&& DCACHE_ENTRY_TYPE = DCACHE_AUTODIR_TYPE) ∧
      fs_event_target ex_cfg ex_h ⟨I_MOVED_FROM, ex_chain, []⟩ =
        some (ex_key, ex_inode 100 33188 1 0) ∧
      fs_event_target ex_cfg ex_h ⟨I_MOVED_TO, ex_chain_new, ex_chain⟩ =
        some (ex_key, ex_inode 100 33188 1 0) ∧
      read_d_name ex_chain_new = some [121, 46, 116, 120, 116] ∧
      is_path_allowed ex_cfg.allowed_prefixes
        (record_for State.init ex_h ex_key (ex_inode 100 33188 1 0)
          ⟨I_MOVED_FROM, ex_chain, []⟩).filepath = true ∧
      (record_for State.init ex_h ex_key (ex_inode 100 33188 1 0)
          ⟨I_MOVED_FROM, ex_chain, []⟩).filename.length = FILENAME_LEN_MAX ∧
      ex_h.map_update_fails = false ∧
      (ex_cfg.agg_events_max = 0 ∨
        (record_merged State.init ex_h ex_key (ex_inode 100 33188 1 0)
          ⟨I_MOVED_FROM, ex_chain, []⟩).events < ex_cfg.agg_events_max) ∧
      ex_h.ringbuf_output_fails = false) ∧
    ∃ r, (security_inode_rename ex_cfg State.init ex_h ex_h ex_chain ex_chain_new).ringbuf_records =
        State.init.ringbuf_records ++ [r] ∧
      (security_inode_rename ex_cfg State.init ex_h ex_h ex_chain ex_chain_new).hash_records
        ex_key = none ∧
      r.filename_from =
        (record_for State.init ex_h ex_key (ex_inode 100 33188 1 0)
          ⟨I_MOVED_FROM, ex_chain, []⟩).filename.take 15 ++ [0] ∧
      cstr r.filename_to = (cstr [121, 46, 116, 120, 116]).take 15 ∧
      r.events =
        ((record_merged State.init ex_h ex_key (ex_inode 100 33188 1 0)
          ⟨I_MOVED_FROM, ex_chain, []⟩).events + 1) % 2 ^ 32 :=
  ⟨⟨by decide, by decide, by decide, by decide, rfl, by decide, by decide, rfl, Or.inl rfl, rfl⟩,
    rename_emits_one_record ex_cfg State.init ex_h ex_h ex_chain ex_chain_new ex_key
      (ex_inode 100 33188 1 0) [121, 46, 116, 120, 116] (by decide) (by decide) (by decide)
      (by decide) rfl (by decide) (by decide) rfl rfl (Or.inl rfl) rfl⟩

/-! ## A chain deeper than the walk -/

theorem path_walk_limit (fuel : Nat) :
    ∀ (cnt : Nat) (d : List dentry) (pn : List (Option (List Nat))),
      (∀ i, i < fuel →
        read_d_ino (read_d_parent^[i] d) ≠ read_d_ino (read_d_parent^[i + 1] d)) →
      (path_walk fuel cnt d pn).1 = cnt + fuel := by
  induction fuel with
  | zero => intro cnt d pn _; rfl
  | succ fuel ih =>
    intro cnt d pn hne
    have h0 : read_d_ino d ≠ read_d_ino (read_d_parent d) := hne 0 (Nat.succ_pos _)
    unfold path_walk
    simp only [h0, if_false]
    rw [ih (cnt + 1) (read_d_parent d) _ (fun i hi => hne (i + 1) (Nat.succ_lt_succ hi))]
    omega

/-- C11 (amended): when the walk does not reach the end of the chain within
`FILEPATH_NODE_MAX` steps (at each of the 16 steps the entry and its parent
have different inode numbers), the walk stops at the limit, `num_nodes` is 0
and no component is written: the new aggregate's `filepath` is 96 NUL bytes,
the empty path, and its `filename` is the leaf name as read. -/
theorem deep_chain_gives_empty_path (r : RECORD_FS) (ts : Nat) (ino : inode) (ev : FS_EVENT_INFO)
    (hdeep : ∀ i, i < FILEPATH_NODE_MAX →
      read_d_ino (read_d_parent^[i] ev.dentry) ≠ read_d_ino (read_d_parent^[i + 1] ev.dentry)) :
    (path_walk FILEPATH_NODE_MAX 0 ev.dentry (List.replicate FILEPATH_NODE_MAX none)).1 =
        FILEPATH_NODE_MAX ∧
      (record_new r ts ino ev).filepath = List.replicate FILEPATH_LEN_MAX 0 ∧
      (record_new r ts ino ev).filename =
        mem_write (List.replicate FILENAME_LEN_MAX 0) 0
          (bpf_probe_read_kernel_str FILENAME_LEN_MAX (read_d_name ev.dentry)).1 := by
  have hw := path_walk_limit FILEPATH_NODE_MAX 0 ev.dentry
    (List.replicate FILEPATH_NODE_MAX none) hdeep
  rw [Nat.zero_add] at hw
  have hres : ∀ filename : List Nat,
      resolve_path ev.dentry filename = List.replicate FILEPATH_LEN_MAX 0 ++ filename := by
    intro filename
    unfold resolve_path
    simp only [hw, lt_irrefl, if_false]
    rfl
  refine ⟨hw, ?_, ?_⟩
  · show (resolve_path ev.dentry _).take FILEPATH_LEN_MAX = _
    rw [hres]
    simp [FILEPATH_LEN_MAX]
  · show (resolve_path ev.dentry _).drop FILEPATH_LEN_MAX = _
    rw [hres]
    simp [FILEPATH_LEN_MAX]

theorem deep_chain_gives_empty_path_witness :
    (∀ i, i < FILEPATH_NODE_MAX →
      read_d_ino (read_d_parent^[i] ex_create_deep.dentry) ≠
        read_d_ino (read_d_parent^[i + 1] ex_create_deep.dentry)) ∧
    ((path_walk FILEPATH_NODE_MAX 0 ex_create_deep.dentry
        (List.replicate FILEPATH_NODE_MAX none)).1 = FILEPATH_NODE_MAX ∧
      (record_new RECORD_FS.zero 1000 (ex_inode 100 33188 1 0) ex_create_deep).filepath =
        List.replicate FILEPATH_LEN_MAX 0 ∧
      (record_new RECORD_FS.zero 1000 (ex_inode 100 33188 1 0) ex_create_deep).filename =
        mem_write (List.replicate FILENAME_LEN_MAX 0) 0
          (bpf_probe_read_kernel_str FILENAME_LEN_MAX (read_d_name ex_create_deep.dentry)).1) :=
  ⟨by decide,
    deep_chain_gives_empty_path RECORD_FS.zero 1000 (ex_inode 100 33188 1 0) ex_create_deep
      (by decide)⟩

/-- C11 (as stated, refuted): for the file `x` below seventeen nested
directories the walk collects sixteen names, the leaf and fifteen
directories, and yet the `filepath` of the aggregate built for the event holds
none of them: it is the empty string. -/
theorem deep_chain_path_holds_no_component :
    (path_walk FILEPATH_NODE_MAX 0 ex_deep_chain (List.replicate FILEPATH_NODE_MAX none)).2 =
      [some [120], some [97], some [98], some [99], some [100], some [101], some [102],
        some [103], some [104], some [105], some [106], some [107], some [108], some [109],
        some [110], some [111]] ∧
    cstr (record_for State.init ex_h ex_key (ex_inode 100 33188 1 0) ex_create_deep).filepath =
      [] :=
  ⟨by decide, by decide⟩

/-! ## The rejects -/

theorem filename_first_zero_of_empty (name : Option (List Nat)) (he : cstr (name.getD []) = []) :
    (mem_write (List.replicate FILENAME_LEN_MAX 0) 0
      (bpf_probe_read_kernel_str FILENAME_LEN_MAX name).1).getD 0 0 = 0 := by
  cases name with
  | none => simp [bpf_probe_read_kernel_str, mem_write, FILENAME_LEN_MAX]
  | some n =>
    have he' : cstr n = [] := by simpa using he
    simp [bpf_probe_read_kernel_str, mem_write, he']

/-- C12: the handler is a no-op, the whole state (store, scratch slot,
statistics, ring buffer, `debug_count`) is as before, whenever the current
pid equals `pid_self`, or the kind is ACCESS or ATTRIB, or the target inode is
NULL, or the entry name is empty, or the inode mode is neither that of a
regular file nor that of a symbolic link. -/
theorem handle_fs_event_noop (cfg : Config) (st : State) (h : Helpers) (ev : FS_EVENT_INFO)
    (hrej : cfg.pid_self = (h.current_pid_tgid >>> 32) % 2 ^ 32 ∨
      ev.index = I_ACCESS ∨ ev.index = I_ATTRIB ∨
      read_d_inode (if ev.dentry_old ≠ [] then ev.dentry_old else ev.dentry) = none ∨
      cstr ((read_d_name ev.dentry).getD []) = [] ∨
      ∃ i, read_d_inode (if ev.dentry_old ≠ [] then ev.dentry_old else ev.dentry) = some i ∧
        S_ISREG i.i_mode = false ∧ S_ISLNK i.i_mode = false) :
    handle_fs_event cfg st h ev = st := by
  apply handle_fs_event_rejected
  unfold fs_event_target
  by_cases hk : ev.index = I_ACCESS ∨ ev.index = I_ATTRIB
  · rw [if_pos hk]
  · rw [if_neg hk]
    by_cases hpid : cfg.pid_self = (h.current_pid_tgid >>> 32) % 2 ^ 32
    · simp only [hpid, if_true]
    · simp only [hpid, if_false]
      rcases hrej with h1 | h1 | h1 | h1 | h1 | ⟨i, h1, h2, h3⟩
      · exact absurd h1 hpid
      · exact absurd (Or.inl h1) hk
      · exact absurd (Or.inr h1) hk
      · rw [h1]
      · cases hi : read_d_inode (if ev.dentry_old ≠ [] then ev.dentry_old else ev.dentry) with
        | none => rfl
        | some i =>
          simp only []
          rw [if_pos (filename_first_zero_of_empty _ h1)]
      · rw [h1]
        simp only []
        split_ifs with ha hb
        · rfl
        · rfl
        · simp [h2, h3] at hb

theorem handle_fs_event_noop_witness :
    (ex_cfg.pid_self = (ex_h.current_pid_tgid >>> 32) % 2 ^ 32 ∨
      I_ACCESS = I_ACCESS ∨ I_ACCESS = I_ATTRIB ∨
      read_d_inode (if ([] : List dentry) ≠ [] then [] else ex_chain) = none ∨
      cstr ((read_d_name ex_chain).getD []) = [] ∨
      ∃ i, read_d_inode (if ([] : List dentry) ≠ [] then [] else ex_chain) = some i ∧
        S_ISREG i.i_mode = false ∧ S_ISLNK i.i_mode = false) ∧
    handle_fs_event ex_cfg ex_st_later ex_h ⟨I_ACCESS, ex_chain, []⟩ = ex_st_later :=
  ⟨Or.inr (Or.inl rfl),
    handle_fs_event_noop ex_cfg ex_st_later ex_h ⟨I_ACCESS, ex_chain, []⟩ (Or.inr (Or.inl rfl))⟩

/-! ## The store key -/

theorem KEY_PID_INO_eq (p i : Nat) (hp : p < 2 ^ 32) (hi : i < 2 ^ 32) :
    KEY_PID_INO p i = 2 ^ 32 * p + i := by
  unfold KEY_PID_INO
  rw [Nat.shiftLeft_eq, Nat.mod_eq_of_lt (by omega), Nat.mul_comm, Nat.mul_add_lt_is_or hi]

/-- C14: for a 32-bit pid and a 32-bit inode number the key holds the pid in
its bits 63..32 and the inode number in its bits 31..0; two pairs with the
same key are the same pair, and one inode acted on by two different pids gets
two different keys. -/
theorem KEY_PID_INO_fields (p i : Nat) (hp : p < 2 ^ 32) (hi : i < 2 ^ 32) :
    KEY_PID_INO p i >>> 32 = p ∧ KEY_PID_INO p i % 2 ^ 32 = i ∧ KEY_PID_INO p i < 2 ^ 64 ∧
      (∀ p2 i2, p2 < 2 ^ 32 → i2 < 2 ^ 32 → KEY_PID_INO p i = KEY_PID_INO p2 i2 →
        p = p2 ∧ i = i2) ∧
      ∀ p2, p2 < 2 ^ 32 → p ≠ p2 → KEY_PID_INO p i ≠ KEY_PID_INO p2 i := by
  rw [KEY_PID_INO_eq p i hp hi, Nat.shiftRight_eq_div_pow]
  refine ⟨by omega, by omega, by omega, ?_, ?_⟩
  · intro p2 i2 hp2 hi2 hk
    rw [KEY_PID_INO_eq p2 i2 hp2 hi2] at hk
    omega
  · intro p2 hp2 hne hk
    rw [KEY_PID_INO_eq p2 i hp2 hi] at hk
    omega

theorem KEY_PID_INO_fields_witness :
    ((7 : Nat) < 2 ^ 32 ∧ (100 : Nat) < 2 ^ 32) ∧
    (KEY_PID_INO 7 100 >>> 32 = 7 ∧ KEY_PID_INO 7 100 % 2 ^ 32 = 100 ∧
      KEY_PID_INO 7 100 < 2 ^ 64 ∧
      (∀ p2 i2, p2 < 2 ^ 32 → i2 < 2 ^ 32 → KEY_PID_INO 7 100 = KEY_PID_INO p2 i2 →
        7 = p2 ∧ 100 = i2) ∧
      ∀ p2, p2 < 2 ^ 32 → 7 ≠ p2 → KEY_PID_INO 7 100 ≠ KEY_PID_INO p2 100) :=
  ⟨⟨by decide, by decide⟩, KEY_PID_INO_fields 7 100 (by decide) (by decide)⟩

/-! ## The statistics -/

section stats
variable (cfg : Config) (st : State) (h : Helpers) (ev : FS_EVENT_INFO) (key : Nat) (ino : inode)

/-- The statistics after the new-record block: `fs_records` has grown when the
key was not bound. -/
theorem stats_filtered (ht : fs_event_target cfg h ev = some (key, ino))
    (hp : is_path_allowed cfg.allowed_prefixes (record_for st h key ino ev).filepath = false) :
    (handle_fs_event cfg st h ev).stats =
      if (st.hash_records key).isSome = true then st.stats
      else { st.stats with fs_records := st.stats.fs_records + 1 } := by
  unfold handle_fs_event
  rw [ht]
  simp only [hp, Bool.not_false, if_true]
  cases hf : (st.hash_records key).isSome <;> simp <;> split_ifs <;> simp

theorem stats_update_failed (ht : fs_event_target cfg h ev = some (key, ino))
    (hp : is_path_allowed cfg.allowed_prefixes (record_for st h key ino ev).filepath = true)
    (hu : h.map_update_fails = true) :
    (handle_fs_event cfg st h ev).stats =
      { st.stats with
        fs_records := st.stats.fs_records + if (st.hash_records key).isSome = true then 0 else 1
        fs_events := st.stats.fs_events + 1 } := by
  unfold handle_fs_event
  rw [ht]
  simp only [hp, hu, Bool.not_true, if_true]
  cases hf : (st.hash_records key).isSome <;> simp

theorem close_stats (found : Bool) (r : RECORD_FS) (closing : Bool)
    (hx : (st.hash_records key).isSome = true) :
    (handle_fs_event_close cfg st h key found r closing).stats =
      stats_rb_max cfg
        { st.stats with
          fs_records_deleted := st.stats.fs_records_deleted + if closing = true then 1 else 0
          fs_records_dropped := st.stats.fs_records_dropped +
            if closing = true ∧ h.ringbuf_output_fails = true then 1 else 0 } := by
  obtain ⟨x, hx⟩ := Option.isSome_iff_exists.mp hx
  cases closing <;> cases found <;> cases hr : h.ringbuf_output_fails <;>
    simp [handle_fs_event_close, bpf_ringbuf_output, map_delete, hx, hr]

theorem stats_accepted (ht : fs_event_target cfg h ev = some (key, ino))
    (hp : is_path_allowed cfg.allowed_prefixes (record_for st h key ino ev).filepath = true)
    (hu : h.map_update_fails = false) :
    (handle_fs_event cfg st h ev).stats =
      stats_rb_max cfg
        { fs_records := st.stats.fs_records + if (st.hash_records key).isSome = true then 0 else 1
          fs_records_deleted := st.stats.fs_records_deleted +
            if agg_end cfg ev.index ino.i_mode (record_merged st h key ino ev) = true then 1 else 0
          fs_records_dropped := st.stats.fs_records_dropped +
            if agg_end cfg ev.index ino.i_mode (record_merged st h key ino ev) = true ∧
              h.ringbuf_output_fails = true then 1 else 0
          fs_records_rb_max := st.stats.fs_records_rb_max
          fs_events := st.stats.fs_events + 1 } := by
  unfold handle_fs_event
  rw [ht]
  simp only [hp, hu, Bool.not_true, Bool.false_eq_true, if_false]
  rw [close_stats]
  · cases hf : (st.hash_records key).isSome <;> simp [record_merged]
  · simp [lru_update]

theorem stats_rb_max_fields (s : STATS) :
    (stats_rb_max cfg s).fs_records = s.fs_records ∧
      (stats_rb_max cfg s).fs_records_deleted = s.fs_records_deleted ∧
      (stats_rb_max cfg s).fs_records_dropped = s.fs_records_dropped ∧
      (stats_rb_max cfg s).fs_events = s.fs_events ∧
      ((stats_rb_max cfg s).fs_records_rb_max = s.fs_records_rb_max ∨
        (stats_rb_max cfg s).fs_records_rb_max =
          cfg.ringbuf_size / record_size_aligned sizeof_RECORD_FS) := by
  unfold stats_rb_max
  split_ifs
  · exact ⟨rfl, rfl, rfl, rfl, Or.inr rfl⟩
  · exact ⟨rfl, rfl, rfl, rfl, Or.inl rfl⟩

end stats

/-- C13 (amended): when the path filter rejects the aggregate's path the
handler abandons the event with `fs_events`, `fs_records_deleted`,
`fs_records_dropped` and `fs_records_rb_max` as before; `fs_records` is as
before for a key that is tracked and has grown by one for a key that is not
yet tracked, whose aggregate was built in the scratch slot and counted before
the filter was asked. -/
theorem filter_reject_stats (cfg : Config) (st : State) (h : Helpers) (ev : FS_EVENT_INFO)
    (key : Nat) (ino : inode) (ht : fs_event_target cfg h ev = some (key, ino))
    (hp : is_path_allowed cfg.allowed_prefixes (record_for st h key ino ev).filepath = false) :
    (handle_fs_event cfg st h ev).stats.fs_events = st.stats.fs_events ∧
    (handle_fs_event cfg st h ev).stats.fs_records_deleted = st.stats.fs_records_deleted ∧
    (handle_fs_event cfg st h ev).stats.fs_records_dropped = st.stats.fs_records_dropped ∧
    (handle_fs_event cfg st h ev).stats.fs_records_rb_max = st.stats.fs_records_rb_max ∧
    ((st.hash_records key).isSome = true →
      (handle_fs_event cfg st h ev).stats.fs_records = st.stats.fs_records) ∧
    (st.hash_records key = none →
      (handle_fs_event cfg st h ev).stats.fs_records = st.stats.fs_records + 1) := by
  rw [stats_filtered cfg st h ev key ino ht hp]
  cases hf : st.hash_records key <;> simp

theorem filter_reject_stats_witness :
    (fs_event_target ex_cfg_data ex_h ex_create_tmp = some (ex_key_tmp, ex_inode 200 33188 1 0) ∧
      is_path_allowed ex_cfg_data.allowed_prefixes
        (record_for State.init ex_h ex_key_tmp (ex_inode 200 33188 1 0) ex_create_tmp).filepath =
          false) ∧
    ((handle_fs_event ex_cfg_data State.init ex_h ex_create_tmp).stats.fs_events =
        State.init.stats.fs_events ∧
      (handle_fs_event ex_cfg_data State.init ex_h ex_create_tmp).stats.fs_records_deleted =
        State.init.stats.fs_records_deleted ∧
      (handle_fs_event ex_cfg_data State.init ex_h ex_create_tmp).stats.fs_records_dropped =
        State.init.stats.fs_records_dropped ∧
      (handle_fs_event ex_cfg_data State.init ex_h ex_create_tmp).stats.fs_records_rb_max =
        State.init.stats.fs_records_rb_max ∧
      ((State.init.hash_records ex_key_tmp).isSome = true →
        (handle_fs_event ex_cfg_data State.init ex_h ex_create_tmp).stats.fs_records =
          State.init.stats.fs_records) ∧
      (State.init.hash_records ex_key_tmp = none →
        (handle_fs_event ex_cfg_data State.init ex_h ex_create_tmp).stats.fs_records =
          State.init.stats.fs_records + 1)) :=
  ⟨⟨by decide, by decide⟩,
    filter_reject_stats ex_cfg_data State.init ex_h ex_create_tmp ex_key_tmp
      (ex_inode 200 33188 1 0) (by decide) (by decide)⟩

/-- C13 (as stated, refuted): with `/data` as the only allowed start, a CREATE
of `/tmp/a` in the initial state is rejected by the filter and yet
`fs_records` has grown from 0 to 1. -/
theorem filter_reject_counts_new_record :
    fs_event_target ex_cfg_data ex_h ex_create_tmp = some (ex_key_tmp, ex_inode 200 33188 1 0) ∧
    State.init.hash_records ex_key_tmp = none ∧
    is_path_allowed ex_cfg_data.allowed_prefixes
      (record_for State.init ex_h ex_key_tmp (ex_inode 200 33188 1 0) ex_create_tmp).filepath =
        false ∧
    State.init.stats.fs_records = 0 ∧
    (handle_fs_event ex_cfg_data State.init ex_h ex_create_tmp).stats.fs_records = 1 := by
  decide

/-- C15 (amended): one invocation changes the four counters as follows, so
that none of them decreases or grows by more than one: `fs_records` grows by
one exactly when the event passes the rejects and its key is not bound in the
store, where the handler builds a record in the scratch slot, whether or not
the filter lets it pass and anything is stored; `fs_events` exactly when the
record passes the filter, `fs_records_deleted` exactly when the aggregate is
closed (submitted and deleted) and `fs_records_dropped` exactly when that
submission finds the ring buffer full.  The capacity `fs_records_rb_max` is
not a count: it stays or is set to the ring buffer's size divided by `rsz`,
so it does not decrease either once it is zero or that quotient, as it is from
the initial state on. -/
theorem stats_change_per_event (cfg : Config) (st : State) (h : Helpers) (ev : FS_EVENT_INFO) :
    (handle_fs_event cfg st h ev).stats.fs_records =
      st.stats.fs_records + (if creates_record cfg st h ev = true then 1 else 0) ∧
    (handle_fs_event cfg st h ev).stats.fs_events =
      st.stats.fs_events + (if passes_filter cfg st h ev = true then 1 else 0) ∧
    (handle_fs_event cfg st h ev).stats.fs_records_deleted =
      st.stats.fs_records_deleted + (if closes_record cfg st h ev = true then 1 else 0) ∧
    (handle_fs_event cfg st h ev).stats.fs_records_dropped =
      st.stats.fs_records_dropped +
        (if closes_record cfg st h ev = true ∧ h.ringbuf_output_fails = true then 1 else 0) ∧
    ((handle_fs_event cfg st h ev).stats.fs_records_rb_max = st.stats.fs_records_rb_max ∨
      (handle_fs_event cfg st h ev).stats.fs_records_rb_max =
        cfg.ringbuf_size / record_size_aligned sizeof_RECORD_FS) ∧
    ((st.stats.fs_records_rb_max = 0 ∨
        st.stats.fs_records_rb_max = cfg.ringbuf_size / record_size_aligned sizeof_RECORD_FS) →
      st.stats.fs_records_rb_max ≤ (handle_fs_event cfg st h ev).stats.fs_records_rb_max) := by
  suffices main : (handle_fs_event cfg st h ev).stats.fs_records =
      st.stats.fs_records + (if creates_record cfg st h ev = true then 1 else 0) ∧
    (handle_fs_event cfg st h ev).stats.fs_events =
      st.stats.fs_events + (if passes_filter cfg st h ev = true then 1 else 0) ∧
    (handle_fs_event cfg st h ev).stats.fs_records_deleted =
      st.stats.fs_records_deleted + (if closes_record cfg st h ev = true then 1 else 0) ∧
    (handle_fs_event cfg st h ev).stats.fs_records_dropped =
      st.stats.fs_records_dropped +
        (if closes_record cfg st h ev = true ∧ h.ringbuf_output_fails = true then 1 else 0) ∧
    ((handle_fs_event cfg st h ev).stats.fs_records_rb_max = st.stats.fs_records_rb_max ∨
      (handle_fs_event cfg st h ev).stats.fs_records_rb_max =
        cfg.ringbuf_size / record_size_aligned sizeof_RECORD_FS) by
    obtain ⟨m1, m2, m3, m4, m5⟩ := main
    refine ⟨m1, m2, m3, m4, m5, ?_⟩
    intro hinv
    rcases m5 with m5 | m5 <;> rcases hinv with hinv | hinv <;> omega
  cases ht : fs_event_target cfg h ev with
  | none =>
    rw [handle_fs_event_rejected cfg st h ev ht]
    simp [creates_record, passes_filter, closes_record, ht]
  | some t =>
    obtain ⟨key, ino⟩ := t
    cases hp : is_path_allowed cfg.allowed_prefixes (record_for st h key ino ev).filepath with
    | false =>
      rw [stats_filtered cfg st h ev key ino ht hp]
      cases hf : st.hash_records key <;>
        simp [creates_record, passes_filter, closes_record, ht, hp, hf]
    | true =>
      cases hu : h.map_update_fails with
      | true =>
        rw [stats_update_failed cfg st h ev key ino ht hp hu]
        cases hf : st.hash_records key <;>
          simp [creates_record, passes_filter, closes_record, ht, hp, hu, hf]
      | false =>
        rw [stats_accepted cfg st h ev key ino ht hp hu]
        obtain ⟨g1, g2, g3, g4, g5⟩ := stats_rb_max_fields cfg
          { fs_records := st.stats.fs_records +
              if (st.hash_records key).isSome = true then 0 else 1
            fs_records_deleted := st.stats.fs_records_deleted +
              if agg_end cfg ev.index ino.i_mode (record_merged st h key ino ev) = true
                then 1 else 0
            fs_records_dropped := st.stats.fs_records_dropped +
              if agg_end cfg ev.index ino.i_mode (record_merged st h key ino ev) = true ∧
                h.ringbuf_output_fails = true then 1 else 0
            fs_records_rb_max := st.stats.fs_records_rb_max
            fs_events := st.stats.fs_events + 1 }
        rw [g1, g2, g3, g4]
        refine ⟨?_, ?_, ?_, ?_, g5⟩
        · cases hf : st.hash_records key <;> simp [creates_record, ht, hf]
        · simp [passes_filter, ht, hp]
        · simp [closes_record, ht, hp, hu]
        · simp [closes_record, ht, hp, hu]

/-! ## The capacity statistic -/

theorem stats_rb_max_eq (cfg : Config) (s : STATS) :
    stats_rb_max cfg s =
      if s.fs_records = 1 then
        { s with fs_records_rb_max := cfg.ringbuf_size / record_size_aligned sizeof_RECORD_FS }
      else s := rfl

theorem record_size_aligned_spec (n : Nat) :
    record_size_aligned n % 8 = 0 ∧ n < record_size_aligned n ∧ record_size_aligned n ≤ n + 8 := by
  unfold record_size_aligned
  omega

/-- C16 (the code departs from it): the record size 264 is a multiple of 8 and
the computed divisor is 272, the record size plus 8, not the record size; after
the first event of a run `fs_records_rb_max` is 4194304 / 272 = 15420, while
the byte capacity divided by the record size is 15887. -/
theorem record_size_aligned_adds_eight :
    sizeof_RECORD_FS % 8 = 0 ∧ record_size_aligned sizeof_RECORD_FS = sizeof_RECORD_FS + 8 ∧
    (handle_fs_event ex_cfg State.init ex_h ex_create).stats.fs_records_rb_max = 15420 ∧
    ex_cfg.ringbuf_size / record_size_aligned sizeof_RECORD_FS = 15420 ∧
    ex_cfg.ringbuf_size / sizeof_RECORD_FS = 15887 := by
  decide

/-- C17 (the code departs from it): with `/data` as the only allowed start, a
CREATE of `/tmp/a`, which the filter rejects, followed by a CLOSE_WRITE of
`/data/x.txt`: the second event closes its aggregate (one record in the ring
buffer, the key unbound, `fs_records_deleted = 1`) and `fs_records_rb_max` is
still 0, because `fs_records` was already 2 when the capacity block ran. -/
theorem rb_max_unset_after_first_close :
    (run ex_cfg_data State.init
      [(ex_h, ex_create_tmp), (ex_h_later, ex_close_write)]).ringbuf_records.length = 1 ∧
    (run ex_cfg_data State.init
      [(ex_h, ex_create_tmp), (ex_h_later, ex_close_write)]).hash_records ex_key = none ∧
    (run ex_cfg_data State.init
      [(ex_h, ex_create_tmp), (ex_h_later, ex_close_write)]).stats.fs_records_deleted = 1 ∧
    (run ex_cfg_data State.init
      [(ex_h, ex_create_tmp), (ex_h_later, ex_close_write)]).stats.fs_records = 2 ∧
    (run ex_cfg_data State.init
      [(ex_h, ex_create_tmp), (ex_h_later, ex_close_write)]).stats.fs_records_rb_max = 0 ∧
    ex_cfg_data.ringbuf_size / record_size_aligned sizeof_RECORD_FS = 15420 := by
  decide

/-! ## Hard links -/

/-- C18 (as stated, refuted): a hard link to a regular file whose link count
is `2 ^ 32 - 1`, with the cap disabled: the recorded count wraps to 0, the
aggregate is not closed, it stays in the store and nothing is submitted. -/
theorem hard_link_not_closed_at_max_links :
    fs_event_target ex_cfg ex_h ⟨I_CREATE, ex_chain_link, ex_chain_max_links⟩ =
      some (ex_key, ex_inode 100 33188 4294967295 0) ∧
    S_ISREG (ex_inode 100 33188 4294967295 0).i_mode = true ∧
    is_path_allowed ex_cfg.allowed_prefixes
      (record_for State.init ex_h ex_key (ex_inode 100 33188 4294967295 0)
        ⟨I_CREATE, ex_chain_link, ex_chain_max_links⟩).filepath = true ∧
    (security_inode_link ex_cfg State.init ex_h ex_chain_max_links
      ex_chain_link).ringbuf_records = [] ∧
    ((security_inode_link ex_cfg State.init ex_h ex_chain_max_links
      ex_chain_link).hash_records ex_key).isSome = true ∧
    ((security_inode_link ex_cfg State.init ex_h ex_chain_max_links
      ex_chain_link).hash_records ex_key).map (fun r => r.inlink) = some 0 := by
  decide

/-- C18 (amended): for every hard-link creation event, as sent by
`security_inode_link` with the old entry set, on an inode whose link count `n`
at observation time has `1 ≤ n` and `n + 1 < 2 ^ 32`, that passes the rejects
(pid other than `pid_self`, regular file or symbolic link) and the filter and
is persisted, the aggregate is closed by that same event for every value of
`agg_events_max`: the key is unbound afterwards and the record, with
`inlink = n + 1`, has been handed to `bpf_ringbuf_output`, which appends it
when the ring buffer has room. -/
theorem hard_link_closes (cfg : Config) (st : State) (h : Helpers)
    (old_dentry new_dentry : List dentry) (key : Nat) (ino : inode)
    (hmon : cfg.monitor &&& MONITOR_FILE ≠ 0) (hold : old_dentry ≠ [])
    (ht : fs_event_target cfg h ⟨I_CREATE, new_dentry, old_dentry⟩ = some (key, ino))
    (hn : 1 ≤ ino.i_nlink ∧ ino.i_nlink + 1 < 2 ^ 32)
    (hp : is_path_allowed cfg.allowed_prefixes
      (record_for st h key ino ⟨I_CREATE, new_dentry, old_dentry⟩).filepath = true)
    (hu : h.map_update_fails = false) :
    (security_inode_link cfg st h old_dentry new_dentry).hash_records key = none ∧
    (security_inode_link cfg st h old_dentry new_dentry).ringbuf_records =
      (bpf_ringbuf_output st.ringbuf_records
        (record_closed (record_merged st h key ino ⟨I_CREATE, new_dentry, old_dentry⟩))
        h.ringbuf_output_fails).1 ∧
    (h.ringbuf_output_fails = false →
      (security_inode_link cfg st h old_dentry new_dentry).ringbuf_records =
        st.ringbuf_records ++
          [record_closed (record_merged st h key ino ⟨I_CREATE, new_dentry, old_dentry⟩)]) ∧
    (record_closed (record_merged st h key ino ⟨I_CREATE, new_dentry, old_dentry⟩)).inlink =
      ino.i_nlink + 1 := by
  have hsec : security_inode_link cfg st h old_dentry new_dentry =
      handle_fs_event cfg st h ⟨I_CREATE, new_dentry, old_dentry⟩ := by
    unfold security_inode_link
    rw [if_neg hmon]
  have hlink : (record_merged st h key ino ⟨I_CREATE, new_dentry, old_dentry⟩).inlink =
      ino.i_nlink + 1 := by
    show (if (I_CREATE = I_CREATE ∧ old_dentry ≠ []) then (ino.i_nlink + 1) % 2 ^ 32
      else ino.i_nlink) = _
    rw [if_pos ⟨rfl, hold⟩]
    exact Nat.mod_eq_of_lt hn.2
  have hclose : agg_end cfg I_CREATE ino.i_mode
      (record_merged st h key ino ⟨I_CREATE, new_dentry, old_dentry⟩) = true := by
    rw [agg_end_iff]
    refine Or.inr (Or.inl ⟨rfl, Or.inr ?_⟩)
    rw [hlink]
    omega
  have hring := ringbuf_records_accepted cfg st h ⟨I_CREATE, new_dentry, old_dentry⟩ key ino
    ht hp hu
  rw [if_pos hclose] at hring
  refine ⟨?_, ?_, ?_, hlink⟩
  · rw [hsec, hash_records_accepted cfg st h _ key ino ht hp hu]
    simp [hclose]
  · rw [hsec]
    exact hring
  · intro hf
    rw [hsec, hring, hf]
    rfl

theorem hard_link_closes_witness :
    (ex_cfg_one.monitor &&& MONITOR_FILE ≠ 0 ∧ ex_chain ≠ [] ∧
      fs_event_target ex_cfg_one ex_h ⟨I_CREATE, ex_chain_link, ex_chain⟩ =
        some (ex_key, ex_inode 100 33188 1 0) ∧
      (1 ≤ (ex_inode 100 33188 1 0).i_nlink ∧ (ex_inode 100 33188 1 0).i_nlink + 1 < 2 ^ 32) ∧
      is_path_allowed ex_cfg_one.allowed_prefixes
        (record_for State.init ex_h ex_key (ex_inode 100 33188 1 0)
          ⟨I_CREATE, ex_chain_link, ex_chain⟩).filepath = true ∧
      ex_h.map_update_fails = false) ∧
    (security_inode_link ex_cfg_one State.init ex_h ex_chain ex_chain_link).hash_records ex_key =
      none ∧
    (security_inode_link ex_cfg_one State.init ex_h ex_chain ex_chain_link).ringbuf_records =
      State.init.ringbuf_records ++
        [record_closed (record_merged State.init ex_h ex_key (ex_inode 100 33188 1 0)
          ⟨I_CREATE, ex_chain_link, ex_chain⟩)] ∧
    (record_closed (record_merged State.init ex_h ex_key (ex_inode 100 33188 1 0)
      ⟨I_CREATE, ex_chain_link, ex_chain⟩)).inlink = 2 :=
  ⟨⟨by decide, by decide, by decide, by decide, by decide, rfl⟩,
    (hard_link_closes ex_cfg_one State.init ex_h ex_chain ex_chain_link ex_key
      (ex_inode 100 33188 1 0) (by decide) (by decide) (by decide) (by decide) (by decide) rfl).1,
    (hard_link_closes ex_cfg_one State.init ex_h ex_chain ex_chain_link ex_key
      (ex_inode 100 33188 1 0) (by decide) (by decide) (by decide) (by decide) (by decide)
      rfl).2.2.1 rfl,
    (hard_link_closes ex_cfg_one State.init ex_h ex_chain ex_chain_link ex_key
      (ex_inode 100 33188 1 0) (by decide) (by decide) (by decide) (by decide) (by decide)
      rfl).2.2.2⟩

/-! ## The scenario of a created and written file -/

/-- C19: with the cap disabled and every absolute path allowed, a CREATE of
the regular file `/data/x.txt` seen with size 0 submits nothing, and the
CLOSE_WRITE that follows, seen with size 100, submits exactly one record: its
name is `x.txt`, `events = 2` with one CREATE and one CLOSE_WRITE,
`isize = 100`, `isize_first = 0`, and the consumer renders the mode
`regular` and the size change 100.  In general the merged aggregate has the
size seen at this event as `isize`, and as `isize_first` the size seen when
the aggregate was built: this event's size for a key that is not bound, the
stored `isize_first` otherwise. -/
theorem create_then_close_write_scenario :
    (run ex_cfg State.init [(ex_h, ex_create)]).ringbuf_records = [] ∧
    (∃ r, (run ex_cfg State.init
          [(ex_h, ex_create), (ex_h_later, ex_close_write_100)]).ringbuf_records = [r] ∧
        cstr r.filename = [120, 46, 116, 120, 116] ∧ r.events = 2 ∧
        r.event = [1, 0, 0, 0, 0, 0, 1, 0, 0, 0, 0, 0, 0, 0, 0] ∧
        r.event.getD I_CREATE.toNat 0 = 1 ∧ r.event.getD I_CLOSE_WRITE.toNat 0 = 1 ∧
        r.isize = 100 ∧ r.isize_first = 0 ∧ r.rc.type = RECORD_TYPE_FILE ∧
        mode_str r = "regular" ∧ file_size_change r = 100) ∧
    (run ex_cfg State.init
      [(ex_h, ex_create), (ex_h_later, ex_close_write_100)]).hash_records ex_key = none ∧
    ∀ (st : State) (h : Helpers) (key : Nat) (ino : inode) (ev : FS_EVENT_INFO),
      (record_merged st h key ino ev).isize = ino.i_size ∧
      (record_merged st h key ino ev).isize_first =
        match st.hash_records key with
        | some r0 => r0.isize_first
        | none => ino.i_size := by
  refine ⟨by decide,
    ⟨record_closed (record_merged (handle_fs_event ex_cfg State.init ex_h ex_create) ex_h_later
      ex_key (ex_inode 100 33188 1 100) ex_close_write_100),
      by decide, by decide, by decide, by decide, by decide, by decide, by decide, by decide,
      by decide, by decide, by decide⟩, by decide, ?_⟩
  intro st h key ino ev
  refine ⟨rfl, ?_⟩
  cases hk : st.hash_records key with
  | none =>
    unfold record_merged
    rw [record_for_new st h key ino ev hk]
    rfl
  | some r0 =>
    unfold record_merged
    rw [record_for_found st h key ino ev r0 hk]
    show (record_found r0 h.ktime_get_ns ev).isize_first = r0.isize_first
    unfold record_found
    split_ifs <;> rfl

/-! ## The path of a file in `/data` -/

theorem mem_write_append (a f bytes : List Nat) (off : Nat)
    (hfit : off + bytes.length ≤ a.length) :
    mem_write (a ++ f) off bytes = mem_write a off bytes ++ f := by
  unfold mem_write
  rw [List.take_append_of_le_length (by omega), List.drop_append_of_le_length hfit]
  simp [List.append_assoc]

theorem mem_write_length (a bytes : List Nat) (off : Nat) (hfit : off + bytes.length ≤ a.length) :
    (mem_write a off bytes).length = a.length := by
  unfold mem_write
  simp only [List.length_append, List.length_take, List.length_drop]
  omega

theorem path_append_congr (pn pn2 : List (Option (List Nat))) (nn cnt : Nat)
    (acc : List Nat × Nat) (hpn : pn.getD cnt none = pn2.getD cnt none) :
    path_append pn nn cnt acc = path_append pn2 nn cnt acc := by
  unfold path_append
  rw [hpn]

/-- A round of the loop whose string, with its NUL, fits into the first part
`a` of the memory leaves the rest `f` of the memory alone. -/
theorem path_append_frame (pn : List (Option (List Nat))) (nn cnt : Nat) (a f : List Nat)
    (off : Nat) (ha : a.length = FILEPATH_LEN_MAX)
    (hfit : ∀ name, pn.getD cnt none = some name → off + ((cstr name).length + 1) ≤ a.length) :
    path_append pn nn cnt (a ++ f, off) =
      ((path_append pn nn cnt (a, off)).1 ++ f, (path_append pn nn cnt (a, off)).2) := by
  unfold path_append
  cases hg : pn.getD cnt none with
  | none => rfl
  | some name =>
    have hlen : (bpf_probe_read_kernel_str (FILEPATH_LEN_MAX - DNAME_INLINE_LEN)
        (some name)).1.length ≤ (cstr name).length + 1 := by
      simp only [bpf_probe_read_kernel_str, List.length_append, List.length_take,
        List.length_singleton]
      omega
    have hfit2 : off + (bpf_probe_read_kernel_str (FILEPATH_LEN_MAX - DNAME_INLINE_LEN)
        (some name)).1.length ≤ a.length := le_trans (by omega) (hfit name hg)
    simp only []
    rw [mem_write_append a f _ off hfit2]
    have hl := mem_write_length a _ off hfit2
    split_ifs with h1 h2 h3
    · have hidx : (off + (((bpf_probe_read_kernel_str (FILEPATH_LEN_MAX - DNAME_INLINE_LEN)
          (some name)).2 % 2 ^ 32).toNat - 1)) % 2 ^ 32 < (mem_write a off
          (bpf_probe_read_kernel_str (FILEPATH_LEN_MAX - DNAME_INLINE_LEN) (some name)).1).length := by
        rw [hl, ha]
        exact h3.2
      simp only [List.set_append_left _ _ hidx]
    · rfl
    · rfl
    · rfl

theorem path_build_two (pn : List (Option (List Nat))) (acc : List Nat × Nat) :
    path_build pn 2 2 acc = path_append pn 2 1 (path_append pn 2 2 acc) := rfl

theorem path_walk_data (leaf data root : dentry)
    (h1 : read_d_ino [leaf, data, root] ≠ read_d_ino [data, root])
    (h2 : read_d_ino [data, root] ≠ read_d_ino [root]) :
    path_walk FILEPATH_NODE_MAX 0 [leaf, data, root] (List.replicate FILEPATH_NODE_MAX none) =
      (2, [some leaf.d_name, some data.d_name, some root.d_name] ++ List.replicate 13 none) := by
  show path_walk (15 + 1) 0 [leaf, data, root] (List.replicate 16 none) = _
  unfold path_walk
  simp only [read_d_parent, if_neg h1]
  show path_walk (14 + 1) 1 [data, root] _ = _
  unfold path_walk
  simp only [read_d_parent, if_neg h2]
  show path_walk (13 + 1) 2 [root] _ = _
  unfold path_walk
  simp only [read_d_parent, if_true]
  rfl

/-- C20 (amended): for a file that lies directly in the directory `/data`
(chain: the leaf, then `data`, then the root named `/`, with the inode numbers
of leaf and `data` and of `data` and root different), the `filepath` of the
aggregate built for the event is exactly the string `/data/`, with the
separator after the directory, followed by NUL bytes. -/
theorem path_of_file_in_data (r : RECORD_FS) (ts : Nat) (ino : inode) (ev : FS_EVENT_INFO)
    (leaf data root : dentry) (hchain : ev.dentry = [leaf, data, root])
    (hdata : data.d_name = [100, 97, 116, 97]) (hroot : root.d_name = [47])
    (h1 : read_d_ino [leaf, data, root] ≠ read_d_ino [data, root])
    (h2 : read_d_ino [data, root] ≠ read_d_ino [root]) :
    (record_new r ts ino ev).filepath = [47, 100, 97, 116, 97, 47] ++ List.replicate 90 0 ∧
      cstr (record_new r ts ino ev).filepath = [47, 100, 97, 116, 97, 47] := by
  have key : ∀ filename : List Nat,
      (resolve_path ev.dentry filename).take FILEPATH_LEN_MAX =
        [47, 100, 97, 116, 97, 47] ++ List.replicate 90 0 := by
    intro filename
    unfold resolve_path
    rw [hchain, path_walk_data leaf data root h1 h2]
    simp only [show (2 : Nat) < FILEPATH_NODE_MAX from by decide, if_true]
    rw [path_build_two]
    rw [path_append_congr _ [none, some [100, 97, 116, 97], some [47]] 2 2 _
      (by simp [hroot])]
    rw [path_append_frame _ 2 2 _ filename 0 (by simp)
      (by
        intro name hname
        have : name = [47] := by simpa using hname.symm
        subst this
        decide)]
    rw [path_append_congr _ [none, some [100, 97, 116, 97], some [47]] 2 1 _
      (by simp [hdata])]
    rw [path_append_frame _ 2 1 _ filename _ (by decide)
      (by
        intro name hname
        have : name = [100, 97, 116, 97] := by simpa using hname.symm
        subst this
        decide)]
    rw [List.take_append_of_le_length (by decide)]
    decide
  have hfp : (record_new r ts ino ev).filepath =
      [47, 100, 97, 116, 97, 47] ++ List.replicate 90 0 := key _
  refine ⟨hfp, ?_⟩
  rw [hfp]
  decide

theorem path_of_file_in_data_witness :
    (ex_create.dentry =
        [⟨[120, 46, 116, 120, 116], some (ex_inode 100 33188 1 0), 0⟩,
          ⟨[100, 97, 116, 97], some (ex_inode 10 16877 2 0), 2097152⟩,
          ⟨[47], some (ex_inode 2 16877 2 0), 2097152⟩] ∧
      read_d_ino ex_chain ≠ read_d_ino (ex_chain.drop 1) ∧
      read_d_ino (ex_chain.drop 1) ≠ read_d_ino (ex_chain.drop 2)) ∧
    ((record_new RECORD_FS.zero 1000 (ex_inode 100 33188 1 0) ex_create).filepath =
        [47, 100, 97, 116, 97, 47] ++ List.replicate 90 0 ∧
      cstr (record_new RECORD_FS.zero 1000 (ex_inode 100 33188 1 0) ex_create).filepath =
        [47, 100, 97, 116, 97, 47]) :=
  ⟨⟨rfl, by decide, by decide⟩,
    path_of_file_in_data RECORD_FS.zero 1000 (ex_inode 100 33188 1 0) ex_create
      ⟨[120, 46, 116, 120, 116], some (ex_inode 100 33188 1 0), 0⟩
      ⟨[100, 97, 116, 97], some (ex_inode 10 16877 2 0), 2097152⟩
      ⟨[47], some (ex_inode 2 16877 2 0), 2097152⟩ rfl rfl rfl (by decide) (by decide)⟩

/-- C20 (as stated, refuted): for the file `/data/x.txt` the stored `filepath`
is not the string `/data`: it is `/data/`. -/
theorem path_of_file_in_data_has_trailing_slash :
    ∃ r, (handle_fs_event ex_cfg State.init ex_h ex_create).hash_records ex_key = some r ∧
      cstr r.filepath ≠ [47, 100, 97, 116, 97] ∧ cstr r.filepath = [47, 100, 97, 116, 97, 47] :=
  ⟨record_merged State.init ex_h ex_key (ex_inode 100 33188 1 0) ex_create,
    by decide, by decide, by decide⟩

/-! ## The inode number in the key -/

theorem fs_event_target_key (cfg : Config) (h : Helpers) (ev : FS_EVENT_INFO) (key : Nat)
    (ino : inode) (ht : fs_event_target cfg h ev = some (key, ino)) :
    key = KEY_PID_INO ((h.current_pid_tgid >>> 32) % 2 ^ 32) (ino.i_ino % 2 ^ 32) := by
  unfold fs_event_target at ht
  dsimp only at ht
  generalize read_d_inode (if ev.dentry_old ≠ [] then ev.dentry_old else ev.dentry) = oi at ht
  cases oi with
  | none => split_ifs at ht
  | some i =>
    dsimp only at ht
    split_ifs at ht
    simp only [Option.some.injEq, Prod.mk.injEq] at ht
    obtain ⟨hk, hi⟩ := ht
    rw [← hk, ← hi]

/-- C27: the inode number enters the key and the record modulo `2 ^ 32`.  For
one pid, two events on inodes whose numbers are congruent modulo `2 ^ 32` get
the same key; when the first inode's aggregate is tracked, the event on the
second inode is merged into it (its `events` goes up by one, its `ino` stays),
and a new aggregate's `ino` is the inode number modulo `2 ^ 32`. -/
theorem ino_narrowed_to_32_bits (cfg : Config) (st : State) (h1 h2 : Helpers)
    (ev1 ev2 : FS_EVENT_INFO) (k1 k2 : Nat) (i1 i2 : inode)
    (ht1 : fs_event_target cfg h1 ev1 = some (k1, i1))
    (ht2 : fs_event_target cfg h2 ev2 = some (k2, i2))
    (hpid : h1.current_pid_tgid >>> 32 = h2.current_pid_tgid >>> 32)
    (hino : i1.i_ino % 2 ^ 32 = i2.i_ino % 2 ^ 32) :
    k1 = k2 ∧
    (∀ r, st.hash_records k1 = some r →
      (record_merged st h2 k2 i2 ev2).events = (r.events + 1) % 2 ^ 32 ∧
      (record_merged st h2 k2 i2 ev2).ino = r.ino ∧
      (record_merged st h2 k2 i2 ev2).isize_first = r.isize_first) ∧
    (st.hash_records k1 = none → (record_merged st h1 k1 i1 ev1).ino = i1.i_ino % 2 ^ 32) := by
  have hk : k1 = k2 := by
    rw [fs_event_target_key cfg h1 ev1 k1 i1 ht1, fs_event_target_key cfg h2 ev2 k2 i2 ht2,
      hpid, hino]
  refine ⟨hk, ?_, ?_⟩
  · intro r hr
    rw [hk] at hr
    unfold record_merged
    rw [record_for_found st h2 k2 i2 ev2 r hr]
    refine ⟨?_, ?_, ?_⟩
    · show ((record_found r h2.ktime_get_ns ev2).events + 1) % 2 ^ 32 = _
      rw [(record_found_events r h2.ktime_get_ns ev2).1]
    · show (record_found r h2.ktime_get_ns ev2).ino = r.ino
      unfold record_found
      split_ifs <;> rfl
    · show (record_found r h2.ktime_get_ns ev2).isize_first = r.isize_first
      unfold record_found
      split_ifs <;> rfl
  · intro hnone
    unfold record_merged
    rw [record_for_new st h1 k1 i1 ev1 hnone]
    rfl

theorem ino_narrowed_to_32_bits_witness :
    (fs_event_target ex_cfg ex_h ex_create = some (ex_key, ex_inode 100 33188 1 0) ∧
      fs_event_target ex_cfg ex_h_later ex_modify_wide =
        some (ex_key, ex_inode 4294967396 33188 1 0) ∧
      ex_h.current_pid_tgid >>> 32 = ex_h_later.current_pid_tgid >>> 32 ∧
      (ex_inode 100 33188 1 0).i_ino % 2 ^ 32 = (ex_inode 4294967396 33188 1 0).i_ino % 2 ^ 32) ∧
    (run ex_cfg State.init [(ex_h, ex_create), (ex_h_later, ex_modify_wide)]).hash_records ex_key =
      some (record_merged (handle_fs_event ex_cfg State.init ex_h ex_create) ex_h_later ex_key
        (ex_inode 4294967396 33188 1 0) ex_modify_wide) ∧
    (record_merged (handle_fs_event ex_cfg State.init ex_h ex_create) ex_h_later ex_key
      (ex_inode 4294967396 33188 1 0) ex_modify_wide).events = 2 ∧
    (record_merged (handle_fs_event ex_cfg State.init ex_h ex_create) ex_h_later ex_key
      (ex_inode 4294967396 33188 1 0) ex_modify_wide).ino = 100 ∧
    (∀ r, (handle_fs_event ex_cfg State.init ex_h ex_create).hash_records ex_key = some r →
      (record_merged (handle_fs_event ex_cfg State.init ex_h ex_create) ex_h_later ex_key
          (ex_inode 4294967396 33188 1 0) ex_modify_wide).events = (r.events + 1) % 2 ^ 32 ∧
      (record_merged (handle_fs_event ex_cfg State.init ex_h ex_create) ex_h_later ex_key
          (ex_inode 4294967396 33188 1 0) ex_modify_wide).ino = r.ino ∧
      (record_merged (handle_fs_event ex_cfg State.init ex_h ex_create) ex_h_later ex_key
          (ex_inode 4294967396 33188 1 0) ex_modify_wide).isize_first = r.isize_first) :=
  ⟨⟨by decide, by decide, by decide, by decide⟩, by decide, by decide, by decide,
    (ino_narrowed_to_32_bits ex_cfg (handle_fs_event ex_cfg State.init ex_h ex_create) ex_h
      ex_h_later ex_create ex_modify_wide ex_key ex_key (ex_inode 100 33188 1 0)
      (ex_inode 4294967396 33188 1 0) (by decide) (by decide) (by decide) (by decide)).2.1⟩

/-! ## The cap on the events of an aggregate -/

theorem record_merged_events_cap (cfg : Config) (st : State) (h : Helpers) (key : Nat)
    (ino : inode) (ev : FS_EVENT_INFO) (hpos : 0 < cfg.agg_events_max)
    (hc : cfg.agg_events_max < 2 ^ 32)
    (hst : ∀ k r, st.hash_records k = some r → 1 ≤ r.events ∧ r.events < cfg.agg_events_max) :
    1 ≤ (record_merged st h key ino ev).events ∧
      (record_merged st h key ino ev).events ≤ cfg.agg_events_max ∧
      (agg_end cfg ev.index ino.i_mode (record_merged st h key ino ev) = false →
        (record_merged st h key ino ev).events < cfg.agg_events_max) := by
  have hfor : (record_for st h key ino ev).events < cfg.agg_events_max := by
    cases hk : st.hash_records key with
    | none =>
      rw [record_for_new st h key ino ev hk]
      exact hpos
    | some r =>
      rw [record_for_found st h key ino ev r hk, (record_found_events r h.ktime_get_ns ev).1]
      exact (hst key r hk).2
  have hm : (record_merged st h key ino ev).events =
      ((record_for st h key ino ev).events + 1) % 2 ^ 32 := rfl
  have hlt : (record_for st h key ino ev).events + 1 < 2 ^ 32 := by omega
  rw [hm, Nat.mod_eq_of_lt hlt]
  refine ⟨by omega, by omega, ?_⟩
  intro hagg
  have hn : ¬ agg_end cfg ev.index ino.i_mode (record_merged st h key ino ev) = true := by
    rw [hagg]; simp
  rw [agg_end_iff] at hn
  have h3 : ¬ (cfg.agg_events_max ≠ 0 ∧
      (record_merged st h key ino ev).events ≥ cfg.agg_events_max) :=
    fun hx => hn (Or.inr (Or.inr hx))
  rw [hm, Nat.mod_eq_of_lt hlt] at h3
  by_contra hge
  exact h3 ⟨by omega, by omega⟩

theorem events_cap_step (cfg : Config) (st : State) (h : Helpers) (ev : FS_EVENT_INFO)
    (hpos : 0 < cfg.agg_events_max) (hc : cfg.agg_events_max < 2 ^ 32)
    (hu : h.map_update_fails = false)
    (hst : ∀ k r, st.hash_records k = some r → 1 ≤ r.events ∧ r.events < cfg.agg_events_max)
    (hrb : ∀ r ∈ st.ringbuf_records, 1 ≤ r.events ∧ r.events ≤ cfg.agg_events_max) :
    (∀ k r, (handle_fs_event cfg st h ev).hash_records k = some r →
      1 ≤ r.events ∧ r.events < cfg.agg_events_max) ∧
    (∀ r ∈ (handle_fs_event cfg st h ev).ringbuf_records,
      1 ≤ r.events ∧ r.events ≤ cfg.agg_events_max) := by
  constructor
  · intro k r hr
    cases ht : fs_event_target cfg h ev with
    | none => rw [handle_fs_event_rejected cfg st h ev ht] at hr; exact hst k r hr
    | some t =>
      obtain ⟨key, ino⟩ := t
      cases hp : is_path_allowed cfg.allowed_prefixes (record_for st h key ino ev).filepath with
      | false =>
        rw [hash_records_filtered cfg st h ev key ino ht hp] at hr
        dsimp only at hr
        split_ifs at hr with hk
        · cases hfound : st.hash_records key with
          | none => rw [hfound] at hk; simp at hk
          | some r0 =>
            rw [record_for_found st h key ino ev r0 hfound] at hr
            cases hr
            rw [(record_found_events r0 h.ktime_get_ns ev).1]
            exact hst key r0 hfound
        · exact hst k r hr
      | true =>
        rw [hash_records_accepted cfg st h ev key ino ht hp hu] at hr
        dsimp only at hr
        have hm := record_merged_events_cap cfg st h key ino ev hpos hc hst
        split_ifs at hr with hk hagg hev
        · cases hr
          exact ⟨hm.1, hm.2.2 (by simpa using hagg)⟩
        · exact hst k r hr
  · intro r hr
    rcases ringbuf_records_origin cfg st h ev r hr with hold | ⟨key, ino, _, _, hnew⟩
    · exact hrb r hold
    · have hm := record_merged_events_cap cfg st h key ino ev hpos hc hst
      rw [hnew]
      exact ⟨hm.1, hm.2.1⟩

/-- C25 (counterexample): with the cap `2`, a modification of `/data/x.txt`
starts an aggregate; when the update of the store fails on the next
modification, the aggregate held in the store has `events = 2`, the cap; the
modification after that submits a record with `events = 3`. -/
theorem failed_update_leaves_events_at_cap :
    ex_cfg_two.agg_events_max = 2 ∧
    ((run ex_cfg_two State.init
        [(ex_h, ex_modify), (ex_h_update_fails, ex_modify)]).hash_records ex_key).map
      (fun r => r.events) = some 2 ∧
    (run ex_cfg_two State.init
        [(ex_h, ex_modify), (ex_h_update_fails, ex_modify), (ex_h_later, ex_modify)]
      ).ringbuf_records.map (fun r => r.events) = [3] := by
  decide

/-- C25 (amended): with a cap `0 < c < 2 ^ 32`, from the empty store, when no
update of the store fails, after every invocation each aggregate held in the
store has `1 ≤ events < c` and each submitted record has `1 ≤ events ≤ c`; for
`c = 1` the store is empty after every invocation (also when updates fail). -/
theorem events_within_cap (cfg : Config) (evs : List (Helpers × FS_EVENT_INFO))
    (hpos : 0 < cfg.agg_events_max) (hc : cfg.agg_events_max < 2 ^ 32)
    (hu : ∀ e ∈ evs, e.1.map_update_fails = false) :
    (∀ k r, (run cfg State.init evs).hash_records k = some r →
      1 ≤ r.events ∧ r.events < cfg.agg_events_max) ∧
    (∀ r ∈ (run cfg State.init evs).ringbuf_records,
      1 ≤ r.events ∧ r.events ≤ cfg.agg_events_max) ∧
    (cfg.agg_events_max = 1 → ∀ (l : List (Helpers × FS_EVENT_INFO)) (k : Nat),
      (run cfg State.init l).hash_records k = none) := by
  have key : (∀ k r, (run cfg State.init evs).hash_records k = some r →
      1 ≤ r.events ∧ r.events < cfg.agg_events_max) ∧
    (∀ r ∈ (run cfg State.init evs).ringbuf_records,
      1 ≤ r.events ∧ r.events ≤ cfg.agg_events_max) := by
    induction evs using List.reverseRecOn with
    | nil =>
      constructor
      · intro k r hr; cases hr
      · intro r hr; cases hr
    | append_singleton l e ih =>
      rw [run_concat]
      have ih2 := ih (fun x hx => hu x (List.mem_append_left _ hx))
      exact events_cap_step cfg (run cfg State.init l) e.1 e.2 hpos hc
        (hu e (List.mem_append_right _ (List.mem_singleton_self e))) ih2.1 ih2.2
  exact ⟨key.1, key.2, fun h1 l => store_empty_run_cap_one cfg h1 l⟩

theorem events_within_cap_witness :
    (0 < ex_cfg_two.agg_events_max ∧ ex_cfg_two.agg_events_max < 2 ^ 32 ∧
      (∀ e ∈ [(ex_h, ex_modify), (ex_h_later, ex_modify), (ex_h_later, ex_modify_y)],
        e.1.map_update_fails = false)) ∧
    ((run ex_cfg_two State.init
        [(ex_h, ex_modify), (ex_h_later, ex_modify), (ex_h_later, ex_modify_y)]
      ).ringbuf_records.map (fun r => r.events) = [2]) ∧
    (∀ r ∈ (run ex_cfg_two State.init
        [(ex_h, ex_modify), (ex_h_later, ex_modify), (ex_h_later, ex_modify_y)]).ringbuf_records,
      1 ≤ r.events ∧ r.events ≤ ex_cfg_two.agg_events_max) :=
  ⟨⟨by decide, by decide, by decide⟩, by decide,
    (events_within_cap ex_cfg_two
      [(ex_h, ex_modify), (ex_h_later, ex_modify), (ex_h_later, ex_modify_y)]
      (by decide) (by decide) (by decide)).2.1⟩

/-! ## The scratch slot does not reach the submitted records -/

theorem retyped_of_untyped_eq (r1 r2 : RECORD_FS) (h : untyped r1 = untyped r2) :
    r2 = retyped r1 r2.rc.type := by
  obtain ⟨⟨t1, ts1⟩, a1, b1, c1, d1, e1, f1, g1, h1, i1, j1, k1, l1⟩ := r1
  obtain ⟨⟨t2, ts2⟩, a2, b2, c2, d2, e2, f2, g2, h2, i2, j2, k2, l2⟩ := r2
  simp only [untyped, retyped, RECORD_FS.mk.injEq, RECORD.mk.injEq, true_and] at h
  obtain ⟨h0, h1, h2, h3, h4, h5, h6, h7, h8, h9, h10, h11, h12⟩ := h
  subst h0 h1 h2 h3 h4 h5 h6 h7 h8 h9 h10 h11 h12
  rfl

theorem record_found_retyped (r : RECORD_FS) (t ts : Nat) (ev : FS_EVENT_INFO) :
    record_found (retyped r t) ts ev = retyped (record_found r ts ev) t := by
  unfold record_found
  split_ifs <;> rfl

theorem record_merged_new_untyped (s1 s2 : RECORD_FS) (ts : Nat) (ino : inode)
    (ev : FS_EVENT_INFO) :
    untyped (record_update (record_new s1 ts ino ev) ino ev) =
      untyped (record_update (record_new s2 ts ino ev) ino ev) := rfl

/-- What the relation of the two runs gives for one event: the filter sees the
same path, the merged aggregates agree up to `rc.type`, they close alike, and
the aggregates touched in the store agree up to `rc.type`. -/
theorem record_for_untyped (st1 st2 : State) (h : Helpers) (key : Nat) (ino : inode)
    (ev : FS_EVENT_INFO)
    (hst : ∀ k, (st1.hash_records k).map untyped = (st2.hash_records k).map untyped) :
    (st1.hash_records key).isSome = (st2.hash_records key).isSome ∧
    (record_for st1 h key ino ev).filepath = (record_for st2 h key ino ev).filepath ∧
    untyped (record_merged st1 h key ino ev) = untyped (record_merged st2 h key ino ev) ∧
    record_closed (record_merged st1 h key ino ev) =
      record_closed (record_merged st2 h key ino ev) ∧
    (∀ cfg : Config, agg_end cfg ev.index ino.i_mode (record_merged st1 h key ino ev) =
      agg_end cfg ev.index ino.i_mode (record_merged st2 h key ino ev)) ∧
    ((st1.hash_records key).isSome = true →
      untyped (record_for st1 h key ino ev) = untyped (record_for st2 h key ino ev)) := by
  have hk := hst key
  cases h1 : st1.hash_records key with
  | none =>
    cases h2 : st2.hash_records key with
    | some r2 => rw [h1, h2] at hk; cases hk
    | none =>
      unfold record_merged
      rw [record_for_new st1 h key ino ev h1, record_for_new st2 h key ino ev h2]
      refine ⟨rfl, rfl, rfl, rfl, fun _ => rfl, fun hx => by cases hx⟩
  | some r1 =>
    cases h2 : st2.hash_records key with
    | none => rw [h1, h2] at hk; cases hk
    | some r2 =>
      rw [h1, h2] at hk
      simp only [Option.map_some', Option.some.injEq] at hk
      have hr := retyped_of_untyped_eq r1 r2 hk
      unfold record_merged
      rw [record_for_found st1 h key ino ev r1 h1, record_for_found st2 h key ino ev r2 h2, hr,
        record_found_retyped]
      refine ⟨rfl, rfl, rfl, rfl, fun _ => rfl, fun _ => rfl⟩

theorem scratch_step (cfg : Config) (st1 st2 : State) (h : Helpers) (ev : FS_EVENT_INFO)
    (hst : ∀ k, (st1.hash_records k).map untyped = (st2.hash_records k).map untyped)
    (hrb : st1.ringbuf_records = st2.ringbuf_records) :
    (∀ k, ((handle_fs_event cfg st1 h ev).hash_records k).map untyped =
      ((handle_fs_event cfg st2 h ev).hash_records k).map untyped) ∧
    (handle_fs_event cfg st1 h ev).ringbuf_records =
      (handle_fs_event cfg st2 h ev).ringbuf_records := by
  cases ht : fs_event_target cfg h ev with
  | none =>
    rw [handle_fs_event_rejected cfg st1 h ev ht, handle_fs_event_rejected cfg st2 h ev ht]
    exact ⟨hst, hrb⟩
  | some t =>
    obtain ⟨key, ino⟩ := t
    obtain ⟨hsome, hpath, hmerged, hclosed, hagg, hfor⟩ := record_for_untyped st1 st2 h key ino ev hst
    cases hp : is_path_allowed cfg.allowed_prefixes (record_for st1 h key ino ev).filepath with
    | false =>
      have hp2 := hp
      rw [hpath] at hp2
      rw [hash_records_filtered cfg st1 h ev key ino ht hp,
        hash_records_filtered cfg st2 h ev key ino ht hp2,
        ringbuf_records_filtered cfg st1 h ev key ino ht hp,
        ringbuf_records_filtered cfg st2 h ev key ino ht hp2]
      refine ⟨fun k => ?_, hrb⟩
      dsimp only
      rw [← hsome]
      split_ifs with hk
      · simp only [Option.map_some', Option.some.injEq]
        exact hfor hk.2
      · exact hst k
    | true =>
      have hp2 := hp
      rw [hpath] at hp2
      cases hu : h.map_update_fails with
      | true =>
        rw [hash_records_update_failed cfg st1 h ev key ino ht hp hu,
          hash_records_update_failed cfg st2 h ev key ino ht hp2 hu,
          ringbuf_records_update_failed cfg st1 h ev key ino ht hp hu,
          ringbuf_records_update_failed cfg st2 h ev key ino ht hp2 hu]
        refine ⟨fun k => ?_, hrb⟩
        dsimp only
        rw [← hsome]
        split_ifs with hk
        · simp only [Option.map_some', Option.some.injEq]
          exact hmerged
        · exact hst k
      | false =>
        rw [hash_records_accepted cfg st1 h ev key ino ht hp hu,
          hash_records_accepted cfg st2 h ev key ino ht hp2 hu,
          ringbuf_records_accepted cfg st1 h ev key ino ht hp hu,
          ringbuf_records_accepted cfg st2 h ev key ino ht hp2 hu, ← hagg cfg, ← hclosed, ← hrb]
        refine ⟨fun k => ?_, rfl⟩
        dsimp only
        split_ifs with hk hc he
        · rfl
        · simp only [Option.map_some', Option.some.injEq]
          exact hmerged
        · rfl
        · exact hst k

/-- C28: two runs of the handler that differ only in what the scratch slot
`heap_record_fs` held at the start submit the same records to the ring buffer,
equal in every field; the aggregates they hold in the store agree in every
field but `rc.type`, which is written only when a record is submitted; and
the record built for an event on any key, in the store or not, once its type
is set for submission, is the same whatever the scratch slot held. -/
theorem submitted_records_independent_of_scratch (cfg : Config) (st : State)
    (scratch1 scratch2 : RECORD_FS) (evs : List (Helpers × FS_EVENT_INFO)) :
    (run cfg { st with heap_record_fs := scratch1 } evs).ringbuf_records =
      (run cfg { st with heap_record_fs := scratch2 } evs).ringbuf_records ∧
    (∀ k, ((run cfg { st with heap_record_fs := scratch1 } evs).hash_records k).map untyped =
      ((run cfg { st with heap_record_fs := scratch2 } evs).hash_records k).map untyped) ∧
    (∀ (h : Helpers) (key : Nat) (ino : inode) (ev : FS_EVENT_INFO),
      record_closed (record_merged { st with heap_record_fs := scratch1 } h key ino ev) =
        record_closed (record_merged { st with heap_record_fs := scratch2 } h key ino ev)) := by
  have key : (∀ k, ((run cfg { st with heap_record_fs := scratch1 } evs).hash_records k).map
        untyped =
      ((run cfg { st with heap_record_fs := scratch2 } evs).hash_records k).map untyped) ∧
      (run cfg { st with heap_record_fs := scratch1 } evs).ringbuf_records =
      (run cfg { st with heap_record_fs := scratch2 } evs).ringbuf_records := by
    induction evs using List.reverseRecOn with
    | nil => exact ⟨fun _ => rfl, rfl⟩
    | append_singleton l e ih =>
      rw [run_concat, run_concat]
      exact scratch_step cfg _ _ e.1 e.2 ih.1 ih.2
  refine ⟨key.2, key.1, ?_⟩
  intro h k ino ev
  exact (record_for_untyped { st with heap_record_fs := scratch1 }
    { st with heap_record_fs := scratch2 } h k ino ev (fun _ => rfl)).2.2.2.1

/-! ## The rendered file name -/

theorem takeWhile_ne_append (c : Nat) (l rest : List Nat) (hl : c ∉ l) :
    (l ++ c :: rest).takeWhile (fun x => x != c) = l := by
  induction l with
  | nil => simp
  | cons a l ih =>
    have ha : a ≠ c := fun h => hl (h ▸ List.mem_cons_self _ _)
    have hl2 : c ∉ l := fun h => hl (List.mem_cons_of_mem _ h)
    simp [ha, ih hl2]

theorem takeWhile_ne_self (c : Nat) (l : List Nat) (hl : c ∉ l) :
    l.takeWhile (fun x => x != c) = l := by
  induction l with
  | nil => simp
  | cons a l ih =>
    have ha : a ≠ c := fun h => hl (h ▸ List.mem_cons_self _ _)
    have hl2 : c ∉ l := fun h => hl (List.mem_cons_of_mem _ h)
    simp [ha, ih hl2]

theorem cstr_of_no_zero (l : List Nat) (hl : 0 ∉ l) : cstr l = l :=
  takeWhile_ne_self 0 l hl

theorem fgets_line (l rest : List Nat) (hl : line_ok l) :
    fgets FILEPATH_LEN_MAX (l ++ 10 :: rest) = some (l ++ [10], rest) := by
  obtain ⟨_, h10, hlen⟩ := hl
  have hne : l ++ 10 :: rest ≠ [] := by simp
  unfold fgets
  cases hfp : l ++ 10 :: rest with
  | nil => exact absurd hfp hne
  | cons a fp =>
    rw [← hfp]
    simp only [takeWhile_ne_append 10 l rest h10, List.length_append, List.length_cons]
    have h1 : l.length < l.length + (rest.length + 1) := by omega
    rw [if_pos h1]
    have h2 : min (l.length + 1) (FILEPATH_LEN_MAX - 1) = l.length + 1 := by omega
    rw [h2]
    have h3 : l ++ 10 :: rest = (l ++ [10]) ++ rest := by simp
    rw [h3, List.take_left' (by simp), List.drop_left' (by simp), ← h3, hfp]

theorem fgets_last (l : List Nat) (hl : line_ok l) (hne : l ≠ []) :
    fgets FILEPATH_LEN_MAX l = some (l, []) := by
  obtain ⟨_, h10, hlen⟩ := hl
  unfold fgets
  cases hfp : l with
  | nil => exact absurd hfp hne
  | cons a fp =>
    rw [← hfp]
    simp only [takeWhile_ne_self 10 l h10, lt_irrefl, if_false]
    have h2 : min l.length (FILEPATH_LEN_MAX - 1) = l.length := by omega
    rw [h2, List.take_length, List.drop_length]
    rw [hfp]

theorem line_of_chunk (l : List Nat) (hl : line_ok l) :
    (cstr (l ++ [10])).takeWhile (fun c => c != 10) = l := by
  obtain ⟨h0, h10, _⟩ := hl
  have : cstr (l ++ [10]) = l ++ [10] := by
    apply cstr_of_no_zero
    simp [h0]
  rw [this]
  exact takeWhile_ne_append 10 l [] h10

theorem line_of_last (l : List Nat) (hl : line_ok l) :
    (cstr l).takeWhile (fun c => c != 10) = l := by
  obtain ⟨h0, h10, _⟩ := hl
  rw [cstr_of_no_zero l h0]
  exact takeWhile_ne_self 10 l h10

theorem load_allowed_paths_loop_turn (fuel : Nat) (fp chunk rest line : List Nat)
    (table : List allowed_prefix) (key : Nat)
    (hg : fgets FILEPATH_LEN_MAX fp = some (chunk, rest))
    (hline : (cstr chunk).takeWhile (fun c => c != 10) = line)
    (ht : table.length = PREFIXES_MAX) (hk : key ≤ PREFIXES_MAX) :
    load_allowed_paths_loop (fuel + 1) fp table key key =
      if line.length = 0 ∨ line.getD 0 0 = 35 then load_allowed_paths_loop fuel rest table key key
      else if key < PREFIXES_MAX then
        load_allowed_paths_loop fuel rest (table.set key (allowed_path_of line)) (key + 1) (key + 1)
      else (-1, table) := by
  have hc : key < MAP_ALLOWED_PATHS_MAX := by
    simp only [PREFIXES_MAX, MAP_ALLOWED_PATHS_MAX] at hk ⊢
    omega
  have hm : (key + 1) % 2 ^ 32 = key + 1 := by
    simp only [PREFIXES_MAX] at hk
    omega
  rw [load_allowed_paths_loop, hg]
  simp only [hc, not_true_eq_false, if_false, hline, update_allowed_prefixes, ht, hm]
  split_ifs <;> rfl

theorem kept_lines_cons (l : List Nat) (ls : List (List Nat)) :
    kept_lines (l :: ls) =
      if l.length = 0 ∨ l.getD 0 0 = 35 then kept_lines ls else l :: kept_lines ls := by
  by_cases h : l.length = 0 ∨ l.getD 0 0 = 35
  · rw [if_pos h]; unfold kept_lines; rw [List.filter_cons]; simp only [h, decide_True, Bool.not_true, Bool.false_eq_true, if_false]
  · rw [if_neg h]; unfold kept_lines; rw [List.filter_cons]; simp only [h, decide_False, Bool.not_false, if_true]

theorem load_allowed_paths_loop_lines (lines : List (List Nat)) (last : List Nat)
    (hlast : line_ok last) :
    ∀ (fuel : Nat) (table : List allowed_prefix) (key : Nat), (∀ l ∈ lines, line_ok l) →
      (file_of_lines lines ++ last).length < fuel → table.length = PREFIXES_MAX →
      key ≤ PREFIXES_MAX →
      load_allowed_paths_loop fuel (file_of_lines lines ++ last) table key key =
        (if key + (kept_lines (lines ++ [last])).length ≤ PREFIXES_MAX then 0 else -1,
          table_with table key ((kept_lines (lines ++ [last])).take (PREFIXES_MAX - key))) := by
  induction lines with
  | nil =>
    intro fuel table key _ hf ht hk
    simp only [file_of_lines, List.map_nil, List.flatten_nil, List.nil_append] at hf ⊢
    cases fuel with
    | zero => omega
    | succ fuel =>
      by_cases hne : last = []
      · subst hne
        rw [load_allowed_paths_loop]
        simp [fgets, kept_lines, table_with, hk]
      · have hl : 0 < last.length := List.length_pos.mpr hne
        rw [load_allowed_paths_loop_turn fuel last last [] last table key
          (fgets_last last hlast hne) (line_of_last last hlast) ht hk]
        have hkc := kept_lines_cons last []
        simp only [hkc]
        have hend : ∀ (t : List allowed_prefix) (k c : Nat),
            load_allowed_paths_loop fuel [] t k c = (0, t) := by
          intro t k c
          cases fuel with
          | zero => omega
          | succ f => rw [load_allowed_paths_loop]; simp [fgets]
        rw [hend, hend]
        have hnil : kept_lines [] = [] := rfl
        by_cases hskip : last.length = 0 ∨ last.getD 0 0 = 35
        · simp only [hkc, hskip, if_true, hnil, List.length_nil, List.take_nil, table_with,
            Nat.add_zero, hk]
        · simp only [hkc, hskip, if_false, hnil, List.length_singleton]
          by_cases hk8 : key < PREFIXES_MAX
          · have h1 : PREFIXES_MAX - key = (PREFIXES_MAX - key - 1) + 1 := by omega
            have h2 : key + 1 ≤ PREFIXES_MAX := hk8
            rw [if_pos hk8, if_pos h2, h1, List.take_succ_cons, List.take_nil, table_with,
              table_with]
          · have h1 : PREFIXES_MAX - key = 0 := by omega
            have h2 : ¬ key + 1 ≤ PREFIXES_MAX := hk8
            rw [if_neg hk8, if_neg h2, h1, List.take_zero, table_with]
  | cons l ls ih =>
    intro fuel table key hok hf ht hk
    have hl : line_ok l := hok l (List.mem_cons_self _ _)
    have hls : ∀ x ∈ ls, line_ok x := fun x hx => hok x (List.mem_cons_of_mem _ hx)
    have hfile : file_of_lines (l :: ls) ++ last = l ++ 10 :: (file_of_lines ls ++ last) := by
      simp [file_of_lines]
    rw [hfile] at hf ⊢
    cases fuel with
    | zero => omega
    | succ fuel =>
      have hf2 : (file_of_lines ls ++ last).length < fuel := by
        simp only [List.length_append, List.length_cons] at hf ⊢
        omega
      rw [load_allowed_paths_loop_turn fuel _ (l ++ [10]) _ l table key
        (fgets_line l _ hl) (line_of_chunk l hl) ht hk, List.cons_append, kept_lines_cons]
      by_cases hskip : l.length = 0 ∨ l.getD 0 0 = 35
      · rw [if_pos hskip, if_pos hskip]
        exact ih fuel table key hls hf2 ht hk
      · rw [if_neg hskip, if_neg hskip]
        by_cases hk8 : key < PREFIXES_MAX
        · have h1 : PREFIXES_MAX - key = (PREFIXES_MAX - (key + 1)) + 1 := by omega
          rw [if_pos hk8, ih fuel _ (key + 1) hls hf2 (by rw [List.length_set]; exact ht) hk8, h1,
            List.take_succ_cons, table_with, List.length_cons]
          have h2 : key + 1 + (kept_lines (ls ++ [last])).length =
              key + ((kept_lines (ls ++ [last])).length + 1) := by omega
          rw [h2]
        · have h1 : PREFIXES_MAX - key = 0 := by omega
          rw [if_neg hk8, h1, List.take_zero, table_with, List.length_cons, if_neg (by omega)]

theorem allowed_path_of_eq (l : List Nat) (h0 : 0 ∉ l) : allowed_path_of l = entry_of l := by
  have hn : (l.take (PREFIX_MAX_LEN - 1)).length ≤ PREFIX_MAX_LEN - 1 := by
    rw [List.length_take]; exact Nat.min_le_left _ _
  have hs : strncpy l (PREFIX_MAX_LEN - 1) = l.take (PREFIX_MAX_LEN - 1) ++
      List.replicate (PREFIX_MAX_LEN - 1 - (l.take (PREFIX_MAX_LEN - 1)).length) 0 := by
    unfold strncpy
    rw [cstr_of_no_zero l h0]
  have hsl : (strncpy l (PREFIX_MAX_LEN - 1)).length = PREFIX_MAX_LEN - 1 := by
    rw [hs, List.length_append, List.length_replicate]
    omega
  have hw : mem_write (List.replicate PREFIX_MAX_LEN 0) 0 (strncpy l (PREFIX_MAX_LEN - 1)) =
      strncpy l (PREFIX_MAX_LEN - 1) ++ [0] := by
    unfold mem_write
    rw [hsl]
    simp [PREFIX_MAX_LEN]
  have hsetX : ∀ X : List Nat, X.length = PREFIX_MAX_LEN - 1 →
      (X ++ [0]).set (PREFIX_MAX_LEN - 1) 0 = X ++ [0] := by
    intro X hX
    rw [← hX, List.set_append_right _ _ (le_refl _)]
    simp
  have hset := hsetX _ hsl
  unfold allowed_path_of entry_of
  simp only [hw, hset]
  rw [hs, List.append_assoc]
  congr 2
  have hr : [(0 : Nat)] = List.replicate 1 0 := rfl
  rw [hr, ← List.replicate_add]
  congr 1
  simp only [PREFIX_MAX_LEN] at hn ⊢
  omega

theorem table_with_replicate (z : allowed_prefix) (ks : List (List Nat)) :
    ∀ (done : List allowed_prefix) (m : Nat), ks.length ≤ m →
      table_with (done ++ List.replicate m z) done.length ks =
        done ++ ks.map allowed_path_of ++ List.replicate (m - ks.length) z := by
  induction ks with
  | nil => intro done m _; simp [table_with]
  | cons k ks ih =>
    intro done m hm
    cases m with
    | zero => simp at hm
    | succ m =>
      have hset : (done ++ List.replicate (m + 1) z).set done.length (allowed_path_of k) =
          (done ++ [allowed_path_of k]) ++ List.replicate m z := by
        rw [List.set_append_right _ _ (le_refl _), List.replicate_succ]
        simp
      have hlen : done.length + 1 = (done ++ [allowed_path_of k]).length := by simp
      rw [table_with, hset, hlen, ih _ m (by simpa using hm)]
      simp

theorem load_allowed_paths_lines (lines : List (List Nat)) (last : List Nat)
    (hok : ∀ l ∈ lines, line_ok l) (hlast : line_ok last) :
    load_allowed_paths allowed_prefixes_init (some (file_of_lines lines ++ last)) =
      (if (kept_lines (lines ++ [last])).length ≤ PREFIXES_MAX then 0 else -1,
        ((kept_lines (lines ++ [last])).take PREFIXES_MAX).map allowed_path_of ++
          List.replicate (PREFIXES_MAX - ((kept_lines (lines ++ [last])).take PREFIXES_MAX).length)
            ⟨List.replicate PREFIX_MAX_LEN 0, false⟩) := by
  unfold load_allowed_paths
  dsimp only
  rw [load_allowed_paths_loop_lines lines last hlast _ allowed_prefixes_init 0 hok
    (Nat.lt_succ_self _) (by simp [allowed_prefixes_init]) (Nat.zero_le _)]
  have ht := table_with_replicate ⟨List.replicate PREFIX_MAX_LEN 0, false⟩
    ((kept_lines (lines ++ [last])).take PREFIXES_MAX) [] PREFIXES_MAX
    (by rw [List.length_take]; exact Nat.min_le_left _ _)
  simp only [List.nil_append, List.length_nil] at ht
  rw [Nat.zero_add, Nat.sub_zero]
  unfold allowed_prefixes_init
  rw [ht]

theorem kept_lines_no_zero (lines : List (List Nat)) (last : List Nat)
    (hok : ∀ l ∈ lines, line_ok l) (hlast : line_ok last) :
    ∀ l ∈ kept_lines (lines ++ [last]), 0 ∉ l := by
  intro l hl
  have hm : l ∈ lines ++ [last] := List.mem_of_mem_filter hl
  rcases List.mem_append.mp hm with h1 | h1
  · exact (hok l h1).1
  · rw [List.mem_singleton.mp h1]; exact hlast.1

/-- C22: for a file whose lines are `lines`, each ended by a newline, followed
by the unterminated line `last` (empty when the file ends with a newline),
with no NUL in it and at most `PREFIXES_MAX` lines that are neither empty nor
start with `#`, each of these shorter than `PREFIX_MAX_LEN`:
`load_allowed_paths` returns 0 and the table holds, at the keys 0, 1, ..., the
enabled entries whose prefixes are these lines in their order, every other
entry being the zeroed, disabled one. -/
theorem load_allowed_paths_installs_lines (lines : List (List Nat)) (last : List Nat)
    (hok : ∀ l ∈ lines, line_ok l) (hlast : line_ok last)
    (hcount : (kept_lines (lines ++ [last])).length ≤ PREFIXES_MAX)
    (hlen : ∀ l ∈ kept_lines (lines ++ [last]), l.length < PREFIX_MAX_LEN) :
    load_allowed_paths allowed_prefixes_init (some (file_of_lines lines ++ last)) =
      (0, (kept_lines (lines ++ [last])).map entry_whole ++
        List.replicate (PREFIXES_MAX - (kept_lines (lines ++ [last])).length)
          ⟨List.replicate PREFIX_MAX_LEN 0, false⟩) ∧
    ∀ l ∈ kept_lines (lines ++ [last]),
      cstr (entry_whole l).prefix_ = l ∧ (entry_whole l).enabled = true := by
  have h0 := kept_lines_no_zero lines last hok hlast
  constructor
  · rw [load_allowed_paths_lines lines last hok hlast, if_pos hcount,
      List.take_of_length_le hcount]
    congr 2
    apply List.map_congr_left
    intro l hl
    rw [allowed_path_of_eq l (h0 l hl)]
    have h15 : l.length ≤ PREFIX_MAX_LEN - 1 := Nat.le_pred_of_lt (hlen l hl)
    unfold entry_of entry_whole
    rw [List.take_of_length_le h15]
  · intro l hl
    refine ⟨?_, rfl⟩
    have hpos : 0 < PREFIX_MAX_LEN - l.length := Nat.sub_pos_of_lt (hlen l hl)
    obtain ⟨n, hn⟩ := Nat.exists_eq_succ_of_ne_zero (Nat.pos_iff_ne_zero.mp hpos)
    show cstr (l ++ List.replicate (PREFIX_MAX_LEN - l.length) 0) = l
    rw [hn, List.replicate_succ]
    exact cstr_append_zero l _ (fun c hc hc0 => h0 l hl (hc0 ▸ hc))

theorem load_allowed_paths_installs_lines_witness :
    ((∀ l ∈ ex_lines, line_ok l) ∧ line_ok ex_last ∧
      (kept_lines (ex_lines ++ [ex_last])).length ≤ PREFIXES_MAX ∧
      ∀ l ∈ kept_lines (ex_lines ++ [ex_last]), l.length < PREFIX_MAX_LEN) ∧
    kept_lines (ex_lines ++ [ex_last]) =
      [[47, 100, 97, 116, 97], [47, 104, 111, 109, 101, 47, 117], [47, 118, 97, 114]] ∧
    load_allowed_paths allowed_prefixes_init (some (file_of_lines ex_lines ++ ex_last)) =
      (0, (kept_lines (ex_lines ++ [ex_last])).map entry_whole ++
        List.replicate (PREFIXES_MAX - (kept_lines (ex_lines ++ [ex_last])).length)
          ⟨List.replicate PREFIX_MAX_LEN 0, false⟩) :=
  ⟨⟨by decide, by decide, by decide, by decide⟩, by decide,
    (load_allowed_paths_installs_lines ex_lines ex_last (by decide) (by decide) (by decide)
      (by decide)).1⟩

/-- C23 (counterexample): the file whose only line is the twenty bytes
`/aaaaaaaaaaaaaaaaaaa` is loaded without an error: `load_allowed_paths`
returns 0 and installs at key 0 the enabled entry that holds the leading
fifteen bytes of the line. -/
theorem long_line_is_installed_truncated :
    (ex_lines_long.map List.length = [20]) ∧
    load_allowed_paths allowed_prefixes_init (some (file_of_lines ex_lines_long)) =
      (0, [⟨47 :: List.replicate 14 97 ++ [0], true⟩] ++
        List.replicate 7 ⟨List.replicate 16 0, false⟩) := by
  decide

/-- C23 (amended): `load_allowed_paths` does not check the length of a line.
For a file without NUL whose lines have at most 94 bytes it returns 0 when at
most `PREFIXES_MAX` lines are neither empty nor start with `#`, and -1
otherwise; in both cases the first `PREFIXES_MAX` of these lines are
installed, each as the enabled entry that holds the leading
`PREFIX_MAX_LEN - 1` bytes of the line.  A file that cannot be opened gives -1
and leaves the table as it is. -/
theorem load_allowed_paths_truncates (lines : List (List Nat)) (last : List Nat)
    (hok : ∀ l ∈ lines, line_ok l) (hlast : line_ok last) :
    load_allowed_paths allowed_prefixes_init (some (file_of_lines lines ++ last)) =
      (if (kept_lines (lines ++ [last])).length ≤ PREFIXES_MAX then 0 else -1,
        ((kept_lines (lines ++ [last])).take PREFIXES_MAX).map entry_of ++
          List.replicate (PREFIXES_MAX - ((kept_lines (lines ++ [last])).take PREFIXES_MAX).length)
            ⟨List.replicate PREFIX_MAX_LEN 0, false⟩) ∧
    (∀ l ∈ kept_lines (lines ++ [last]),
      cstr (entry_of l).prefix_ = l.take (PREFIX_MAX_LEN - 1) ∧ (entry_of l).enabled = true) ∧
    ∀ table, load_allowed_paths table none = (-1, table) := by
  have h0 := kept_lines_no_zero lines last hok hlast
  refine ⟨?_, ?_, fun _ => rfl⟩
  · rw [load_allowed_paths_lines lines last hok hlast]
    congr 2
    apply List.map_congr_left
    intro l hl
    exact allowed_path_of_eq l (h0 l (List.mem_of_mem_take hl))
  · intro l hl
    refine ⟨?_, rfl⟩
    have hle : (l.take (PREFIX_MAX_LEN - 1)).length ≤ PREFIX_MAX_LEN - 1 := by
      rw [List.length_take]; exact Nat.min_le_left _ _
    have hpos : PREFIX_MAX_LEN - (l.take (PREFIX_MAX_LEN - 1)).length ≠ 0 := by
      simp only [PREFIX_MAX_LEN] at hle ⊢
      omega
    obtain ⟨n, hn⟩ := Nat.exists_eq_succ_of_ne_zero hpos
    show cstr (l.take (PREFIX_MAX_LEN - 1) ++
      List.replicate (PREFIX_MAX_LEN - (l.take (PREFIX_MAX_LEN - 1)).length) 0) = _
    rw [hn, List.replicate_succ]
    exact cstr_append_zero _ _ (fun c hc hc0 => h0 l hl (hc0 ▸ List.mem_of_mem_take hc))

theorem load_allowed_paths_truncates_witness :
    ((∀ l ∈ ex_lines_long, line_ok l) ∧ line_ok []) ∧
    load_allowed_paths allowed_prefixes_init (some (file_of_lines ex_lines_long ++ [])) =
      (if (kept_lines (ex_lines_long ++ [[]])).length ≤ PREFIXES_MAX then 0 else -1,
        ((kept_lines (ex_lines_long ++ [[]])).take PREFIXES_MAX).map entry_of ++
          List.replicate
            (PREFIXES_MAX - ((kept_lines (ex_lines_long ++ [[]])).take PREFIXES_MAX).length)
            ⟨List.replicate PREFIX_MAX_LEN 0, false⟩) :=
  ⟨⟨by decide, by decide⟩,
    (load_allowed_paths_truncates ex_lines_long [] (by decide) (by decide)).1⟩

/-! ## The prettifier only inserts blanks and newlines -/

theorem strip_blanks_append (a b : List Nat) :
    strip_blanks (a ++ b) = strip_blanks a ++ strip_blanks b := by
  unfold strip_blanks; exact List.filter_append _ _

theorem strip_blanks_blanks (n : Int) : strip_blanks (blanks n) = [] := by
  unfold strip_blanks blanks
  rw [List.filter_eq_nil_iff]
  intro a ha
  rw [List.eq_of_mem_replicate ha]
  decide

theorem strip_blanks_newline : strip_blanks [10] = [] := rfl

theorem strip_blanks_blank : strip_blanks [32] = [] := rfl

theorem strip_blanks_cons_blank (l : List Nat) : strip_blanks (32 :: l) = strip_blanks l := rfl

theorem strip_blanks_cons_newline (l : List Nat) : strip_blanks (10 :: l) = strip_blanks l := rfl

theorem strip_blanks_pair_newline (x : Nat) : strip_blanks [x, 10] = strip_blanks [x] := by
  rw [show [x, 10] = [x] ++ [10] from rfl, strip_blanks_append, strip_blanks_newline,
    List.append_nil]

theorem strip_blanks_pair_blank (x : Nat) : strip_blanks [x, 32] = strip_blanks [x] := by
  rw [show [x, 32] = [x] ++ [32] from rfl, strip_blanks_append, strip_blanks_blank,
    List.append_nil]

theorem strip_blanks_unquoted (before : Nat) (st : PRETTIFY) (x : Nat) :
    strip_blanks (mkjson_prettify_unquoted before st x).r =
      strip_blanks st.r ++ strip_blanks [x] := by
  unfold mkjson_prettify_unquoted
  dsimp only
  split_ifs <;>
    simp only [strip_blanks_append, strip_blanks_blanks, strip_blanks_newline, strip_blanks_blank,
      List.append_nil, List.append_assoc, List.nil_append,
      strip_blanks_pair_newline, strip_blanks_pair_blank]

theorem strip_blanks_step (before : Nat) (st : PRETTIFY) (x : Nat) :
    strip_blanks (mkjson_prettify_step before st x).r = strip_blanks st.r ++ strip_blanks [x] := by
  unfold mkjson_prettify_step
  dsimp only
  split_ifs <;>
    first
    | exact strip_blanks_append _ _
    | exact strip_blanks_unquoted before _ x

theorem strip_blanks_loop (before : Nat) (s : List Nat) :
    ∀ (st : PRETTIFY) (out : List Nat), mkjson_prettify_loop before s st = some (out, false) →
      strip_blanks out = strip_blanks st.r ++ strip_blanks (cstr s) := by
  induction s with
  | nil =>
    intro st out h
    simp only [mkjson_prettify_loop, Option.some.injEq, Prod.mk.injEq, and_true] at h
    rw [← h]
    simp [cstr, strip_blanks]
  | cons x s ih =>
    intro st out h
    rw [mkjson_prettify_loop] at h
    by_cases hx : x = 0
    · subst hx
      simp only [if_true, Option.some.injEq, Prod.mk.injEq, and_true] at h
      rw [← h]
      simp [cstr_cons_zero, strip_blanks]
    · rw [if_neg hx] at h
      by_cases hlen : st.r.length ≥ JSON_OUT_LEN_MAX - 5
      · rw [if_pos hlen] at h
        simp at h
      · rw [if_neg hlen] at h
        dsimp only at h
        by_cases hover : (mkjson_prettify_step before st x).r.length ≥ JSON_OUT_LEN_MAX
        · rw [if_pos hover] at h; cases h
        · rw [if_neg hover] at h
          rw [ih _ out h, strip_blanks_step, cstr_cons_pos x s hx, List.append_assoc,
            ← strip_blanks_append]
          rfl

theorem unquoted_copies_quote (before : Nat) (st : PRETTIFY) :
    (mkjson_prettify_unquoted before st 34).r = st.r ++ [34] := by
  unfold mkjson_prettify_unquoted
  simp

theorem step_copies_in_string (before : Nat) (st : PRETTIFY) (x : Nat)
    (h : st.quoted = true ∨ st.escaped = true ∨ x = 34 ∨ x = 92) :
    (mkjson_prettify_step before st x).r = st.r ++ [x] := by
  unfold mkjson_prettify_step
  by_cases he : x = 92 ∨ st.escaped = true
  · rw [if_pos he]
  · rw [if_neg he]
    have hx92 : x ≠ 92 := fun h92 => he (Or.inl h92)
    have hesc : ¬ st.escaped = true := fun h1 => he (Or.inr h1)
    dsimp only
    by_cases h34 : x = 34
    · subst h34
      rw [if_pos rfl]
      split_ifs
      · rfl
      · exact unquoted_copies_quote before _
    · have hq : st.quoted = true := by
        rcases h with h | h | h | h
        · exact h
        · exact absurd h hesc
        · exact absurd h h34
        · exact absurd h hx92
      rw [if_neg h34, if_pos hq]

/-! ## The table of `crc64` -/

set_option maxRecDepth 100000 in
/-- C30: the table `crc64_tab` has 256 entries, entry 128 is the reflected
Jones polynomial and every entry but one is the value that eight steps give;
entry 34 is `0xfa11fe771117cdf0` where eight steps give `0x0fa11fe77117cdf0`,
so on the one byte 34, from the start value 0, the table-driven `crc64` and
the bit-by-bit CRC differ. -/
theorem crc64_tab_entry_34_differs :
    crc64_tab.length = 256 ∧ crc64_tab.getD 128 0 = crc64_poly ∧
    (∀ i < 256, i ≠ 34 → crc64_tab.getD i 0 = crc64_tab_spec i) ∧
    crc64_tab.getD 34 0 = 0xfa11fe771117cdf0 ∧ crc64_tab_spec 34 = 0x0fa11fe77117cdf0 ∧
    crc64 0 [34] = 0xfa11fe771117cdf0 ∧ crc64_bitwise 0 [34] = 0x0fa11fe77117cdf0 ∧
    crc64 0 [34] ≠ crc64_bitwise 0 [34] := by
  refine ⟨by decide, by decide, by decide, by decide, by decide, by decide, by decide, by decide⟩

/-! ## The path of a chain of directories -/

theorem step_brace (before : Nat) (st : PRETTIFY) (hq : st.quoted = false)
    (he : st.escaped = false) :
    (mkjson_prettify_step before st 123).quoted = false ∧
    (mkjson_prettify_step before st 123).escaped = false ∧
    (mkjson_prettify_step before st 123).indent = st.indent + 2 ∧
    (mkjson_prettify_step before st 123).r = st.r ++ [123, 10] ++ blanks (st.indent + 2) := by
  simp [mkjson_prettify_step, mkjson_prettify_unquoted, hq, he]

theorem step_letter (before : Nat) (st : PRETTIFY) (hq : st.quoted = false)
    (he : st.escaped = false) :
    (mkjson_prettify_step before st 97).quoted = false ∧
    (mkjson_prettify_step before st 97).escaped = false ∧
    (mkjson_prettify_step before st 97).indent = st.indent ∧
    (mkjson_prettify_step before st 97).r = st.r ++ [97] := by
  simp [mkjson_prettify_step, mkjson_prettify_unquoted, hq, he]

theorem foldl_braces (before : Nat) (n : Nat) :
    ∀ (st : PRETTIFY) (k : Nat), st.quoted = false → st.escaped = false →
      st.indent = (k : Int) →
      ((List.replicate n 123).foldl (mkjson_prettify_step before) st).quoted = false ∧
      ((List.replicate n 123).foldl (mkjson_prettify_step before) st).escaped = false ∧
      ((List.replicate n 123).foldl (mkjson_prettify_step before) st).indent =
        ((k + 2 * n : Nat) : Int) ∧
      ((List.replicate n 123).foldl (mkjson_prettify_step before) st).r.length =
        st.r.length + n * (k + 2) + n * (n + 1) := by
  induction n with
  | zero => intro st k hq he hi; simp [hq, he, hi]
  | succ n ih =>
    intro st k hq he hi
    obtain ⟨s1, s2, s3, s4⟩ := step_brace before st hq he
    rw [List.replicate_succ, List.foldl_cons]
    have hi2 : (mkjson_prettify_step before st 123).indent = ((k + 2 : Nat) : Int) := by
      rw [s3, hi]; push_cast; rfl
    obtain ⟨i1, i2, i3, i4⟩ := ih (mkjson_prettify_step before st 123) (k + 2) s1 s2 hi2
    refine ⟨i1, i2, ?_, ?_⟩
    · rw [i3]; congr 1; omega
    · rw [i4, s4, hi]
      have hb : (blanks ((k : Int) + 2)).length = k + 2 := by
        unfold blanks
        rw [List.length_replicate]
        omega
      simp only [List.length_append, List.length_cons, List.length_nil, hb]
      ring

theorem foldl_letters (before : Nat) (n : Nat) :
    ∀ (st : PRETTIFY), st.quoted = false → st.escaped = false →
      ((List.replicate n 97).foldl (mkjson_prettify_step before) st).quoted = false ∧
      ((List.replicate n 97).foldl (mkjson_prettify_step before) st).escaped = false ∧
      ((List.replicate n 97).foldl (mkjson_prettify_step before) st).indent = st.indent ∧
      ((List.replicate n 97).foldl (mkjson_prettify_step before) st).r.length =
        st.r.length + n := by
  induction n with
  | zero => intro st hq he; simp [hq, he]
  | succ n ih =>
    intro st hq he
    obtain ⟨s1, s2, s3, s4⟩ := step_letter before st hq he
    rw [List.replicate_succ, List.foldl_cons]
    obtain ⟨i1, i2, i3, i4⟩ := ih (mkjson_prettify_step before st 97) s1 s2
    refine ⟨i1, i2, by rw [i3, s3], ?_⟩
    rw [i4, s4, List.length_append, List.length_singleton]
    omega

theorem ex_prettify_deep_fields :
    ex_prettify_deep.quoted = false ∧ ex_prettify_deep.escaped = false ∧
    ex_prettify_deep.indent = 176 ∧ ex_prettify_deep.r.length = 8186 := by
  unfold ex_prettify_deep
  rw [List.foldl_append]
  obtain ⟨b1, b2, b3, b4⟩ := foldl_braces 0 88 ⟨0, false, false, false, []⟩ 0 rfl rfl rfl
  obtain ⟨l1, l2, l3, l4⟩ := foldl_letters 0 178 _ b1 b2
  refine ⟨l1, l2, by rw [l3, b3]; rfl, ?_⟩
  rw [l4, b4]
  rfl

theorem unquoted_length_le (before : Nat) (st : PRETTIFY) (x : Nat) :
    st.r.length ≤ (mkjson_prettify_unquoted before st x).r.length := by
  unfold mkjson_prettify_unquoted
  dsimp only
  split_ifs <;> simp only [List.length_append] <;> omega

theorem step_length_le (before : Nat) (st : PRETTIFY) (x : Nat) :
    st.r.length ≤ (mkjson_prettify_step before st x).r.length := by
  unfold mkjson_prettify_step
  dsimp only
  split_ifs <;>
    first
    | exact unquoted_length_le before ⟨st.indent, st.array, !st.quoted, st.escaped, st.r⟩ x
    | exact unquoted_length_le before ⟨st.indent, st.array, st.quoted, st.escaped, st.r⟩ x
    | simp

theorem foldl_length_le (before : Nat) (p : List Nat) :
    ∀ st : PRETTIFY, st.r.length ≤ (p.foldl (mkjson_prettify_step before) st).r.length := by
  induction p with
  | nil => intro st; exact le_refl _
  | cons x p ih =>
    intro st
    rw [List.foldl_cons]
    exact le_trans (step_length_le before st x) (ih _)

/-- The turns for a leading part of the input whose output stays short of the
truncation limit are all taken. -/
theorem loop_append (before : Nat) (p : List Nat) :
    ∀ (st : PRETTIFY) (rest : List Nat), (∀ x ∈ p, x ≠ 0) →
      (p.foldl (mkjson_prettify_step before) st).r.length < JSON_OUT_LEN_MAX - 5 →
      mkjson_prettify_loop before (p ++ rest) st =
        mkjson_prettify_loop before rest (p.foldl (mkjson_prettify_step before) st) := by
  induction p with
  | nil => intro st rest _ _; rfl
  | cons x p ih =>
    intro st rest hx hlen
    rw [List.foldl_cons] at hlen ⊢
    have h1 := foldl_length_le before p (mkjson_prettify_step before st x)
    have h2 := step_length_le before st x
    have h5 : JSON_OUT_LEN_MAX - 5 ≤ JSON_OUT_LEN_MAX := Nat.sub_le _ _
    rw [List.cons_append, mkjson_prettify_loop, if_neg (hx x (List.mem_cons_self _ _)),
      if_neg (by omega)]
    dsimp only
    rw [if_neg (by omega)]
    exact ih _ rest (fun y hy => hx y (List.mem_cons_of_mem _ hy)) hlen

theorem ex_prettify_deep_last :
    (mkjson_prettify_step 0 ex_prettify_deep 123).r.length = 8366 := by
  obtain ⟨f1, f2, f3, f4⟩ := ex_prettify_deep_fields
  obtain ⟨_, _, _, s4⟩ := step_brace 0 ex_prettify_deep f1 f2
  have hb : (blanks (ex_prettify_deep.indent + 2)).length = 178 := by
    rw [f3]
    rfl
  rw [s4, List.length_append, List.length_append, hb, f4]
  rfl

theorem ex_json_deep_overrun : mkjson_prettify 0 ex_json_deep = none := by
  obtain ⟨f1, f2, f3, f4⟩ := ex_prettify_deep_fields
  have hlen := ex_prettify_deep_last
  have hfold : (List.replicate 88 123 ++ List.replicate 178 97).foldl (mkjson_prettify_step 0)
      ⟨0, false, false, false, []⟩ = ex_prettify_deep := by
    unfold ex_prettify_deep
    rfl
  have hpre := loop_append 0 (List.replicate 88 123 ++ List.replicate 178 97)
    ⟨0, false, false, false, []⟩ [123]
    (by
      intro x hx
      rcases List.mem_append.mp hx with h | h
      · rw [List.eq_of_mem_replicate h]; decide
      · rw [List.eq_of_mem_replicate h]; decide)
    (by rw [hfold, f4]; decide)
  rw [hfold] at hpre
  unfold mkjson_prettify ex_json_deep
  rw [hpre, mkjson_prettify_loop, if_neg (by decide), if_neg (by rw [f4]; decide)]
  dsimp only
  rw [if_pos (by rw [hlen]; decide)]

/-- C29 (the code departs from it): on the text of 88 times `{`, 178 times `a`
and one more `{` the truncation branch is not taken, since the output has
8186 bytes, fewer than `JSON_OUT_LEN_MAX - 5`, at the top of the last turn;
that turn writes `{`, a newline and 178 blanks, so that the output reaches
8366 bytes and leaves the array of `JSON_OUT_LEN_MAX` bytes.  Whenever the
output stays inside the array and the truncation branch is not taken, the
output without its blanks and newlines is the input string without its blanks
and newlines; and a turn of the loop that starts inside a quoted string or
after a backslash, or that reads a quote or a backslash, appends the character
read and nothing else. -/
theorem mkjson_prettify_overruns_output :
    (ex_json_deep.length = 267 ∧ 0 ∉ ex_json_deep ∧
      ex_prettify_deep.r.length = 8186 ∧ ex_prettify_deep.r.length < JSON_OUT_LEN_MAX - 5 ∧
      (mkjson_prettify_step 0 ex_prettify_deep 123).r.length = 8366 ∧
      JSON_OUT_LEN_MAX = 8192 ∧
      mkjson_prettify 0 ex_json_deep = none) ∧
    (∀ (before : Nat) (s out : List Nat), mkjson_prettify before s = some (out, false) →
      strip_blanks out = strip_blanks (cstr s)) ∧
    (∀ (before : Nat) (st : PRETTIFY) (x : Nat),
      (st.quoted = true ∨ st.escaped = true ∨ x = 34 ∨ x = 92) →
      (mkjson_prettify_step before st x).r = st.r ++ [x]) ∧
    mkjson_prettify 0 ex_json =
      some ([123, 10, 32, 32, 34, 97, 34, 58, 32, 91, 49, 44, 50, 93, 44, 10, 32, 34, 98, 34, 58,
        32, 34, 120, 44, 32, 121, 34, 10, 125], false) := by
  refine ⟨⟨?_, ?_, ex_prettify_deep_fields.2.2.2, ?_, ex_prettify_deep_last,
    rfl, ex_json_deep_overrun⟩, ?_, step_copies_in_string, by decide⟩
  · unfold ex_json_deep
    rw [List.length_append, List.length_append, List.length_replicate, List.length_replicate]
    rfl
  · intro h0
    unfold ex_json_deep at h0
    rcases List.mem_append.mp h0 with h | h
    · rcases List.mem_append.mp h with h | h
      · exact absurd (List.eq_of_mem_replicate h) (by decide)
      · exact absurd (List.eq_of_mem_replicate h) (by decide)
    · exact absurd (List.mem_singleton.mp h) (by decide)
  · rw [ex_prettify_deep_fields.2.2.2]; decide
  · intro before s out h
    have hs := strip_blanks_loop before s ⟨0, false, false, false, []⟩ out h
    rw [hs]
    rfl

/-! ## A chain with a repeated inode number -/

/-- C15 (as stated, refuted): with `/data` as the only allowed start, a CREATE
and then a MODIFY of `/tmp/a` are both rejected by the filter: no aggregate
is bound to the key after either event, nothing is submitted and `fs_events`
and `fs_records_deleted` stay 0, yet `fs_records` has grown by one at each of
the two events. -/
theorem fs_records_grows_without_aggregate :
    (handle_fs_event ex_cfg_data State.init ex_h ex_create_tmp).hash_records ex_key_tmp = none ∧
    (handle_fs_event ex_cfg_data State.init ex_h ex_create_tmp).stats.fs_records = 1 ∧
    (run ex_cfg_data State.init
      [(ex_h, ex_create_tmp), (ex_h_later, ex_modify_tmp)]).hash_records ex_key_tmp = none ∧
    (run ex_cfg_data State.init
      [(ex_h, ex_create_tmp), (ex_h_later, ex_modify_tmp)]).ringbuf_records = [] ∧
    (run ex_cfg_data State.init
      [(ex_h, ex_create_tmp), (ex_h_later, ex_modify_tmp)]).stats = ⟨2, 0, 0, 0, 0⟩ := by
  decide

/-! ## A dropped record is not submitted again -/

/-- The records submitted by a run depend on the store, up to `rc.type`, and on
the ring buffer only: not on the scratch slot, the statistics or the debug
counter. -/
theorem ringbuf_records_run_congr (cfg : Config) (evs : List (Helpers × FS_EVENT_INFO)) :
    ∀ st1 st2 : State,
      (∀ k, (st1.hash_records k).map untyped = (st2.hash_records k).map untyped) →
      st1.ringbuf_records = st2.ringbuf_records →
      (run cfg st1 evs).ringbuf_records = (run cfg st2 evs).ringbuf_records := by
  induction evs with
  | nil => intro st1 st2 _ hrb; exact hrb
  | cons e l ih =>
    intro st1 st2 hst hrb
    rw [run_cons, run_cons]
    obtain ⟨h1, h2⟩ := scratch_step cfg st1 st2 e.1 e.2 hst hrb
    exact ih _ _ h1 h2

/-- C7: when the handler closes an aggregate and the ring buffer has no room,
`fs_records_dropped` grows by exactly one, the key is unbound afterwards and
the ring buffer is as before.  The record is not submitted again: whatever
events follow, the records in the ring buffer are those that the same events
submit from the state that has the old ring buffer, the old store without the
key (and without the entries evicted by the update), and anything in the
scratch slot and the statistics, a state that holds nothing of the dropped
record; and an event on this key either leaves the ring buffer as it is or
appends one record whose `events` counts at most the later events on the
key. -/
theorem dropped_record_not_retried (cfg : Config) (st : State) (h : Helpers) (ev : FS_EVENT_INFO)
    (key : Nat) (ino : inode) (ht : fs_event_target cfg h ev = some (key, ino))
    (hp : is_path_allowed cfg.allowed_prefixes (record_for st h key ino ev).filepath = true)
    (hu : h.map_update_fails = false)
    (hclose : agg_end cfg ev.index ino.i_mode (record_merged st h key ino ev) = true)
    (hfull : h.ringbuf_output_fails = true) :
    (handle_fs_event cfg st h ev).stats.fs_records_dropped = st.stats.fs_records_dropped + 1 ∧
    (handle_fs_event cfg st h ev).hash_records key = none ∧
    (handle_fs_event cfg st h ev).ringbuf_records = st.ringbuf_records ∧
    (∀ (later : List (Helpers × FS_EVENT_INFO)) (scratch : RECORD_FS) (stats : STATS) (dbg : Nat),
      (run cfg (handle_fs_event cfg st h ev) later).ringbuf_records =
        (run cfg
          { hash_records := fun k => if k = key ∨ k ∈ h.lru_evicted then none
              else st.hash_records k,
            heap_record_fs := scratch, stats := stats, ringbuf_records := st.ringbuf_records,
            debug_count := dbg } later).ringbuf_records) ∧
    ∀ (later : List (Helpers × FS_EVENT_INFO)) (h2 : Helpers) (ev2 : FS_EVENT_INFO) (ino2 : inode),
      fs_event_target cfg h2 ev2 = some (key, ino2) →
      ((handle_fs_event cfg (run cfg (handle_fs_event cfg st h ev) later) h2 ev2).ringbuf_records =
          (run cfg (handle_fs_event cfg st h ev) later).ringbuf_records ∨
        ∃ r, (handle_fs_event cfg (run cfg (handle_fs_event cfg st h ev) later) h2
              ev2).ringbuf_records =
            (run cfg (handle_fs_event cfg st h ev) later).ringbuf_records ++ [r] ∧
          r.events ≤ events_on cfg key later + 1) := by
  have hstore := hash_records_accepted cfg st h ev key ino ht hp hu
  have hnone : (handle_fs_event cfg st h ev).hash_records key = none := by
    rw [hstore]
    simp [hclose]
  have hring : (handle_fs_event cfg st h ev).ringbuf_records = st.ringbuf_records := by
    rw [ringbuf_records_accepted cfg st h ev key ino ht hp hu]
    simp [hclose, hfull, bpf_ringbuf_output]
  refine ⟨?_, hnone, hring, ?_, ?_⟩
  · rw [stats_dropped_accepted cfg st h ev key ino ht hp hu]
    simp [hclose, hfull]
  · intro later scratch stats dbg
    apply ringbuf_records_run_congr cfg later
    · intro k
      rw [hstore]
      dsimp only
      by_cases hk : k = key
      · simp [hk, hclose]
      · by_cases he : k ∈ h.lru_evicted
        · simp [hk, he]
        · simp [hk, he]
    · exact hring
  · intro later h2 ev2 ino2 ht2
    have hbound := events_bound_run cfg (handle_fs_event cfg st h ev) key 0
      (by intro r hr; rw [hnone] at hr; cases hr) later
    cases hp2 : is_path_allowed cfg.allowed_prefixes
        (record_for (run cfg (handle_fs_event cfg st h ev) later) h2 key ino2 ev2).filepath with
    | false => exact Or.inl (ringbuf_records_filtered cfg _ h2 ev2 key ino2 ht2 hp2)
    | true =>
      cases hu2 : h2.map_update_fails with
      | true => exact Or.inl (ringbuf_records_update_failed cfg _ h2 ev2 key ino2 ht2 hp2 hu2)
      | false =>
        rw [ringbuf_records_accepted cfg _ h2 ev2 key ino2 ht2 hp2 hu2]
        cases hc : agg_end cfg ev2.index ino2.i_mode
            (record_merged (run cfg (handle_fs_event cfg st h ev) later) h2 key ino2 ev2) with
        | false => exact Or.inl (by simp)
        | true =>
          cases hf : h2.ringbuf_output_fails with
          | true => exact Or.inl (by simp [bpf_ringbuf_output])
          | false =>
            refine Or.inr ⟨record_closed
              (record_merged (run cfg (handle_fs_event cfg st h ev) later) h2 key ino2 ev2),
              by simp [bpf_ringbuf_output], ?_⟩
            show (record_merged (run cfg (handle_fs_event cfg st h ev) later) h2 key ino2
              ev2).events ≤ _
            have h1 := record_for_events_le (run cfg (handle_fs_event cfg st h ev) later) h2 key
              ino2 ev2 (0 + events_on cfg key later) hbound
            have h2' := record_update_events_le
              (record_for (run cfg (handle_fs_event cfg st h ev) later) h2 key ino2 ev2) ino2 ev2
            unfold record_merged
            omega

theorem dropped_record_not_retried_witness :
    (fs_event_target ex_cfg ex_h_full ex_close_write = some (ex_key, ex_inode 100 33188 1 0) ∧
      is_path_allowed ex_cfg.allowed_prefixes
        (record_for State.init ex_h_full ex_key (ex_inode 100 33188 1 0)
          ex_close_write).filepath = true ∧
      ex_h_full.map_update_fails = false ∧
      agg_end ex_cfg ex_close_write.index (ex_inode 100 33188 1 0).i_mode
        (record_merged State.init ex_h_full ex_key (ex_inode 100 33188 1 0) ex_close_write) = true ∧
      ex_h_full.ringbuf_output_fails = true) ∧
    ex_st_dropped.stats.fs_records_dropped = State.init.stats.fs_records_dropped + 1 ∧
    ex_st_dropped.hash_records ex_key = none ∧
    ex_st_dropped.ringbuf_records = State.init.ringbuf_records ∧
    (run ex_cfg ex_st_dropped [(ex_h, ex_modify_y), (ex_h_later, ex_close_write)]).ringbuf_records =
      (run ex_cfg
        { hash_records := fun k => if k = ex_key ∨ k ∈ ex_h_full.lru_evicted then none
            else State.init.hash_records k,
          heap_record_fs := RECORD_FS.zero, stats := ⟨0, 0, 0, 0, 0⟩,
          ringbuf_records := State.init.ringbuf_records, debug_count := 0 }
        [(ex_h, ex_modify_y), (ex_h_later, ex_close_write)]).ringbuf_records ∧
    (run ex_cfg ex_st_dropped
      [(ex_h, ex_modify_y), (ex_h_later, ex_close_write)]).ringbuf_records.map
        (fun r => (r.rc.ts, r.events)) = [(2000, 1)] ∧
    ((handle_fs_event ex_cfg (run ex_cfg ex_st_dropped [(ex_h, ex_modify_y)]) ex_h
          ex_close_write).ringbuf_records =
        (run ex_cfg ex_st_dropped [(ex_h, ex_modify_y)]).ringbuf_records ∨
      ∃ r, (handle_fs_event ex_cfg (run ex_cfg ex_st_dropped [(ex_h, ex_modify_y)]) ex_h
            ex_close_write).ringbuf_records =
          (run ex_cfg ex_st_dropped [(ex_h, ex_modify_y)]).ringbuf_records ++ [r] ∧
        r.events ≤ events_on ex_cfg ex_key [(ex_h, ex_modify_y)] + 1) :=
  ⟨⟨by decide, by decide, rfl, by decide, rfl⟩,
    (dropped_record_not_retried ex_cfg State.init ex_h_full ex_close_write ex_key
      (ex_inode 100 33188 1 0) (by decide) (by decide) rfl (by decide) rfl).1,
    (dropped_record_not_retried ex_cfg State.init ex_h_full ex_close_write ex_key
      (ex_inode 100 33188 1 0) (by decide) (by decide) rfl (by decide) rfl).2.1,
    (dropped_record_not_retried ex_cfg State.init ex_h_full ex_close_write ex_key
      (ex_inode 100 33188 1 0) (by decide) (by decide) rfl (by decide) rfl).2.2.1,
    (dropped_record_not_retried ex_cfg State.init ex_h_full ex_close_write ex_key
      (ex_inode 100 33188 1 0) (by decide) (by decide) rfl (by decide) rfl).2.2.2.1
      [(ex_h, ex_modify_y), (ex_h_later, ex_close_write)] RECORD_FS.zero ⟨0, 0, 0, 0, 0⟩ 0,
    by decide,
    (dropped_record_not_retried ex_cfg State.init ex_h_full ex_close_write ex_key
      (ex_inode 100 33188 1 0) (by decide) (by decide) rfl (by decide) rfl).2.2.2.2
      [(ex_h, ex_modify_y)] ex_h ex_close_write (ex_inode 100 33188 1 0) (by decide)⟩

end Dirt
